import Mathlib

/-!
Verification of the mimeapps association/default resolution engine of the
`xdg` repository (`mimeapps/util.go`, with `mimeapps/parse.go` and the
`desktop` package modelled at their interfaces).

Go maps are modelled as association lists (iteration order = list order)
when they are iterated, and as functions with the Go zero value for missing
keys when they are only read pointwise.  Filesystem reads are inputs:
`parse : String → ParseOutcome` models `mimeapps.ParseFile` at a path and
`load : String → Option Entry` models loading+parsing one desktop file
(`desktop.ParseFile` / `desktop.LoadFile`); `none` is a load failure.
-/

namespace XdgMime

/-- Character-wise lexicographic `≤`, modelling Go's byte-wise string
comparison used by `slices.Sort` on `[]string`. -/
def lexLe : List Char → List Char → Bool
  | [], _ => true
  | _ :: _, [] => false
  | a :: as, b :: bs =>
    if a.toNat < b.toNat then true
    else if b.toNat < a.toNat then false
    else lexLe as bs

/-- Go string `≤` (byte-wise lexicographic). -/
def strLe (a b : String) : Bool := lexLe a.data b.data

/-- Insertion step of insertion sort with `strLe`. -/
def insertStr (x : String) : List String → List String
  | [] => [x]
  | y :: ys => if strLe x y then x :: y :: ys else y :: insertStr x ys

/-- Model of Go `slices.Sort` on `[]string` (any correct sort is a faithful
model; insertion sort is used so that the kernel can evaluate it). -/
def sortStrings : List String → List String
  | [] => []
  | x :: xs => insertStr x (sortStrings xs)

/-- `mimeapps.isSubPathAbs`: Go `strings.HasPrefix(sub+"/", parent+"/")`
with path separator `/`. -/
def isSubPathAbs (sub parent : String) : Bool :=
  (parent ++ "/").data.isPrefixOf (sub ++ "/").data

/-- Model of Go `filepath.Base` for cleaned, slash-separated paths: the part
after the last `/`. -/
def filepathBase (p : String) : String :=
  ⟨(p.data.reverse.takeWhile (fun c => c ≠ '/')).reverse⟩

/-- Model of Go `filepath.Dir` for cleaned, slash-separated paths: the part
before the last `/`. -/
def filepathDir (p : String) : String :=
  ⟨((p.data.reverse.dropWhile (fun c => c ≠ '/')).drop 1).reverse⟩

/-- Association-list representation of a Go `map[string][]string`. -/
abbrev StrListMap := List (String × List String)

/-- Key lookup in the association-list model of a Go map (Go maps have
unique keys, so first match is the match). -/
def alookup (k : String) : StrListMap → Option (List String)
  | [] => none
  | e :: es => if e.1 = k then some e.2 else alookup k es

/-- Go `m[k]` read on a `map[string][]string`: zero value `nil` (= `[]`)
for a missing key. -/
def aget (m : StrListMap) (k : String) : List String := (alookup k m).getD []

/-- Go `m[k] = append(m[k], v)` on a `map[string][]string`: append to the
present value, or insert the key with `[v]`. -/
def updateAList : StrListMap → String → String → StrListMap
  | [], k, v => [(k, [v])]
  | e :: es, k, v => if e.1 = k then (e.1, e.2 ++ [v]) :: es else e :: updateAList es k v

/-- `mimeapps.MimeApps`: a parsed mimeapps.list file. -/
structure MimeApps where
  Default : StrListMap
  Added : StrListMap
  Removed : StrListMap
  deriving DecidableEq

/-- The all-empty parsed file (the Go zero value `MimeApps{}`). -/
def MimeApps.empty : MimeApps := ⟨[], [], []⟩

/-- Outcome of `mimeapps.ParseFile` at one path: parsed contents, missing
file (`os.ErrNotExist`), or an open/parse failure. -/
inductive ParseOutcome where
  | ok (m : MimeApps)
  | missing
  | failed
  deriving DecidableEq

/-- The `MimeApps` value `GetAssociations` is left with after its error
handling: missing and failed files both leave the zero value. -/
def ParseOutcome.toMimeApps : ParseOutcome → MimeApps
  | .ok m => m
  | .missing => MimeApps.empty
  | .failed => MimeApps.empty

/-- The part of `desktop.Entry` the resolvers read. -/
structure Entry where
  MimeType : List String
  deriving DecidableEq

/-- `mimeapps.ListLocation`. -/
structure ListLocation where
  Path : String
  HasDesktopFiles : Bool
  deriving DecidableEq

/-- The loop of `desktop.IdPathMap.LoadById`: first loadable path wins. -/
def firstLoadable (load : String → Option Entry) : List String → Option (Entry × String)
  | [] => none
  | p :: ps =>
    match load p with
    | some e => some (e, p)
    | none => firstLoadable load ps

/-- `desktop.IdPathMap.LoadById`; `none` models the `dfPath == ""` outcome
(unknown id or no loadable path). -/
def loadById (load : String → Option Entry) (idPathsMap : StrListMap)
    (desktopId : String) : Option (Entry × String) :=
  match alookup desktopId idPathsMap with
  | none => none
  | some paths => firstLoadable load paths

/-- Inner loops of the `desktopIdLowestIndex` precomputation: the final
value of `lowestPrecedence` after scanning all locations (the last location
index one of `paths` lies under; `-1` when none does). -/
def lowestPrecedenceLoop (paths : List String) : Int → Nat → List ListLocation → Int
  | acc, _, [] => acc
  | acc, i, loc :: rest =>
    let dir := filepathDir loc.Path
    lowestPrecedenceLoop paths
      (paths.foldl (fun a path => if isSubPathAbs path dir then (i : Int) else a) acc)
      (i + 1) rest

/-- The `desktopIdLowestIndex` map of `GetAssociations`.  The Go loop writes
each key of `idPathsMap` exactly once with a value depending only on that
key's paths, so the map is modelled as this per-key function; `none` models
`!exists`. -/
def desktopIdLowestIndex (locations : List ListLocation) (idPathsMap : StrListMap)
    (desktopId : String) : Option Int :=
  (alookup desktopId idPathsMap).map (fun paths => lowestPrecedenceLoop paths (-1) 0 locations)

/-- Mutable state of `GetAssociations`.  The two blacklists are only ever
read pointwise, so their Go maps are modelled as functions (zero value
`false` for a missing key); `result` keeps the `none`/`some` distinction of
a missing vs present key of the returned map. -/
@[ext]
structure AState where
  result : String → Option (List String)
  blacklistMimeDesktop : String → String → Bool
  blacklistDesktopIds : String → Bool

/-- `blacklistMimeDesktop[mime][desktopId] = true`. -/
def setBlacklistMD (f : String → String → Bool) (mime desktopId : String) :
    String → String → Bool :=
  fun m d => if m = mime ∧ d = desktopId then true else f m d

/-- `blacklistDesktopIds[desktopId] = true`. -/
def setTrue (f : String → Bool) (x : String) : String → Bool :=
  fun d => if d = x then true else f d

/-- The `result` insert of the Added loop: `[]string{id}` when the key is
missing, else append. -/
def pushResult (r : String → Option (List String)) (mime desktopId : String) :
    String → Option (List String) :=
  fun m => if m = mime then some ((r mime).getD [] ++ [desktopId]) else r m

/-- Body of the inner Added loop of `GetAssociations` for one desktop id at
location index `i`. -/
def processAddedId (dLI : String → Option Int) (i : Nat) (mime : String)
    (s : AState) (desktopId : String) : AState :=
  if s.blacklistDesktopIds desktopId then s
  else
    match dLI desktopId with
    | none => s
    | some depth =>
      if depth < (i : Int) then s
      else if s.blacklistMimeDesktop mime desktopId then s
      else
        { s with
          blacklistMimeDesktop := setBlacklistMD s.blacklistMimeDesktop mime desktopId,
          result := pushResult s.result mime desktopId }

/-- The Added loop of `GetAssociations` at location index `i`. -/
def processAdded (dLI : String → Option Int) (i : Nat) (s : AState) (m : StrListMap) : AState :=
  m.foldl (fun s e => e.2.foldl (processAddedId dLI i e.1) s) s

/-- Body of the inner Removed loop for one desktop id at location `i`. -/
def processRemovedId (dLI : String → Option Int) (i : Nat) (mime : String)
    (s : AState) (desktopId : String) : AState :=
  if s.blacklistDesktopIds desktopId then s
  else
    match dLI desktopId with
    | none => s
    | some depth =>
      if depth < (i : Int) then s
      else
        { s with blacklistMimeDesktop := setBlacklistMD s.blacklistMimeDesktop mime desktopId }

/-- The Removed loop of `GetAssociations` at location index `i`. -/
def processRemoved (dLI : String → Option Int) (i : Nat) (s : AState) (m : StrListMap) : AState :=
  m.foldl (fun s e => e.2.foldl (processRemovedId dLI i e.1) s) s

/-- One declared MimeType entry of one desktop file in the colocated scan:
queue into `toAdd` unless the pair is already decided. -/
def scanMime (desktopId : String) (acc : StrListMap × AState) (mime : String) :
    StrListMap × AState :=
  if acc.2.blacklistMimeDesktop mime desktopId then acc
  else
    (updateAList acc.1 mime desktopId,
      { acc.2 with
        blacklistMimeDesktop := setBlacklistMD acc.2.blacklistMimeDesktop mime desktopId })

/-- One candidate desktop-file path in the colocated scan. -/
def scanPath (load : String → Option Entry) (dirname : String) (desktopId : String)
    (acc : StrListMap × AState) (path : String) : StrListMap × AState :=
  if !isSubPathAbs path dirname then acc
  else if acc.2.blacklistDesktopIds desktopId then acc
  else
    let acc2 : StrListMap × AState :=
      (acc.1, { acc.2 with blacklistDesktopIds := setTrue acc.2.blacklistDesktopIds desktopId })
    match load path with
    | none => acc2
    | some entry => entry.MimeType.foldl (scanMime desktopId) acc2

/-- One id of the manifest index in the colocated scan. -/
def scanId (load : String → Option Entry) (dirname : String)
    (acc : StrListMap × AState) (e : String × List String) : StrListMap × AState :=
  if acc.2.blacklistDesktopIds e.1 then acc
  else e.2.foldl (scanPath load dirname e.1) acc

/-- One entry of the `toAdd` flush: sort the queued id list and append it to
`result[mime]` (`[]string` assignment when the key is missing). -/
def flushEntry (s : AState) (e : String × List String) : AState :=
  { s with
    result := fun m =>
      if m = e.1 then some ((s.result e.1).getD [] ++ sortStrings e.2) else s.result m }

/-- The `toAdd` flush loop. -/
def flushToAdd (acc : StrListMap × AState) : AState :=
  acc.1.foldl flushEntry acc.2

/-- The body of the per-location loop of `GetAssociations` at index `i`. -/
def processLocation (load : String → Option Entry) (parse : String → ParseOutcome)
    (dLI : String → Option Int) (idPathsMap : StrListMap)
    (i : Nat) (s : AState) (location : ListLocation) : AState :=
  if filepathBase location.Path ≠ "mimeapps.list" then s
  else
    let parsed := (parse location.Path).toMimeApps
    let s1 := processAdded dLI i s parsed.Added
    let s2 := processRemoved dLI i s1 parsed.Removed
    if !location.HasDesktopFiles then s2
    else flushToAdd (idPathsMap.foldl (scanId load (filepathDir location.Path)) ([], s2))

/-- `for i, location := range mimeappsLocations` of `GetAssociations`. -/
def assocLoop (load : String → Option Entry) (parse : String → ParseOutcome)
    (dLI : String → Option Int) (idPathsMap : StrListMap) :
    Nat → AState → List ListLocation → AState
  | _, s, [] => s
  | i, s, loc :: rest =>
    assocLoop load parse dLI idPathsMap (i + 1)
      (processLocation load parse dLI idPathsMap i s loc) rest

/-- The initial state: three freshly made empty maps. -/
def initialAState : AState := ⟨fun _ => none, fun _ _ => false, fun _ => false⟩

/-- `mimeapps.GetAssociations`, as a map from MIME type to desktop id list
(`none` = key absent from the returned Go map). -/
def GetAssociations (locations : List ListLocation) (idPathsMap : StrListMap)
    (parse : String → ParseOutcome) (load : String → Option Entry) :
    String → Option (List String) :=
  (assocLoop load parse (desktopIdLowestIndex locations idPathsMap) idPathsMap
      0 initialAState locations).result

/-- Body of the Default loop of `GetDefaults` for one desktop id: skip when
no loadable desktop file resolves, skip when the pair is not among the
associations, else append. -/
def defaultId (load : String → Option Entry) (idPathsMap : StrListMap)
    (associations : String → Option (List String)) (mime : String)
    (r : StrListMap) (desktopId : String) : StrListMap :=
  match loadById load idPathsMap desktopId with
  | none => r
  | some _ =>
    if desktopId ∈ (associations mime).getD [] then updateAList r mime desktopId else r

/-- The Default-section loop of `GetDefaults` for one parsed file. -/
def processDefaults (load : String → Option Entry) (idPathsMap : StrListMap)
    (associations : String → Option (List String)) (r : StrListMap) (m : StrListMap) :
    StrListMap :=
  m.foldl (fun r e => e.2.foldl (defaultId load idPathsMap associations e.1) r) r

/-- `mimeapps.GetDefaults` (with a non-nil `desktopIdToPathsMap`), returning
the Go result map as an association list in insertion order.  A missing file
and an open/parse failure both `continue` to the next location. -/
def GetDefaults (locations : List ListLocation) (associations : String → Option (List String))
    (idPathsMap : StrListMap) (parse : String → ParseOutcome)
    (load : String → Option Entry) : StrListMap :=
  locations.foldl
    (fun r loc =>
      match parse loc.Path with
      | .ok parsed => processDefaults load idPathsMap associations r parsed.Default
      | .missing => r
      | .failed => r)
    []

/-- `mimeapps.removeDuplicates` (the `seen` set is modelled by a list read
through membership). -/
def removeDuplicates (input : List String) : List String :=
  (input.foldl
    (fun acc item => if item ∈ acc.1 then acc else (item :: acc.1, acc.2 ++ [item]))
    (([] : List String), ([] : List String))).2

/-- The merge loop of `GetPreferredApplications` over the defaults table:
take the default list when the type has no associations, else prepend it and
deduplicate. -/
def mergePreferred (associations : String → Option (List String)) (defaults : StrListMap) :
    String → Option (List String) :=
  defaults.foldl
    (fun a e =>
      fun m =>
        if m = e.1 then
          match a e.1 with
          | none => some e.2
          | some l => some (removeDuplicates (e.2 ++ l))
        else a m)
    associations

/-- `mimeapps.GetPreferredApplications`. -/
def GetPreferredApplications (locations : List ListLocation) (idPathsMap : StrListMap)
    (parse : String → ParseOutcome) (load : String → Option Entry) :
    String → Option (List String) :=
  let associations := GetAssociations locations idPathsMap parse load
  let defaults := GetDefaults locations associations idPathsMap parse load
  mergePreferred associations defaults

/-! Derived notions used in the statements and proofs. -/

/-- The id list a state's result map holds for a type (`[]` when absent). -/
def resGet (s : AState) (t : String) : List String := (s.result t).getD []

/-- Unique keys, as in any Go map. -/
abbrev NodupKeys (t : StrListMap) : Prop := (t.map Prod.fst).Nodup

/-- The first path of a desktop id lying under a directory: the only path the
colocated scan ever attempts to load for that id. -/
def firstPathUnder (dirname : String) (paths : List String) : Option String :=
  paths.find? (fun q => isSubPathAbs q dirname)

/-- Point update of the parse-outcome assignment (changing what one path
holds on disk). -/
def updateOutcome (parse : String → ParseOutcome) (p : String) (o : ParseOutcome) :
    String → ParseOutcome :=
  fun q => if q = p then o else parse q

/-- The recursion underlying `removeDuplicates` with an explicit seen set. -/
def rdAux (seen : List String) : List String → List String
  | [] => []
  | x :: xs => if x ∈ seen then rdAux seen xs else x :: rdAux (x :: seen) xs

/-- One state extends another: result membership and both blacklists only
ever grow along the `GetAssociations` pass. -/
def Extends (s s' : AState) : Prop :=
  (∀ t x, x ∈ resGet s t → x ∈ resGet s' t) ∧
  (∀ t x, s.blacklistMimeDesktop t x = true → s'.blacklistMimeDesktop t x = true) ∧
  (∀ x, s.blacklistDesktopIds x = true → s'.blacklistDesktopIds x = true)

/-- The internal invariant of `GetAssociations` giving claims C1 and C10:
every id present in a result list is blacklisted for that type, every result
list is duplicate-free, and present keys hold non-empty lists. -/
def Inv (s : AState) : Prop :=
  (∀ t x, x ∈ resGet s t → s.blacklistMimeDesktop t x = true) ∧
  (∀ t, (resGet s t).Nodup) ∧
  (∀ t l, s.result t = some l → l ≠ [])

/-- Invariant carried through the colocated manifest scan: the base state
invariant, unique `toAdd` keys, and every queued list non-empty,
duplicate-free, blacklisted pairwise, and disjoint from the result so far. -/
def ScanInv (p : StrListMap × AState) : Prop :=
  Inv p.2 ∧ NodupKeys p.1 ∧
  ∀ e ∈ p.1, e.2 ≠ [] ∧ e.2.Nodup ∧
    ∀ x ∈ e.2, p.2.blacklistMimeDesktop e.1 x = true ∧ x ∉ resGet p.2 e.1

/-- Invariant of the `GetDefaults` accumulator: every stored list is
non-empty, and (claim C4) drawn from the provided associations. -/
def DInv (associations : String → Option (List String)) (r : StrListMap) : Prop :=
  ∀ e ∈ r, e.2 ≠ [] ∧ ∀ x ∈ e.2, x ∈ (associations e.1).getD []

/-! Concrete inputs used by witnesses and counterexamples. -/

/-- A single plain-named configuration location. -/
def exLoc : ListLocation := ⟨"/cfg/mimeapps.list", false⟩

/-- A manifest index with one id whose manifest sits next to `exLoc`. -/
def exIdm : StrListMap := [("foo.desktop", ["/cfg/foo.desktop"])]

/-- On-disk contents for `exLoc`: a Default and an Added directive. -/
def exParse : String → ParseOutcome :=
  fun p =>
    if p = "/cfg/mimeapps.list" then
      ParseOutcome.ok
        ⟨[("text/plain", ["foo.desktop"])], [("text/plain", ["foo.desktop"])], []⟩
    else ParseOutcome.missing

/-- Desktop-file loads: `foo.desktop` loads and declares `text/plain`. -/
def exLoad : String → Option Entry :=
  fun p => if p = "/cfg/foo.desktop" then some ⟨["text/plain"]⟩ else none

/-- An association table binding `text/plain` to `foo.desktop`. -/
def exAssoc : String → Option (List String) :=
  fun m => if m = "text/plain" then some ["foo.desktop"] else none

/-- Two plain-named locations at precedence 0 and 1. -/
def exLoc0 : ListLocation := ⟨"/a/mimeapps.list", false⟩

/-- See `exLoc0`. -/
def exLoc1 : ListLocation := ⟨"/b/mimeapps.list", false⟩

/-- Location 0 adds `(text/plain, foo.desktop)`, location 1 removes it. -/
def exParse2 : String → ParseOutcome :=
  fun p =>
    if p = "/a/mimeapps.list" then
      ParseOutcome.ok ⟨[], [("text/plain", ["foo.desktop"])], []⟩
    else if p = "/b/mimeapps.list" then
      ParseOutcome.ok ⟨[], [], [("text/plain", ["foo.desktop"])]⟩
    else ParseOutcome.missing

/-- `foo.desktop`'s manifest lies next to location 0. -/
def exIdm2 : StrListMap := [("foo.desktop", ["/a/foo.desktop"])]

/-- A desktop-environment-qualified location with colocated manifests. -/
def exLocQ : ListLocation := ⟨"/data/kde-mimeapps.list", true⟩

/-- A manifest colocated with `exLocQ` / `exLocS`. -/
def exIdmQ : StrListMap := [("foo.desktop", ["/data/foo.desktop"])]

/-- `foo.desktop` loads and declares `text/markdown`. -/
def exLoadQ : String → Option Entry :=
  fun p => if p = "/data/foo.desktop" then some ⟨["text/markdown"]⟩ else none

/-- A plain-named location with colocated manifests. -/
def exLocS : ListLocation := ⟨"/data/mimeapps.list", true⟩

/-- One id with two paths under `/data`; only the second is loadable. -/
def exIdm9 : StrListMap := [("a.desktop", ["/data/bad/a.desktop", "/data/good/a.desktop"])]

/-- The first path fails to load, the second declares `text/x`. -/
def exLoad9 : String → Option Entry :=
  fun p => if p = "/data/good/a.desktop" then some ⟨["text/x"]⟩ else none

/-! Notions for the determinism claim: two runs see the same maps, possibly
in different iteration orders. -/

/-- Two association lists represent the same Go map: permutations of each
other with unique keys (every iteration order of a Go map is such a list). -/
def MapEquiv (m1 m2 : StrListMap) : Prop := m1.Perm m2 ∧ NodupKeys m1

/-- Two parse outcomes represent the same on-disk contents: same outcome
kind, and for parsed files the three section maps agree as maps. -/
def OutcomeEquiv : ParseOutcome → ParseOutcome → Prop
  | .ok m1, .ok m2 =>
    MapEquiv m1.Default m2.Default ∧ MapEquiv m1.Added m2.Added ∧
      MapEquiv m1.Removed m2.Removed
  | .missing, .missing => True
  | .failed, .failed => True
  | _, _ => False

/-- Key-wise equivalence of queued-id maps: same keys, values equal up to
permutation. -/
def ValEquiv : Option (List String) → Option (List String) → Prop
  | none, none => True
  | some v1, some v2 => v1.Perm v2
  | _, _ => False

/-- Equivalence of scan accumulators: equal states, and `toAdd` maps
agreeing key-wise up to value permutation. -/
def ScanEquiv (p q : StrListMap × AState) : Prop :=
  p.2 = q.2 ∧ ∀ k, ValEquiv (alookup k p.1) (alookup k q.1)

/-- Two association lists agreeing as maps: equal lookups at every key. -/
def LookupEq (r1 r2 : StrListMap) : Prop := ∀ k, alookup k r1 = alookup k r2

/-- Witness inputs for the determinism theorem: the same manifest index in
two iteration orders. -/
def exIdmC7a : StrListMap :=
  [("a.desktop", ["/cfg/a.desktop"]), ("b.desktop", ["/cfg/b.desktop"])]

def exIdmC7b : StrListMap :=
  [("b.desktop", ["/cfg/b.desktop"]), ("a.desktop", ["/cfg/a.desktop"])]

def exLoadC7 : String → Option Entry := fun p =>
  if p = "/cfg/a.desktop" then some ⟨["text/x"]⟩
  else if p = "/cfg/b.desktop" then some ⟨["text/x", "text/y"]⟩
  else none

/-- The same parsed file with its section maps in two iteration orders. -/
def exMimeAppsC7a : MimeApps :=
  ⟨[("text/x", ["a.desktop"])],
   [("text/x", ["b.desktop"]), ("text/y", ["a.desktop"])], []⟩

def exMimeAppsC7b : MimeApps :=
  ⟨[("text/x", ["a.desktop"])],
   [("text/y", ["a.desktop"]), ("text/x", ["b.desktop"])], []⟩

def exParseC7a : String → ParseOutcome := fun p =>
  if p = "/cfg/mimeapps.list" then ParseOutcome.ok exMimeAppsC7a else ParseOutcome.missing

def exParseC7b : String → ParseOutcome := fun p =>
  if p = "/cfg/mimeapps.list" then ParseOutcome.ok exMimeAppsC7b else ParseOutcome.missing

def exLocC7 : ListLocation := ⟨"/cfg/mimeapps.list", true⟩

def exAssocC7 : String → Option (List String) := fun m =>
  if m = "text/x" then some ["a.desktop", "b.desktop"] else none

/-- The MimeType entries one scanned desktop file queues, in order: first
occurrences of declared types not already decided for this id (`bm` is the
row of `blacklistMimeDesktop` at this id). -/
def contribMimes (bm : String → Bool) : List String → List String
  | [] => []
  | m :: ms => if bm m then contribMimes bm ms else m :: contribMimes (setTrue bm m) ms

/-- What one id contributes to `toAdd` during the colocated scan, computed
from the state at which it is scanned. -/
def scanContrib (load : String → Option Entry) (dirname : String) (s : AState)
    (e : String × List String) : List String :=
  if s.blacklistDesktopIds e.1 then []
  else
    match firstPathUnder dirname e.2 with
    | none => []
    | some p =>
      match load p with
      | none => []
      | some entry => contribMimes (fun m => s.blacklistMimeDesktop m e.1) entry.MimeType

/-- Whether the scan exhausts the id at this location: it was not exhausted
and one of its paths lies under the location's directory. -/
def scanHits (dirname : String) (s : AState) (e : String × List String) : Bool :=
  !s.blacklistDesktopIds e.1 && (firstPathUnder dirname e.2).isSome

/-- Agreement of two states on everything the Added/Removed loop for one
MIME type reads and writes: the result and blacklist rows at that type, and
the id blacklist. -/
def Agree (mime : String) (s s2 : AState) : Prop :=
  s.result mime = s2.result mime ∧
  (∀ d, s.blacklistMimeDesktop mime d = s2.blacklistMimeDesktop mime d) ∧
  s.blacklistDesktopIds = s2.blacklistDesktopIds

end XdgMime

namespace XdgMime

/-! ### Basic lemmas about the list helpers -/

theorem alookup_cons (e : String × List String) (es : StrListMap) (j : String) :
    alookup j (e :: es) = if e.1 = j then some e.2 else alookup j es := rfl

theorem aget_cons_self {e : String × List String} {es : StrListMap} {k : String}
    (h : e.1 = k) : aget (e :: es) k = e.2 := by
  unfold aget
  rw [alookup_cons, if_pos h]
  rfl

theorem aget_cons_ne {e : String × List String} {es : StrListMap} {k : String}
    (h : ¬ e.1 = k) : aget (e :: es) k = aget es k := by
  unfold aget
  rw [alookup_cons, if_neg h]

theorem updateAList_cons (e : String × List String) (es : StrListMap) (k v : String) :
    updateAList (e :: es) k v =
      if e.1 = k then (e.1, e.2 ++ [v]) :: es else e :: updateAList es k v := rfl

theorem updateAList_cons_self {e : String × List String} {es : StrListMap} {k : String}
    (h : e.1 = k) (v : String) :
    updateAList (e :: es) k v = (e.1, e.2 ++ [v]) :: es := by
  rw [updateAList_cons, if_pos h]

theorem updateAList_cons_ne {e : String × List String} {es : StrListMap} {k : String}
    (h : ¬ e.1 = k) (v : String) :
    updateAList (e :: es) k v = e :: updateAList es k v := by
  rw [updateAList_cons, if_neg h]

theorem alookup_updateAList (t : StrListMap) (k v j : String) :
    alookup j (updateAList t k v) =
      if j = k then some (aget t k ++ [v]) else alookup j t := by
  induction t with
  | nil =>
    show alookup j [(k, [v])] = _
    rw [alookup_cons]
    by_cases h : j = k
    · subst h
      rw [if_pos rfl, if_pos rfl]
      rfl
    · rw [if_neg (fun hh => h hh.symm), if_neg h]
  | cons e es ih =>
    by_cases hek : e.1 = k
    · rw [updateAList_cons_self hek, alookup_cons]
      by_cases hj : e.1 = j
      · rw [if_pos hj]
        have hjk : j = k := by rw [← hj, hek]
        rw [if_pos hjk, aget_cons_self hek]
      · rw [if_neg hj]
        have hjk : ¬ j = k := fun hh => hj (by rw [hek, ← hh])
        rw [if_neg hjk, alookup_cons, if_neg hj]
    · rw [updateAList_cons_ne hek, alookup_cons]
      by_cases hej : e.1 = j
      · rw [if_pos hej]
        have hjk : ¬ j = k := fun hh => hek (by rw [hej, hh])
        rw [if_neg hjk, alookup_cons, if_pos hej]
      · rw [if_neg hej, ih, alookup_cons, if_neg hej]
        by_cases hjk : j = k
        · rw [if_pos hjk, if_pos hjk, aget_cons_ne hek]
        · rw [if_neg hjk, if_neg hjk]

theorem aget_updateAList (t : StrListMap) (k v j : String) :
    aget (updateAList t k v) j = if j = k then aget t k ++ [v] else aget t j := by
  unfold aget
  rw [alookup_updateAList]
  by_cases h : j = k
  · rw [if_pos h, if_pos h]
    rfl
  · rw [if_neg h, if_neg h]

theorem alookup_none_iff {t : StrListMap} {k : String} :
    alookup k t = none ↔ k ∉ t.map Prod.fst := by
  induction t with
  | nil => simp [alookup]
  | cons e es ih =>
    rw [alookup_cons]
    by_cases h : e.1 = k
    · subst h
      simp
    · rw [if_neg h]
      simp only [List.map_cons, List.mem_cons, ih]
      constructor
      · intro hn hmem
        rcases hmem with hmem | hmem
        · exact h hmem.symm
        · exact hn hmem
      · intro hn hmem
        exact hn (Or.inr hmem)

theorem keys_updateAList_of_none {t : StrListMap} {k : String}
    (h : alookup k t = none) (v : String) :
    (updateAList t k v).map Prod.fst = t.map Prod.fst ++ [k] := by
  induction t with
  | nil => rfl
  | cons e es ih =>
    rw [alookup_cons] at h
    by_cases hek : e.1 = k
    · rw [if_pos hek] at h
      exact absurd h (by simp)
    · rw [if_neg hek] at h
      rw [updateAList_cons_ne hek, List.map_cons, ih h, List.map_cons, List.cons_append]

theorem keys_updateAList_of_some {t : StrListMap} {k : String} {l : List String}
    (h : alookup k t = some l) (v : String) :
    (updateAList t k v).map Prod.fst = t.map Prod.fst := by
  induction t with
  | nil => simp [alookup] at h
  | cons e es ih =>
    rw [alookup_cons] at h
    by_cases hek : e.1 = k
    · rw [updateAList_cons_self hek, List.map_cons, List.map_cons]
    · rw [if_neg hek] at h
      rw [updateAList_cons_ne hek, List.map_cons, ih h, List.map_cons]

theorem nodupKeys_updateAList {t : StrListMap} (h : NodupKeys t) (k v : String) :
    NodupKeys (updateAList t k v) := by
  unfold NodupKeys at *
  cases hl : alookup k t with
  | none =>
    rw [keys_updateAList_of_none hl]
    have hk : k ∉ t.map Prod.fst := alookup_none_iff.mp hl
    rw [List.nodup_append]
    refine ⟨h, List.nodup_singleton k, ?_⟩
    intro a ha hb
    rw [List.mem_singleton] at hb
    subst hb
    exact hk ha
  | some l =>
    rw [keys_updateAList_of_some hl]
    exact h

theorem mem_updateAList {t : StrListMap} {k v : String} {e : String × List String}
    (h : e ∈ updateAList t k v) : e ∈ t ∨ e = (k, aget t k ++ [v]) := by
  induction t with
  | nil =>
    right
    have h2 : e ∈ [(k, [v])] := h
    rw [List.mem_singleton] at h2
    rw [h2]
    rfl
  | cons e0 es ih =>
    by_cases hek : e0.1 = k
    · rw [updateAList_cons_self hek] at h
      rcases List.mem_cons.mp h with h | h
      · right
        rw [h, hek, aget_cons_self hek]
      · left
        exact List.mem_cons_of_mem _ h
    · rw [updateAList_cons_ne hek] at h
      rcases List.mem_cons.mp h with h | h
      · left
        rw [h]
        exact List.mem_cons_self _ _
      · rcases ih h with h | h
        · left
          exact List.mem_cons_of_mem _ h
        · right
          rw [aget_cons_ne hek]
          exact h

/-! ### Sorting lemmas -/

theorem insertStr_perm (x : String) (l : List String) :
    (insertStr x l).Perm (x :: l) := by
  induction l with
  | nil => exact List.Perm.refl _
  | cons y ys ih =>
    unfold insertStr
    by_cases h : strLe x y
    · rw [if_pos h]
    · rw [if_neg h]
      exact (List.Perm.cons y ih).trans (List.Perm.swap x y ys)

theorem sortStrings_perm (l : List String) : (sortStrings l).Perm l := by
  induction l with
  | nil => exact List.Perm.refl _
  | cons x xs ih =>
    unfold sortStrings
    exact (insertStr_perm x (sortStrings xs)).trans (List.Perm.cons x ih)

theorem mem_sortStrings {x : String} {l : List String} :
    x ∈ sortStrings l ↔ x ∈ l :=
  (sortStrings_perm l).mem_iff

theorem nodup_sortStrings {l : List String} (h : l.Nodup) : (sortStrings l).Nodup :=
  (sortStrings_perm l).symm.nodup h

/-! ### Pointwise facts about the state updaters -/

theorem foldl_preserves {β γ : Type _} {P : β → Prop} (f : β → γ → β) (l : List γ) (b : β)
    (hb : P b) (hstep : ∀ c x, x ∈ l → P c → P (f c x)) : P (l.foldl f b) := by
  induction l generalizing b with
  | nil => exact hb
  | cons x xs ih =>
    exact ih (f b x) (hstep b x (List.mem_cons_self x xs) hb)
      (fun c y hy => hstep c y (List.mem_cons_of_mem x hy))

theorem setBlacklistMD_mono {f : String → String → Bool} {m d : String}
    (mime desktopId : String) (h : f m d = true) :
    setBlacklistMD f mime desktopId m d = true := by
  unfold setBlacklistMD
  split
  · rfl
  · exact h

theorem setBlacklistMD_self (f : String → String → Bool) (mime desktopId : String) :
    setBlacklistMD f mime desktopId mime desktopId = true := by
  unfold setBlacklistMD
  rw [if_pos ⟨rfl, rfl⟩]

theorem setBlacklistMD_ne {mime desktopId m d : String} (f : String → String → Bool)
    (h : ¬ (m = mime ∧ d = desktopId)) :
    setBlacklistMD f mime desktopId m d = f m d := by
  unfold setBlacklistMD
  rw [if_neg h]

theorem setTrue_mono {f : String → Bool} {d : String} (x : String) (h : f d = true) :
    setTrue f x d = true := by
  unfold setTrue
  split
  · rfl
  · exact h

theorem setTrue_self (f : String → Bool) (x : String) : setTrue f x x = true := by
  unfold setTrue
  rw [if_pos rfl]

theorem setTrue_ne {x d : String} (f : String → Bool) (h : ¬ d = x) :
    setTrue f x d = f d := by
  unfold setTrue
  rw [if_neg h]

theorem pushResult_self (r : String → Option (List String)) (mime desktopId : String) :
    pushResult r mime desktopId mime = some ((r mime).getD [] ++ [desktopId]) := by
  unfold pushResult
  rw [if_pos rfl]

theorem pushResult_ne {mime m : String} (r : String → Option (List String))
    (desktopId : String) (h : ¬ m = mime) :
    pushResult r mime desktopId m = r m := by
  unfold pushResult
  rw [if_neg h]

/-! ### The extension (monotonicity) relation -/

theorem extendsRefl (s : AState) : Extends s s :=
  ⟨fun _ _ h => h, fun _ _ h => h, fun _ h => h⟩

theorem extendsTrans {a b c : AState} (h1 : Extends a b) (h2 : Extends b c) :
    Extends a c :=
  ⟨fun t x h => h2.1 t x (h1.1 t x h),
   fun t x h => h2.2.1 t x (h1.2.1 t x h),
   fun x h => h2.2.2 x (h1.2.2 x h)⟩

theorem processAddedId_extends (dLI : String → Option Int) (i : Nat) (mime : String)
    (s : AState) (desktopId : String) :
    Extends s (processAddedId dLI i mime s desktopId) := by
  unfold processAddedId
  split
  · exact extendsRefl s
  · split
    · exact extendsRefl s
    · split
      · exact extendsRefl s
      · split
        · exact extendsRefl s
        · refine ⟨?_, ?_, ?_⟩
          · intro t x hx
            unfold resGet at *
            show x ∈ ((pushResult s.result mime desktopId) t).getD []
            by_cases ht : t = mime
            · subst ht
              rw [pushResult_self]
              exact List.mem_append_left _ hx
            · rw [pushResult_ne _ _ ht]
              exact hx
          · intro t x hx
            exact setBlacklistMD_mono mime desktopId hx
          · intro x hx
            exact hx

theorem processRemovedId_extends (dLI : String → Option Int) (i : Nat) (mime : String)
    (s : AState) (desktopId : String) :
    Extends s (processRemovedId dLI i mime s desktopId) := by
  unfold processRemovedId
  split
  · exact extendsRefl s
  · split
    · exact extendsRefl s
    · split
      · exact extendsRefl s
      · exact ⟨fun t x h => h, fun t x h => setBlacklistMD_mono mime desktopId h,
          fun x h => h⟩

theorem processAdded_extends (dLI : String → Option Int) (i : Nat) (s : AState)
    (m : StrListMap) : Extends s (processAdded dLI i s m) := by
  unfold processAdded
  refine foldl_preserves _ m s (extendsRefl s) ?_
  intro c e _ hc
  refine extendsTrans hc ?_
  refine foldl_preserves _ e.2 c (extendsRefl c) ?_
  intro c2 x _ hc2
  exact extendsTrans hc2 (processAddedId_extends dLI i e.1 c2 x)

theorem processRemoved_extends (dLI : String → Option Int) (i : Nat) (s : AState)
    (m : StrListMap) : Extends s (processRemoved dLI i s m) := by
  unfold processRemoved
  refine foldl_preserves _ m s (extendsRefl s) ?_
  intro c e _ hc
  refine extendsTrans hc ?_
  refine foldl_preserves _ e.2 c (extendsRefl c) ?_
  intro c2 x _ hc2
  exact extendsTrans hc2 (processRemovedId_extends dLI i e.1 c2 x)

theorem scanMime_extends (desktopId : String) (acc : StrListMap × AState) (mime : String) :
    Extends acc.2 (scanMime desktopId acc mime).2 := by
  unfold scanMime
  split
  · exact extendsRefl _
  · exact ⟨fun t x h => h, fun t x h => setBlacklistMD_mono mime desktopId h, fun x h => h⟩

theorem scanMime_result (desktopId : String) (acc : StrListMap × AState) (mime : String) :
    (scanMime desktopId acc mime).2.result = acc.2.result := by
  unfold scanMime
  split
  · rfl
  · rfl

theorem scanPath_extends (load : String → Option Entry) (dirname desktopId : String)
    (acc : StrListMap × AState) (path : String) :
    Extends acc.2 (scanPath load dirname desktopId acc path).2 := by
  unfold scanPath
  split
  · exact extendsRefl _
  · split
    · exact extendsRefl _
    · have hmid : Extends acc.2
          { acc.2 with blacklistDesktopIds := setTrue acc.2.blacklistDesktopIds desktopId } :=
        ⟨fun t x h => h, fun t x h => h, fun x h => setTrue_mono desktopId h⟩
      split
      · exact hmid
      · refine extendsTrans hmid ?_
        refine foldl_preserves
          (P := fun (acc2 : StrListMap × AState) => Extends { acc.2 with
            blacklistDesktopIds := setTrue acc.2.blacklistDesktopIds desktopId } acc2.2)
          _ _ _ (extendsRefl _) ?_
        intro c x _ hc
        exact extendsTrans hc (scanMime_extends desktopId c x)

theorem scanPath_result (load : String → Option Entry) (dirname desktopId : String)
    (acc : StrListMap × AState) (path : String) :
    (scanPath load dirname desktopId acc path).2.result = acc.2.result := by
  unfold scanPath
  split
  · rfl
  · split
    · rfl
    · split
      · rfl
      · refine foldl_preserves
          (P := fun (acc2 : StrListMap × AState) => acc2.2.result = acc.2.result) _ _ _ rfl ?_
        intro c x _ hc
        rw [scanMime_result, hc]

theorem scanId_extends (load : String → Option Entry) (dirname : String)
    (acc : StrListMap × AState) (e : String × List String) :
    Extends acc.2 (scanId load dirname acc e).2 := by
  unfold scanId
  split
  · exact extendsRefl _
  · refine foldl_preserves
      (P := fun (acc2 : StrListMap × AState) => Extends acc.2 acc2.2) _ _ _ (extendsRefl _) ?_
    intro c x _ hc
    exact extendsTrans hc (scanPath_extends load dirname e.1 c x)

theorem scanId_result (load : String → Option Entry) (dirname : String)
    (acc : StrListMap × AState) (e : String × List String) :
    (scanId load dirname acc e).2.result = acc.2.result := by
  unfold scanId
  split
  · rfl
  · refine foldl_preserves
      (P := fun (acc2 : StrListMap × AState) => acc2.2.result = acc.2.result) _ _ _ rfl ?_
    intro c x _ hc
    rw [scanPath_result, hc]

theorem scanFold_extends (load : String → Option Entry) (dirname : String)
    (idPathsMap : StrListMap) (acc : StrListMap × AState) :
    Extends acc.2 (idPathsMap.foldl (scanId load dirname) acc).2 := by
  refine foldl_preserves
    (P := fun (acc2 : StrListMap × AState) => Extends acc.2 acc2.2) _ _ _ (extendsRefl _) ?_
  intro c x _ hc
  exact extendsTrans hc (scanId_extends load dirname c x)

theorem scanFold_result (load : String → Option Entry) (dirname : String)
    (idPathsMap : StrListMap) (acc : StrListMap × AState) :
    (idPathsMap.foldl (scanId load dirname) acc).2.result = acc.2.result := by
  refine foldl_preserves
    (P := fun (acc2 : StrListMap × AState) => acc2.2.result = acc.2.result) _ _ _ rfl ?_
  intro c x _ hc
  rw [scanId_result, hc]

theorem flushEntry_result (s : AState) (e : String × List String) (m : String) :
    (flushEntry s e).result m =
      if m = e.1 then some (resGet s e.1 ++ sortStrings e.2) else s.result m := rfl

theorem resGet_flushEntry (s : AState) (e : String × List String) (m : String) :
    resGet (flushEntry s e) m =
      if m = e.1 then resGet s e.1 ++ sortStrings e.2 else resGet s m := by
  show ((flushEntry s e).result m).getD [] = _
  rw [flushEntry_result]
  by_cases hm : m = e.1
  · rw [if_pos hm, if_pos hm]
    rfl
  · rw [if_neg hm, if_neg hm]
    rfl

theorem flushEntry_blacklistMD (s : AState) (e : String × List String) :
    (flushEntry s e).blacklistMimeDesktop = s.blacklistMimeDesktop := rfl

theorem flushEntry_blacklistIds (s : AState) (e : String × List String) :
    (flushEntry s e).blacklistDesktopIds = s.blacklistDesktopIds := rfl

theorem flushEntry_extends (s : AState) (e : String × List String) :
    Extends s (flushEntry s e) := by
  refine ⟨?_, fun t x h => h, fun x h => h⟩
  intro t x hx
  rw [resGet_flushEntry]
  by_cases ht : t = e.1
  · rw [if_pos ht, ← ht]
    exact List.mem_append_left _ hx
  · rw [if_neg ht]
    exact hx

theorem flushToAdd_extends (acc : StrListMap × AState) : Extends acc.2 (flushToAdd acc) := by
  unfold flushToAdd
  refine foldl_preserves (P := fun s2 => Extends acc.2 s2) _ _ _ (extendsRefl _) ?_
  intro c e _ hc
  exact extendsTrans hc (flushEntry_extends c e)

theorem processLocation_extends (load : String → Option Entry) (parse : String → ParseOutcome)
    (dLI : String → Option Int) (idPathsMap : StrListMap) (i : Nat) (s : AState)
    (location : ListLocation) :
    Extends s (processLocation load parse dLI idPathsMap i s location) := by
  unfold processLocation
  split
  · exact extendsRefl s
  · have h1 := processAdded_extends dLI i s ((parse location.Path).toMimeApps).Added
    have h2 := processRemoved_extends dLI i (processAdded dLI i s ((parse location.Path).toMimeApps).Added)
      ((parse location.Path).toMimeApps).Removed
    have h12 := extendsTrans h1 h2
    split
    · exact h12
    · refine extendsTrans h12 ?_
      refine extendsTrans
        (scanFold_extends load (filepathDir location.Path) idPathsMap
          ([], processRemoved dLI i
            (processAdded dLI i s ((parse location.Path).toMimeApps).Added)
            ((parse location.Path).toMimeApps).Removed)) ?_
      exact flushToAdd_extends _

theorem assocLoop_extends (load : String → Option Entry) (parse : String → ParseOutcome)
    (dLI : String → Option Int) (idPathsMap : StrListMap) (i : Nat) (s : AState)
    (locations : List ListLocation) :
    Extends s (assocLoop load parse dLI idPathsMap i s locations) := by
  induction locations generalizing i s with
  | nil => exact extendsRefl s
  | cons loc rest ih =>
    exact extendsTrans (processLocation_extends load parse dLI idPathsMap i s loc)
      (ih (i + 1) _)

/-! ### Branch characterisations of the step functions -/

theorem bool_eq_false_of_not {b : Bool} (h : ¬ b = true) : b = false := by
  cases b
  · rfl
  · exact absurd rfl h

theorem mem_of_alookup_eq_some {t : StrListMap} {k : String} {v : List String}
    (h : alookup k t = some v) : (k, v) ∈ t := by
  induction t with
  | nil => exact absurd h (by simp [alookup])
  | cons e es ih =>
    rw [alookup_cons] at h
    by_cases hek : e.1 = k
    · rw [if_pos hek] at h
      injection h with h2
      subst h2
      subst hek
      cases e
      exact List.mem_cons_self _ _
    · rw [if_neg hek] at h
      exact List.mem_cons_of_mem _ (ih h)

theorem resGet_after_push (s : AState) (mime desktopId t : String) :
    (pushResult s.result mime desktopId t).getD [] =
      if t = mime then resGet s mime ++ [desktopId] else resGet s t := by
  by_cases ht : t = mime
  · subst ht
    rw [pushResult_self, if_pos rfl]
    rfl
  · rw [pushResult_ne _ _ ht, if_neg ht]
    rfl

theorem processAddedId_cases (dLI : String → Option Int) (i : Nat) (mime : String)
    (s : AState) (desktopId : String) :
    processAddedId dLI i mime s desktopId = s ∨
      (s.blacklistDesktopIds desktopId = false ∧
       s.blacklistMimeDesktop mime desktopId = false ∧
       (∃ depth, dLI desktopId = some depth ∧ ¬ depth < (i : Int)) ∧
       processAddedId dLI i mime s desktopId =
         { s with
           blacklistMimeDesktop := setBlacklistMD s.blacklistMimeDesktop mime desktopId,
           result := pushResult s.result mime desktopId }) := by
  unfold processAddedId
  split
  · exact Or.inl rfl
  next hbl =>
    split
    · exact Or.inl rfl
    next depth hdep =>
      split
      · exact Or.inl rfl
      next hlt =>
        split
        · exact Or.inl rfl
        next hmd =>
          exact Or.inr ⟨bool_eq_false_of_not hbl, bool_eq_false_of_not hmd,
            ⟨depth, hdep, hlt⟩, rfl⟩

theorem processRemovedId_cases (dLI : String → Option Int) (i : Nat) (mime : String)
    (s : AState) (desktopId : String) :
    processRemovedId dLI i mime s desktopId = s ∨
      (s.blacklistDesktopIds desktopId = false ∧
       (∃ depth, dLI desktopId = some depth ∧ ¬ depth < (i : Int)) ∧
       processRemovedId dLI i mime s desktopId =
         { s with
           blacklistMimeDesktop := setBlacklistMD s.blacklistMimeDesktop mime desktopId }) := by
  unfold processRemovedId
  split
  · exact Or.inl rfl
  next hbl =>
    split
    · exact Or.inl rfl
    next depth hdep =>
      split
      · exact Or.inl rfl
      next hlt =>
        exact Or.inr ⟨bool_eq_false_of_not hbl, ⟨depth, hdep, hlt⟩, rfl⟩

theorem scanMime_cases (desktopId : String) (acc : StrListMap × AState) (mime : String) :
    scanMime desktopId acc mime = acc ∨
      (acc.2.blacklistMimeDesktop mime desktopId = false ∧
       scanMime desktopId acc mime =
         (updateAList acc.1 mime desktopId,
          { acc.2 with
            blacklistMimeDesktop :=
              setBlacklistMD acc.2.blacklistMimeDesktop mime desktopId })) := by
  unfold scanMime
  split
  · exact Or.inl rfl
  next hmd =>
    exact Or.inr ⟨bool_eq_false_of_not hmd, rfl⟩

/-! ### Preservation of the state invariant -/

theorem processAddedId_inv {dLI : String → Option Int} {i : Nat} {mime : String}
    {s : AState} {desktopId : String} (h : Inv s) :
    Inv (processAddedId dLI i mime s desktopId) := by
  rcases processAddedId_cases dLI i mime s desktopId with he | ⟨_, hmd, _, he⟩
  · rw [he]; exact h
  · rw [he]
    obtain ⟨h1, h2, h3⟩ := h
    refine ⟨?_, ?_, ?_⟩
    · intro t x hx
      replace hx : x ∈ (pushResult s.result mime desktopId t).getD [] := hx
      rw [resGet_after_push] at hx
      show setBlacklistMD s.blacklistMimeDesktop mime desktopId t x = true
      by_cases ht : t = mime
      · rw [if_pos ht] at hx
        rcases List.mem_append.mp hx with hx2 | hx2
        · rw [ht]
          exact setBlacklistMD_mono _ _ (h1 mime x hx2)
        · rw [List.mem_singleton] at hx2
          rw [ht, hx2]
          exact setBlacklistMD_self _ _ _
      · rw [if_neg ht] at hx
        exact setBlacklistMD_mono _ _ (h1 t x hx)
    · intro t
      show ((pushResult s.result mime desktopId t).getD []).Nodup
      rw [resGet_after_push]
      by_cases ht : t = mime
      · rw [if_pos ht]
        refine List.Nodup.append (h2 mime) (List.nodup_singleton _) ?_
        intro a ha hb
        rw [List.mem_singleton] at hb
        subst hb
        have hc := h1 mime a ha
        rw [hmd] at hc
        exact Bool.false_ne_true hc
      · rw [if_neg ht]
        exact h2 t
    · intro t l hl
      replace hl : pushResult s.result mime desktopId t = some l := hl
      by_cases ht : t = mime
      · rw [ht, pushResult_self] at hl
        injection hl with hl2
        rw [← hl2]
        simp
      · rw [pushResult_ne _ _ ht] at hl
        exact h3 t l hl

theorem processRemovedId_inv {dLI : String → Option Int} {i : Nat} {mime : String}
    {s : AState} {desktopId : String} (h : Inv s) :
    Inv (processRemovedId dLI i mime s desktopId) := by
  rcases processRemovedId_cases dLI i mime s desktopId with he | ⟨_, _, he⟩
  · rw [he]; exact h
  · rw [he]
    obtain ⟨h1, h2, h3⟩ := h
    exact ⟨fun t x hx => setBlacklistMD_mono _ _ (h1 t x hx), h2, h3⟩

theorem processAdded_inv {dLI : String → Option Int} {i : Nat} {s : AState}
    {m : StrListMap} (h : Inv s) : Inv (processAdded dLI i s m) := by
  unfold processAdded
  refine foldl_preserves _ m s h ?_
  intro c e _ hc
  refine foldl_preserves _ e.2 c hc ?_
  intro c2 x _ hc2
  exact processAddedId_inv hc2

theorem processRemoved_inv {dLI : String → Option Int} {i : Nat} {s : AState}
    {m : StrListMap} (h : Inv s) : Inv (processRemoved dLI i s m) := by
  unfold processRemoved
  refine foldl_preserves _ m s h ?_
  intro c e _ hc
  refine foldl_preserves _ e.2 c hc ?_
  intro c2 x _ hc2
  exact processRemovedId_inv hc2

/-! ### Preservation of the scan invariant -/

theorem sortStrings_ne_nil {l : List String} (h : l ≠ []) : sortStrings l ≠ [] := by
  intro hc
  have hlen := (sortStrings_perm l).length_eq
  rw [hc] at hlen
  cases l with
  | nil => exact h rfl
  | cons x xs => simp at hlen

theorem scanMime_scanInv {desktopId : String} {acc : StrListMap × AState} {mime : String}
    (h : ScanInv acc) : ScanInv (scanMime desktopId acc mime) := by
  rcases scanMime_cases desktopId acc mime with he | ⟨hmd, he⟩
  · rw [he]
    exact h
  · rw [he]
    obtain ⟨⟨h1, h2, h3⟩, hkeys, hentries⟩ := h
    refine ⟨⟨?_, h2, h3⟩, nodupKeys_updateAList hkeys mime desktopId, ?_⟩
    · intro t x hx
      exact setBlacklistMD_mono _ _ (h1 t x hx)
    · intro e he2
      rcases mem_updateAList he2 with he2 | he2
      · obtain ⟨hne, hnd, hmem⟩ := hentries e he2
        refine ⟨hne, hnd, ?_⟩
        intro x hx
        obtain ⟨hb, hr⟩ := hmem x hx
        exact ⟨setBlacklistMD_mono _ _ hb, hr⟩
      · subst he2
        refine ⟨by simp, ?_, ?_⟩
        · show (aget acc.1 mime ++ [desktopId]).Nodup
          cases halook : alookup mime acc.1 with
          | none =>
            unfold aget
            rw [halook]
            exact List.nodup_singleton _
          | some v =>
            have hv : aget acc.1 mime = v := by
              unfold aget
              rw [halook]
              rfl
            rw [hv]
            obtain ⟨_, hnd, hmem⟩ := hentries (mime, v) (mem_of_alookup_eq_some halook)
            refine List.Nodup.append hnd (List.nodup_singleton _) ?_
            intro a ha hb
            rw [List.mem_singleton] at hb
            subst hb
            have hc := (hmem a ha).1
            rw [hmd] at hc
            exact Bool.false_ne_true hc
        · intro x hx
          rcases List.mem_append.mp hx with hx2 | hx2
          · cases halook : alookup mime acc.1 with
            | none =>
              unfold aget at hx2
              rw [halook] at hx2
              simp at hx2
            | some v =>
              have hv : aget acc.1 mime = v := by
                unfold aget
                rw [halook]
                rfl
              rw [hv] at hx2
              obtain ⟨_, _, hmem⟩ := hentries (mime, v) (mem_of_alookup_eq_some halook)
              obtain ⟨hb, hr⟩ := hmem x hx2
              exact ⟨setBlacklistMD_mono _ _ hb, hr⟩
          · rw [List.mem_singleton] at hx2
            subst hx2
            refine ⟨setBlacklistMD_self _ _ _, ?_⟩
            intro hr
            have hc := h1 mime x hr
            rw [hmd] at hc
            exact Bool.false_ne_true hc

theorem scanPath_scanInv (load : String → Option Entry) (dirname desktopId : String)
    {acc : StrListMap × AState} (path : String) (h : ScanInv acc) :
    ScanInv (scanPath load dirname desktopId acc path) := by
  unfold scanPath
  split
  · exact h
  · split
    · exact h
    · have hmid : ScanInv (acc.1,
          { acc.2 with blacklistDesktopIds := setTrue acc.2.blacklistDesktopIds desktopId }) := by
        obtain ⟨⟨h1, h2, h3⟩, hkeys, hentries⟩ := h
        exact ⟨⟨h1, h2, h3⟩, hkeys, hentries⟩
      split
      · exact hmid
      · refine foldl_preserves (P := fun acc2 => ScanInv acc2) _ _ _ hmid ?_
        intro c x _ hc
        exact scanMime_scanInv hc

theorem scanId_scanInv (load : String → Option Entry) (dirname : String)
    {acc : StrListMap × AState} (e : String × List String) (h : ScanInv acc) :
    ScanInv (scanId load dirname acc e) := by
  unfold scanId
  split
  · exact h
  · refine foldl_preserves (P := fun acc2 => ScanInv acc2) _ _ _ h ?_
    intro c x _ hc
    exact scanPath_scanInv load dirname e.1 x hc

theorem scanFold_scanInv (load : String → Option Entry) (dirname : String)
    (idPathsMap : StrListMap) {acc : StrListMap × AState} (h : ScanInv acc) :
    ScanInv (idPathsMap.foldl (scanId load dirname) acc) := by
  refine foldl_preserves (P := fun acc2 => ScanInv acc2) _ _ _ h ?_
  intro c x _ hc
  exact scanId_scanInv load dirname x hc

theorem nodupKeys_cons_ne {e : String × List String} {t : StrListMap}
    (h : NodupKeys (e :: t)) : (∀ e2 ∈ t, e2.1 ≠ e.1) ∧ NodupKeys t := by
  unfold NodupKeys at h
  rw [List.map_cons, List.nodup_cons] at h
  refine ⟨?_, h.2⟩
  intro e2 he2 hc
  exact h.1 (hc ▸ List.mem_map_of_mem Prod.fst he2)

theorem flushLoop_inv : ∀ (t : StrListMap) (s : AState),
    NodupKeys t → Inv s →
    (∀ e ∈ t, e.2 ≠ [] ∧ e.2.Nodup ∧
      ∀ x ∈ e.2, s.blacklistMimeDesktop e.1 x = true ∧ x ∉ resGet s e.1) →
    Inv (t.foldl flushEntry s) := by
  intro t
  induction t with
  | nil =>
    intro s _ hs _
    exact hs
  | cons e t' ih =>
    intro s hkeys hs hentries
    rw [List.foldl_cons]
    obtain ⟨hne0, hnd0, hmem0⟩ := hentries e (List.mem_cons_self _ _)
    obtain ⟨h1, h2, h3⟩ := hs
    obtain ⟨hdist, hkeys'⟩ := nodupKeys_cons_ne hkeys
    refine ih (flushEntry s e) hkeys' ⟨?_, ?_, ?_⟩ ?_
    · intro m x hx
      rw [resGet_flushEntry] at hx
      rw [flushEntry_blacklistMD]
      by_cases hm : m = e.1
      · rw [if_pos hm] at hx
        rcases List.mem_append.mp hx with hx2 | hx2
        · rw [hm]
          exact h1 e.1 x hx2
        · rw [mem_sortStrings] at hx2
          rw [hm]
          exact (hmem0 x hx2).1
      · rw [if_neg hm] at hx
        exact h1 m x hx
    · intro m
      rw [resGet_flushEntry]
      by_cases hm : m = e.1
      · rw [if_pos hm]
        refine List.Nodup.append (h2 e.1) (nodup_sortStrings hnd0) ?_
        intro a ha hb
        rw [mem_sortStrings] at hb
        exact (hmem0 a hb).2 ha
      · rw [if_neg hm]
        exact h2 m
    · intro m l hl
      rw [flushEntry_result] at hl
      by_cases hm : m = e.1
      · rw [if_pos hm] at hl
        injection hl with hl2
        rw [← hl2]
        intro hc
        rcases List.append_eq_nil.mp hc with ⟨_, hc2⟩
        exact sortStrings_ne_nil hne0 hc2
      · rw [if_neg hm] at hl
        exact h3 m l hl
    · intro e2 he2
      obtain ⟨hne2, hnd2, hmem2⟩ := hentries e2 (List.mem_cons_of_mem _ he2)
      refine ⟨hne2, hnd2, ?_⟩
      intro x hx
      obtain ⟨hb, hr⟩ := hmem2 x hx
      rw [flushEntry_blacklistMD, resGet_flushEntry]
      rw [if_neg (hdist e2 he2)]
      exact ⟨hb, hr⟩

theorem flushToAdd_inv {acc : StrListMap × AState} (h : ScanInv acc) :
    Inv (flushToAdd acc) := by
  obtain ⟨hs, hkeys, hentries⟩ := h
  exact flushLoop_inv acc.1 acc.2 hkeys hs hentries

theorem processLocation_inv (load : String → Option Entry) (parse : String → ParseOutcome)
    (dLI : String → Option Int) (idPathsMap : StrListMap) (i : Nat) {s : AState}
    (location : ListLocation) (h : Inv s) :
    Inv (processLocation load parse dLI idPathsMap i s location) := by
  unfold processLocation
  split
  · exact h
  · have h2 : Inv (processRemoved dLI i
        (processAdded dLI i s ((parse location.Path).toMimeApps).Added)
        ((parse location.Path).toMimeApps).Removed) :=
      processRemoved_inv (processAdded_inv h)
    split
    · exact h2
    · refine flushToAdd_inv ?_
      refine scanFold_scanInv load (filepathDir location.Path) idPathsMap ?_
      refine ⟨h2, ?_, ?_⟩
      · unfold NodupKeys
        exact List.nodup_nil
      · intro e he
        exact absurd he (List.not_mem_nil e)

theorem assocLoop_inv (load : String → Option Entry) (parse : String → ParseOutcome)
    (dLI : String → Option Int) (idPathsMap : StrListMap) :
    ∀ (locations : List ListLocation) (i : Nat) (s : AState), Inv s →
    Inv (assocLoop load parse dLI idPathsMap i s locations) := by
  intro locations
  induction locations with
  | nil =>
    intro i s h
    exact h
  | cons loc rest ih =>
    intro i s h
    exact ih (i + 1) _ (processLocation_inv load parse dLI idPathsMap i loc h)

theorem initialAState_inv : Inv initialAState := by
  refine ⟨?_, ?_, ?_⟩
  · intro t x hx
    exact absurd hx (List.not_mem_nil x)
  · intro t
    exact List.nodup_nil
  · intro t l hl
    exact absurd hl (by unfold initialAState; intro h; cases h)

theorem GetAssociations_inv (locations : List ListLocation) (idPathsMap : StrListMap)
    (parse : String → ParseOutcome) (load : String → Option Entry) :
    Inv (assocLoop load parse (desktopIdLowestIndex locations idPathsMap) idPathsMap
      0 initialAState locations) :=
  assocLoop_inv load parse _ idPathsMap locations 0 initialAState initialAState_inv

/-! ### The `GetDefaults` accumulator invariant -/

theorem defaultId_dinv {load : String → Option Entry} {idPathsMap : StrListMap}
    {associations : String → Option (List String)} {mime : String} {r : StrListMap}
    {desktopId : String} (h : DInv associations r) :
    DInv associations (defaultId load idPathsMap associations mime r desktopId) := by
  unfold defaultId
  split
  · exact h
  · split
    next hmem =>
      intro e he
      rcases mem_updateAList he with he2 | he2
      · exact h e he2
      · subst he2
        refine ⟨by simp, ?_⟩
        intro x hx
        rcases List.mem_append.mp hx with hx2 | hx2
        · cases halook : alookup mime r with
          | none =>
            unfold aget at hx2
            rw [halook] at hx2
            simp at hx2
          | some v =>
            have hv : aget r mime = v := by
              unfold aget
              rw [halook]
              rfl
            rw [hv] at hx2
            exact (h (mime, v) (mem_of_alookup_eq_some halook)).2 x hx2
        · rw [List.mem_singleton] at hx2
          subst hx2
          exact hmem
    · exact h

theorem processDefaults_dinv {load : String → Option Entry} {idPathsMap : StrListMap}
    {associations : String → Option (List String)} {r : StrListMap} {m : StrListMap}
    (h : DInv associations r) :
    DInv associations (processDefaults load idPathsMap associations r m) := by
  unfold processDefaults
  refine foldl_preserves _ m r h ?_
  intro c e _ hc
  refine foldl_preserves _ e.2 c hc ?_
  intro c2 x _ hc2
  exact defaultId_dinv hc2

theorem GetDefaults_dinv (locations : List ListLocation)
    (associations : String → Option (List String)) (idPathsMap : StrListMap)
    (parse : String → ParseOutcome) (load : String → Option Entry) :
    DInv associations (GetDefaults locations associations idPathsMap parse load) := by
  unfold GetDefaults
  refine foldl_preserves _ locations [] ?_ ?_
  · intro e he
    exact absurd he (List.not_mem_nil e)
  · intro c loc _ hc
    split
    · exact processDefaults_dinv hc
    · exact hc
    · exact hc

/-! ### `removeDuplicates` theory -/

theorem removeDuplicates_foldl (l : List String) (seen out : List String) :
    (l.foldl
      (fun acc item => if item ∈ acc.1 then acc else (item :: acc.1, acc.2 ++ [item]))
      (seen, out)).2 = out ++ rdAux seen l := by
  induction l generalizing seen out with
  | nil => simp [rdAux]
  | cons x xs ih =>
    rw [List.foldl_cons]
    by_cases hx : x ∈ seen
    · rw [if_pos hx]
      unfold rdAux
      rw [if_pos hx, ih]
    · rw [if_neg hx]
      unfold rdAux
      rw [if_neg hx, ih]
      simp [List.append_assoc]

theorem removeDuplicates_eq_rdAux (l : List String) : removeDuplicates l = rdAux [] l := by
  unfold removeDuplicates
  rw [removeDuplicates_foldl]
  exact List.nil_append _

theorem mem_rdAux {x : String} : ∀ {l seen : List String},
    x ∈ rdAux seen l ↔ x ∈ l ∧ x ∉ seen := by
  intro l
  induction l with
  | nil =>
    intro seen
    simp [rdAux]
  | cons y ys ih =>
    intro seen
    unfold rdAux
    by_cases hy : y ∈ seen
    · rw [if_pos hy]
      constructor
      · intro hc
        obtain ⟨h1, h2⟩ := ih.mp hc
        exact ⟨List.mem_cons_of_mem _ h1, h2⟩
      · intro ⟨h1, h2⟩
        rcases List.mem_cons.mp h1 with hc | hc
        · subst hc
          exact absurd hy h2
        · exact ih.mpr ⟨hc, h2⟩
    · rw [if_neg hy]
      constructor
      · intro hc
        rcases List.mem_cons.mp hc with hc | hc
        · subst hc
          exact ⟨List.mem_cons_self _ _, hy⟩
        · obtain ⟨h1, h2⟩ := ih.mp hc
          refine ⟨List.mem_cons_of_mem _ h1, ?_⟩
          intro hs
          exact h2 (List.mem_cons_of_mem _ hs)
      · intro ⟨h1, h2⟩
        by_cases hxy : x = y
        · subst hxy
          exact List.mem_cons_self _ _
        · rcases List.mem_cons.mp h1 with hc | hc
          · exact absurd hc hxy
          · refine List.mem_cons_of_mem _ (ih.mpr ⟨hc, ?_⟩)
            intro hs
            rcases List.mem_cons.mp hs with hs | hs
            · exact hxy hs
            · exact h2 hs

theorem nodup_rdAux : ∀ (l seen : List String), (rdAux seen l).Nodup := by
  intro l
  induction l with
  | nil =>
    intro seen
    exact List.nodup_nil
  | cons y ys ih =>
    intro seen
    unfold rdAux
    by_cases hy : y ∈ seen
    · rw [if_pos hy]
      exact ih seen
    · rw [if_neg hy]
      rw [List.nodup_cons]
      refine ⟨?_, ih (y :: seen)⟩
      intro hc
      exact (mem_rdAux.mp hc).2 (List.mem_cons_self _ _)

theorem nodup_removeDuplicates (l : List String) : (removeDuplicates l).Nodup := by
  rw [removeDuplicates_eq_rdAux]
  exact nodup_rdAux l []

theorem removeDuplicates_ne_nil {l : List String} (h : l ≠ []) :
    removeDuplicates l ≠ [] := by
  rw [removeDuplicates_eq_rdAux]
  cases l with
  | nil => exact absurd rfl h
  | cons x xs =>
    unfold rdAux
    rw [if_neg (List.not_mem_nil x)]
    intro hc
    cases hc

theorem rdAux_cons_eq (seen : List String) (y : String) (ys : List String) :
    rdAux seen (y :: ys) =
      if y ∈ seen then rdAux seen ys else y :: rdAux (y :: seen) ys := rfl

theorem rdAux_congr : ∀ (l : List String) {seen1 seen2 : List String},
    (∀ x, x ∈ seen1 ↔ x ∈ seen2) → rdAux seen1 l = rdAux seen2 l := by
  intro l
  induction l with
  | nil =>
    intro seen1 seen2 _
    rfl
  | cons y ys ih =>
    intro seen1 seen2 hseen
    unfold rdAux
    by_cases hy : y ∈ seen1
    · rw [if_pos hy, if_pos ((hseen y).mp hy)]
      exact ih hseen
    · rw [if_neg hy, if_neg (fun hc => hy ((hseen y).mpr hc))]
      refine congrArg _ (ih ?_)
      intro x
      rw [List.mem_cons, List.mem_cons, hseen x]

theorem rdAux_cons_seen : ∀ (l : List String) (y : String) (seen : List String),
    rdAux (y :: seen) l = (rdAux seen l).filter (fun x => !(x == y)) := by
  intro l
  induction l with
  | nil =>
    intro y seen
    rfl
  | cons z zs ih =>
    intro y seen
    by_cases hz : z ∈ seen
    · have h1 : rdAux (y :: seen) (z :: zs) = rdAux (y :: seen) zs := by
        rw [rdAux_cons_eq, if_pos (List.mem_cons_of_mem _ hz)]
      have h2 : rdAux seen (z :: zs) = rdAux seen zs := by
        rw [rdAux_cons_eq, if_pos hz]
      rw [h1, h2, ih]
    · by_cases hzy : z = y
      · subst hzy
        have h1 : rdAux (z :: seen) (z :: zs) = rdAux (z :: seen) zs := by
          rw [rdAux_cons_eq, if_pos (List.mem_cons_self _ _)]
        have h2 : rdAux seen (z :: zs) = z :: rdAux (z :: seen) zs := by
          rw [rdAux_cons_eq, if_neg hz]
        rw [h1, h2]
        rw [List.filter_cons]
        have hself : (!(z == z)) = false := by simp
        rw [hself]
        simp only [Bool.false_eq_true, if_false]
        rw [List.filter_eq_self.mpr]
        intro a ha
        have hna := (mem_rdAux.mp ha).2
        have : ¬ a = z := fun hc => hna (hc ▸ List.mem_cons_self _ _)
        simp [this]
      · have h1 : rdAux (y :: seen) (z :: zs) = z :: rdAux (z :: y :: seen) zs := by
          rw [rdAux_cons_eq, if_neg ?_]
          intro hc
          rcases List.mem_cons.mp hc with hc | hc
          · exact hzy hc
          · exact hz hc
        have h2 : rdAux seen (z :: zs) = z :: rdAux (z :: seen) zs := by
          rw [rdAux_cons_eq, if_neg hz]
        rw [h1, h2, List.filter_cons]
        have hzyb : (!(z == y)) = true := by simp [hzy]
        rw [hzyb]
        simp only [if_true]
        refine congrArg _ ?_
        have hswap : rdAux (z :: y :: seen) zs = rdAux (y :: z :: seen) zs := by
          refine rdAux_congr zs ?_
          intro x
          constructor
          · intro hc
            rcases List.mem_cons.mp hc with hc | hc
            · exact hc ▸ List.mem_cons_of_mem _ (List.mem_cons_self _ _)
            · rcases List.mem_cons.mp hc with hc | hc
              · exact hc ▸ List.mem_cons_self _ _
              · exact List.mem_cons_of_mem _ (List.mem_cons_of_mem _ hc)
          · intro hc
            rcases List.mem_cons.mp hc with hc | hc
            · exact hc ▸ List.mem_cons_of_mem _ (List.mem_cons_self _ _)
            · rcases List.mem_cons.mp hc with hc | hc
              · exact hc ▸ List.mem_cons_self _ _
              · exact List.mem_cons_of_mem _ (List.mem_cons_of_mem _ hc)
        rw [hswap, ih]

theorem rdAux_append : ∀ (l1 l2 : List String) (seen : List String),
    rdAux seen (l1 ++ l2) =
      rdAux seen l1 ++ (rdAux seen l2).filter (fun x => !(l1.contains x)) := by
  intro l1
  induction l1 with
  | nil =>
    intro l2 seen
    have hp : ∀ x ∈ rdAux seen l2, (!(([] : List String).contains x)) = true := by
      intro x _
      rfl
    rw [List.nil_append]
    show rdAux seen l2 = rdAux seen [] ++ _
    rw [List.filter_eq_self.mpr hp]
    rfl
  | cons y l1' ih =>
    intro l2 seen
    by_cases hy : y ∈ seen
    · have h1 : rdAux seen ((y :: l1') ++ l2) = rdAux seen (l1' ++ l2) := by
        rw [List.cons_append, rdAux_cons_eq, if_pos hy]
      have h2 : rdAux seen (y :: l1') = rdAux seen l1' := by
        rw [rdAux_cons_eq, if_pos hy]
      rw [h1, h2, ih]
      refine congrArg _ ?_
      refine List.filter_congr ?_
      intro x hx
      have hxs := (mem_rdAux.mp hx).2
      have hxy : (x == y) = false := by
        rw [beq_eq_false_iff_ne]
        intro hc
        exact hxs (hc ▸ hy)
      rw [List.contains_cons, hxy, Bool.false_or]
    · have h1 : rdAux seen ((y :: l1') ++ l2) = y :: rdAux (y :: seen) (l1' ++ l2) := by
        rw [List.cons_append, rdAux_cons_eq, if_neg hy]
      have h2 : rdAux seen (y :: l1') = y :: rdAux (y :: seen) l1' := by
        rw [rdAux_cons_eq, if_neg hy]
      rw [h1, h2, ih, List.cons_append]
      refine congrArg _ ?_
      refine congrArg _ ?_
      rw [rdAux_cons_seen, List.filter_filter]
      refine List.filter_congr ?_
      intro x hx
      rw [List.contains_cons, Bool.not_or]
      exact Bool.and_comm _ _

theorem removeDuplicates_append (l1 l2 : List String) :
    removeDuplicates (l1 ++ l2) =
      removeDuplicates l1 ++ (removeDuplicates l2).filter (fun x => !(l1.contains x)) := by
  rw [removeDuplicates_eq_rdAux, removeDuplicates_eq_rdAux, removeDuplicates_eq_rdAux]
  exact rdAux_append l1 l2 []

theorem rdAux_eq_self : ∀ {l seen : List String}, l.Nodup → (∀ x ∈ l, x ∉ seen) →
    rdAux seen l = l := by
  intro l
  induction l with
  | nil =>
    intro seen _ _
    rfl
  | cons y ys ih =>
    intro seen hnd hdisj
    unfold rdAux
    rw [if_neg (hdisj y (List.mem_cons_self _ _))]
    refine congrArg _ (ih (List.Nodup.of_cons hnd) ?_)
    intro x hx hc
    rcases List.mem_cons.mp hc with hc | hc
    · rw [List.nodup_cons] at hnd
      exact hnd.1 (hc ▸ hx)
    · exact hdisj x (List.mem_cons_of_mem _ hx) hc

theorem removeDuplicates_of_nodup {l : List String} (h : l.Nodup) :
    removeDuplicates l = l := by
  rw [removeDuplicates_eq_rdAux]
  exact rdAux_eq_self h (fun x _ hc => List.not_mem_nil x hc)

/-! ### The merge loop of `GetPreferredApplications` -/

theorem mergePreferred_step (a : String → Option (List String)) (e : String × List String)
    (m : String) :
    (fun m2 =>
      if m2 = e.1 then
        match a e.1 with
        | none => some e.2
        | some l => some (removeDuplicates (e.2 ++ l))
      else a m2) m =
      if m = e.1 then
        match a e.1 with
        | none => some e.2
        | some l => some (removeDuplicates (e.2 ++ l))
      else a m := rfl

theorem mergePreferred_notin (a : String → Option (List String)) :
    ∀ (defaults : StrListMap) (m : String), alookup m defaults = none →
    mergePreferred a defaults m = a m := by
  intro defaults
  induction defaults generalizing a with
  | nil =>
    intro m _
    rfl
  | cons e ds ih =>
    intro m hm
    rw [alookup_cons] at hm
    by_cases hem : e.1 = m
    · rw [if_pos hem] at hm
      exact absurd hm (by simp)
    · rw [if_neg hem] at hm
      unfold mergePreferred
      rw [List.foldl_cons]
      show mergePreferred _ ds m = a m
      rw [ih _ m hm]
      rw [if_neg (fun hc => hem hc.symm)]

theorem mergePreferred_in (a : String → Option (List String)) :
    ∀ (defaults : StrListMap) (m : String) (dl : List String), NodupKeys defaults →
    alookup m defaults = some dl →
    mergePreferred a defaults m =
      (match a m with
       | none => some dl
       | some al => some (removeDuplicates (dl ++ al))) := by
  intro defaults
  induction defaults generalizing a with
  | nil =>
    intro m dl _ hm
    exact absurd hm (by simp [alookup])
  | cons e ds ih =>
    intro m dl hkeys hm
    rw [alookup_cons] at hm
    obtain ⟨hdist, hkeys'⟩ := nodupKeys_cons_ne hkeys
    by_cases hem : e.1 = m
    · rw [if_pos hem] at hm
      injection hm with hm2
      subst hm2
      have hnone : alookup m ds = none := by
        rw [alookup_none_iff]
        intro hc
        rcases List.mem_map.mp hc with ⟨e2, he2, he2k⟩
        exact hdist e2 he2 (he2k.trans hem.symm)
      unfold mergePreferred
      rw [List.foldl_cons]
      show mergePreferred _ ds m = _
      rw [mergePreferred_notin _ ds m hnone]
      rw [if_pos hem.symm, hem]
    · rw [if_neg hem] at hm
      unfold mergePreferred
      rw [List.foldl_cons]
      show mergePreferred _ ds m = _
      rw [ih _ m dl hkeys' hm]
      rw [if_neg (fun hc => hem hc.symm)]

theorem mergePreferred_nonempty {associations : String → Option (List String)}
    {defaults : StrListMap}
    (ha : ∀ m l, associations m = some l → l ≠ [])
    (hd : ∀ e ∈ defaults, e.2 ≠ []) :
    ∀ m l, mergePreferred associations defaults m = some l → l ≠ [] := by
  unfold mergePreferred
  refine foldl_preserves
    (P := fun (a : String → Option (List String)) => ∀ m l, a m = some l → l ≠ []) _ _ _ ha ?_
  intro c e he hc m l hml
  by_cases hm : m = e.1
  · rw [if_pos hm] at hml
    cases hce : c e.1 with
    | none =>
      rw [hce] at hml
      injection hml with hml2
      rw [← hml2]
      exact hd e he
    | some l0 =>
      rw [hce] at hml
      injection hml with hml2
      rw [← hml2]
      refine removeDuplicates_ne_nil ?_
      intro hcc
      exact hd e he (List.append_eq_nil.mp hcc).1
  · rw [if_neg hm] at hml
    exact hc m l hml

/-! ### Claims C1, C4, C10, C5 -/

/-- C1: for every list of locations and every manifest index, every
ContentType key present in the table returned by `GetAssociations` maps to a
sequence containing no duplicate ApplicationId values. -/
theorem C1_association_values_nodup (locations : List ListLocation) (idPathsMap : StrListMap)
    (parse : String → ParseOutcome) (load : String → Option Entry) (t : String)
    (l : List String) (h : GetAssociations locations idPathsMap parse load t = some l) :
    l.Nodup := by
  have hinv := (GetAssociations_inv locations idPathsMap parse load).2.1 t
  unfold GetAssociations at h
  unfold resGet at hinv
  rw [h] at hinv
  exact hinv

/-- Witness for C1 at a concrete one-location scenario. -/
theorem C1_association_values_nodup_witness :
    GetAssociations [exLoc] exIdm exParse exLoad "text/plain" = some ["foo.desktop"] ∧
      (["foo.desktop"] : List String).Nodup :=
  ⟨by decide,
   C1_association_values_nodup [exLoc] exIdm exParse exLoad "text/plain" ["foo.desktop"]
     (by decide)⟩

/-- C4: every appId in a `GetDefaults` output sequence for a type also
appears in the provided association table for that type; a Default directive
whose pair is absent from the associations contributes nothing. -/
theorem C4_default_subset (locations : List ListLocation)
    (associations : String → Option (List String)) (idPathsMap : StrListMap)
    (parse : String → ParseOutcome) (load : String → Option Entry) (t appId : String)
    (h : appId ∈ aget (GetDefaults locations associations idPathsMap parse load) t) :
    appId ∈ (associations t).getD [] := by
  have hd := GetDefaults_dinv locations associations idPathsMap parse load
  unfold aget at h
  cases halook : alookup t (GetDefaults locations associations idPathsMap parse load) with
  | none =>
    rw [halook] at h
    exact absurd h (List.not_mem_nil appId)
  | some v =>
    rw [halook] at h
    exact (hd (t, v) (mem_of_alookup_eq_some halook)).2 appId h

/-- Witness for C4 at a concrete scenario where the default is honored. -/
theorem C4_default_subset_witness :
    "foo.desktop" ∈ aget (GetDefaults [exLoc] exAssoc exIdm exParse exLoad) "text/plain" ∧
      "foo.desktop" ∈ (exAssoc "text/plain").getD [] :=
  ⟨by decide,
   C4_default_subset [exLoc] exAssoc exIdm exParse exLoad "text/plain" "foo.desktop"
     (by decide)⟩

/-- C10 (implicit): every ContentType key present in the maps returned by
`GetAssociations`, `GetDefaults`, and `GetPreferredApplications` maps to a
non-empty sequence; no key is ever bound to an empty or nil list. -/
theorem C10_values_nonempty (locations : List ListLocation) (idPathsMap : StrListMap)
    (parse : String → ParseOutcome) (load : String → Option Entry)
    (associations : String → Option (List String)) (t : String) (l : List String) :
    (GetAssociations locations idPathsMap parse load t = some l → l ≠ []) ∧
    (alookup t (GetDefaults locations associations idPathsMap parse load) = some l →
      l ≠ []) ∧
    (GetPreferredApplications locations idPathsMap parse load t = some l → l ≠ []) := by
  refine ⟨?_, ?_, ?_⟩
  · intro h
    have hinv := (GetAssociations_inv locations idPathsMap parse load).2.2 t l
    unfold GetAssociations at h
    exact hinv h
  · intro h
    have hd := GetDefaults_dinv locations associations idPathsMap parse load
    exact (hd (t, l) (mem_of_alookup_eq_some h)).1
  · intro h
    replace h : mergePreferred (GetAssociations locations idPathsMap parse load)
        (GetDefaults locations (GetAssociations locations idPathsMap parse load)
          idPathsMap parse load) t = some l := h
    refine mergePreferred_nonempty ?_ ?_ t l h
    · intro m l2 hm
      have hinv := (GetAssociations_inv locations idPathsMap parse load).2.2 m l2
      unfold GetAssociations at hm
      exact hinv hm
    · intro e he
      exact (GetDefaults_dinv locations _ idPathsMap parse load e he).1


/-- Witness for C10 at a concrete scenario with all three maps non-trivial. -/
theorem C10_values_nonempty_witness :
    GetPreferredApplications [exLoc] exIdm exParse exLoad "text/plain" =
        some ["foo.desktop"] ∧
      (["foo.desktop"] : List String) ≠ [] :=
  ⟨by decide,
   (C10_values_nonempty [exLoc] exIdm exParse exLoad exAssoc "text/plain"
      ["foo.desktop"]).2.2 (by decide)⟩

/-- C5 as stated is false: a default list holding an id twice is deduplicated
by the merge, so the output does not begin with `DefaultTable[type]` itself
(its first `length DefaultTable[type]` entries differ from it). -/
theorem C5_counterexample :
    mergePreferred (fun m => if m = "t" then some ["b"] else none) [("t", ["a", "a"])] "t"
        = some ["a", "b"] ∧
      (["a", "b"] : List String).take (["a", "a"] : List String).length ≠ ["a", "a"] := by
  constructor
  · decide
  · decide

/-- C5 amended: for a type present in both tables the merged sequence is
`removeDuplicates(defaults ++ associations)`: it begins with the
deduplicated default list in order, followed by the remaining association
entries not already emitted, and holds no duplicates; when the default list
itself has no duplicates (as the claim implicitly assumed) it begins with
the default list itself. -/
theorem C5_merge_law (associations : String → Option (List String)) (defaults : StrListMap)
    (hkeys : NodupKeys defaults) (t : String) (dl al : List String)
    (hd : alookup t defaults = some dl) (ha : associations t = some al) :
    mergePreferred associations defaults t = some (removeDuplicates (dl ++ al)) ∧
    removeDuplicates (dl ++ al) =
      removeDuplicates dl ++ (removeDuplicates al).filter (fun x => !(dl.contains x)) ∧
    (removeDuplicates (dl ++ al)).Nodup ∧
    (dl.Nodup → removeDuplicates dl = dl) := by
  refine ⟨?_, removeDuplicates_append dl al, nodup_removeDuplicates _,
    fun hnd => removeDuplicates_of_nodup hnd⟩
  rw [mergePreferred_in associations defaults t dl hkeys hd, ha]

/-! ### Claims C6, C8, C9 -/

/-- C6 is false on the code: a desktop-environment-qualified location is
skipped entirely by `GetAssociations` — its colocated manifest scan does not
run, so a loadable colocated manifest declaring `text/markdown` yields no
entry, although the location has colocated manifests and the claim demands
the id be appended. -/
theorem C6_counterexample :
    exLocQ.HasDesktopFiles = true ∧
    isSubPathAbs "/data/foo.desktop" (filepathDir exLocQ.Path) = true ∧
    exLoadQ "/data/foo.desktop" = some ⟨["text/markdown"]⟩ ∧
    GetAssociations [exLocQ] exIdmQ (fun _ => ParseOutcome.missing) exLoadQ
      "text/markdown" = none := by
  refine ⟨rfl, by decide, by decide, by decide⟩

/-- C6 amended: the colocated manifest scan of step 5 runs at a location
with colocated manifests only when its file is the plain unqualified
`mimeapps.list`; at a desktop-environment-qualified variant the entire
location — directive processing and scan — is skipped. -/
theorem C6_scan_gate (load : String → Option Entry) (parse : String → ParseOutcome)
    (dLI : String → Option Int) (idPathsMap : StrListMap) (i : Nat) (s : AState)
    (location : ListLocation) :
    (filepathBase location.Path ≠ "mimeapps.list" →
      processLocation load parse dLI idPathsMap i s location = s) ∧
    (filepathBase location.Path = "mimeapps.list" → location.HasDesktopFiles = true →
      processLocation load parse dLI idPathsMap i s location =
        flushToAdd (idPathsMap.foldl (scanId load (filepathDir location.Path))
          ([], processRemoved dLI i
            (processAdded dLI i s ((parse location.Path).toMimeApps).Added)
            ((parse location.Path).toMimeApps).Removed))) := by
  constructor
  · intro h
    unfold processLocation
    rw [if_pos h]
  · intro h1 h2
    unfold processLocation
    rw [if_neg (fun hc => hc h1)]
    simp only [h2, Bool.not_true, Bool.false_eq_true, if_false]

/-- Witness for C6 amended: a qualified location is skipped whole; a plain
location with colocated manifests runs the scan. -/
theorem C6_scan_gate_witness :
    processLocation exLoadQ (fun _ => ParseOutcome.missing)
        (desktopIdLowestIndex [exLocQ] exIdmQ) exIdmQ 0 initialAState exLocQ
      = initialAState ∧
    processLocation exLoadQ (fun _ => ParseOutcome.missing)
        (desktopIdLowestIndex [exLocS] exIdmQ) exIdmQ 0 initialAState exLocS
      = flushToAdd (exIdmQ.foldl (scanId exLoadQ (filepathDir exLocS.Path))
          ([], processRemoved (desktopIdLowestIndex [exLocS] exIdmQ) 0
            (processAdded (desktopIdLowestIndex [exLocS] exIdmQ) 0 initialAState
              (((fun (_ : String) => ParseOutcome.missing) exLocS.Path).toMimeApps).Added)
            (((fun (_ : String) => ParseOutcome.missing) exLocS.Path).toMimeApps).Removed)) :=
  ⟨(C6_scan_gate exLoadQ (fun _ => ParseOutcome.missing)
      (desktopIdLowestIndex [exLocQ] exIdmQ) exIdmQ 0 initialAState exLocQ).1 (by decide),
   (C6_scan_gate exLoadQ (fun _ => ParseOutcome.missing)
      (desktopIdLowestIndex [exLocS] exIdmQ) exIdmQ 0 initialAState exLocS).2
      (by decide) rfl⟩

theorem processLocation_parse_congr {parse1 parse2 : String → ParseOutcome}
    (h : ∀ q, (parse1 q).toMimeApps = (parse2 q).toMimeApps)
    (load : String → Option Entry) (dLI : String → Option Int) (idPathsMap : StrListMap)
    (i : Nat) (s : AState) (location : ListLocation) :
    processLocation load parse1 dLI idPathsMap i s location =
      processLocation load parse2 dLI idPathsMap i s location := by
  unfold processLocation
  rw [h location.Path]

theorem assocLoop_parse_congr {parse1 parse2 : String → ParseOutcome}
    (h : ∀ q, (parse1 q).toMimeApps = (parse2 q).toMimeApps)
    (load : String → Option Entry) (dLI : String → Option Int) (idPathsMap : StrListMap) :
    ∀ (locations : List ListLocation) (i : Nat) (s : AState),
    assocLoop load parse1 dLI idPathsMap i s locations =
      assocLoop load parse2 dLI idPathsMap i s locations := by
  intro locations
  induction locations with
  | nil =>
    intro i s
    rfl
  | cons loc rest ih =>
    intro i s
    show assocLoop load parse1 dLI idPathsMap (i + 1)
        (processLocation load parse1 dLI idPathsMap i s loc) rest = _
    rw [processLocation_parse_congr h load dLI idPathsMap i s loc]
    exact ih (i + 1) _

/-- C8: `GetAssociations` and `GetDefaults` are total by construction, and a
location whose file is missing or fails to parse contributes exactly what
the all-empty parsed file contributes: replacing that path's outcome by the
empty parse changes neither output (for `GetAssociations` the colocated
scan still runs either way, being part of `processLocation` after the
directive phase). -/
theorem C8_failsoft (locations : List ListLocation) (idPathsMap : StrListMap)
    (parse : String → ParseOutcome) (load : String → Option Entry) (p : String)
    (associations : String → Option (List String))
    (h : parse p = ParseOutcome.missing ∨ parse p = ParseOutcome.failed) :
    GetAssociations locations idPathsMap parse load =
      GetAssociations locations idPathsMap
        (updateOutcome parse p (ParseOutcome.ok MimeApps.empty)) load ∧
    GetDefaults locations associations idPathsMap parse load =
      GetDefaults locations associations idPathsMap
        (updateOutcome parse p (ParseOutcome.ok MimeApps.empty)) load := by
  have hcong : ∀ q, (parse q).toMimeApps =
      ((updateOutcome parse p (ParseOutcome.ok MimeApps.empty)) q).toMimeApps := by
    intro q
    unfold updateOutcome
    by_cases hq : q = p
    · rw [if_pos hq, hq]
      rcases h with h | h <;> rw [h] <;> rfl
    · rw [if_neg hq]
  constructor
  · unfold GetAssociations
    rw [assocLoop_parse_congr hcong load _ idPathsMap locations 0 initialAState]
  · unfold GetDefaults
    refine List.foldl_ext _ _ _ ?_
    intro r loc _
    unfold updateOutcome
    by_cases hq : loc.Path = p
    · rw [if_pos hq, hq]
      rcases h with h | h <;> rw [h] <;> rfl
    · rw [if_neg hq]

/-- Witness for C8 at a concrete input with a missing file. -/
theorem C8_failsoft_witness :
    (exParse "/none/mimeapps.list" = ParseOutcome.missing ∨
      exParse "/none/mimeapps.list" = ParseOutcome.failed) ∧
    (GetAssociations [exLoc] exIdm exParse exLoad =
        GetAssociations [exLoc] exIdm
          (updateOutcome exParse "/none/mimeapps.list" (ParseOutcome.ok MimeApps.empty))
          exLoad ∧
      GetDefaults [exLoc] exAssoc exIdm exParse exLoad =
        GetDefaults [exLoc] exAssoc exIdm
          (updateOutcome exParse "/none/mimeapps.list" (ParseOutcome.ok MimeApps.empty))
          exLoad) :=
  ⟨Or.inl (by decide),
   C8_failsoft [exLoc] exIdm exParse exLoad "/none/mimeapps.list" exAssoc
     (Or.inl (by decide))⟩

/-! ### The scan's per-id control flow (for C9 and C7) -/

theorem scanPath_skip (load : String → Option Entry) (dirname id : String)
    {acc : StrListMap × AState} (h : acc.2.blacklistDesktopIds id = true) (q : String) :
    scanPath load dirname id acc q = acc := by
  unfold scanPath
  by_cases hq : isSubPathAbs q dirname
  · rw [if_neg (by rw [hq]; decide), if_pos h]
  · rw [if_pos (by rw [bool_eq_false_of_not hq]; decide)]

theorem scanPaths_skip (load : String → Option Entry) (dirname id : String) :
    ∀ (paths : List String) (acc : StrListMap × AState),
    acc.2.blacklistDesktopIds id = true →
    paths.foldl (scanPath load dirname id) acc = acc := by
  intro paths
  induction paths with
  | nil =>
    intro acc _
    rfl
  | cons q qs ih =>
    intro acc h
    rw [List.foldl_cons, scanPath_skip load dirname id h q]
    exact ih acc h

theorem scanMime_blIds (id : String) (acc : StrListMap × AState) (m : String) :
    (scanMime id acc m).2.blacklistDesktopIds = acc.2.blacklistDesktopIds := by
  rcases scanMime_cases id acc m with he | ⟨_, he⟩ <;> rw [he]

theorem scanMimes_blIds (id : String) : ∀ (ms : List String) (acc : StrListMap × AState),
    (ms.foldl (scanMime id) acc).2.blacklistDesktopIds = acc.2.blacklistDesktopIds := by
  intro ms
  induction ms with
  | nil =>
    intro acc
    rfl
  | cons m ms2 ih =>
    intro acc
    rw [List.foldl_cons, ih, scanMime_blIds]

theorem scanPaths_eq (load : String → Option Entry) (dirname id : String) :
    ∀ (paths : List String) (acc : StrListMap × AState),
    acc.2.blacklistDesktopIds id = false →
    paths.foldl (scanPath load dirname id) acc =
      (match firstPathUnder dirname paths with
       | none => acc
       | some p =>
         match load p with
         | none =>
           (acc.1, { acc.2 with
             blacklistDesktopIds := setTrue acc.2.blacklistDesktopIds id })
         | some entry =>
           entry.MimeType.foldl (scanMime id)
             (acc.1, { acc.2 with
               blacklistDesktopIds := setTrue acc.2.blacklistDesktopIds id })) := by
  intro paths
  induction paths with
  | nil =>
    intro acc _
    rfl
  | cons q qs ih =>
    intro acc hbl
    rw [List.foldl_cons]
    by_cases hq : isSubPathAbs q dirname
    · have hfind : firstPathUnder dirname (q :: qs) = some q := by
        unfold firstPathUnder
        exact List.find?_cons_of_pos qs hq
      rw [hfind]
      have hstep : scanPath load dirname id acc q =
          (match load q with
           | none =>
             (acc.1, { acc.2 with
               blacklistDesktopIds := setTrue acc.2.blacklistDesktopIds id })
           | some entry =>
             entry.MimeType.foldl (scanMime id)
               (acc.1, { acc.2 with
                 blacklistDesktopIds := setTrue acc.2.blacklistDesktopIds id })) := by
        unfold scanPath
        rw [if_neg (by rw [hq]; decide), if_neg (by rw [hbl]; decide)]
      show List.foldl (scanPath load dirname id) (scanPath load dirname id acc q) qs =
        (match load q with
         | none =>
           (acc.1, { acc.2 with
             blacklistDesktopIds := setTrue acc.2.blacklistDesktopIds id })
         | some entry =>
           List.foldl (scanMime id)
             (acc.1, { acc.2 with
               blacklistDesktopIds := setTrue acc.2.blacklistDesktopIds id })
             entry.MimeType)
      rw [hstep]
      cases hload : load q with
      | none =>
        show List.foldl (scanPath load dirname id)
            (acc.1, { acc.2 with
              blacklistDesktopIds := setTrue acc.2.blacklistDesktopIds id }) qs =
          (acc.1, { acc.2 with
            blacklistDesktopIds := setTrue acc.2.blacklistDesktopIds id })
        exact scanPaths_skip load dirname id qs _ (setTrue_self _ _)
      | some entry =>
        show List.foldl (scanPath load dirname id)
            (List.foldl (scanMime id)
              (acc.1, { acc.2 with
                blacklistDesktopIds := setTrue acc.2.blacklistDesktopIds id })
              entry.MimeType) qs =
          List.foldl (scanMime id)
            (acc.1, { acc.2 with
              blacklistDesktopIds := setTrue acc.2.blacklistDesktopIds id })
            entry.MimeType
        refine scanPaths_skip load dirname id qs _ ?_
        show (List.foldl (scanMime id)
          (acc.1, { acc.2 with
            blacklistDesktopIds := setTrue acc.2.blacklistDesktopIds id })
          entry.MimeType).2.blacklistDesktopIds id = true
        rw [scanMimes_blIds]
        exact setTrue_self _ _
    · have hfind : firstPathUnder dirname (q :: qs) = firstPathUnder dirname qs := by
        unfold firstPathUnder
        exact List.find?_cons_of_neg qs hq
      rw [hfind]
      have hskip : scanPath load dirname id acc q = acc := by
        unfold scanPath
        rw [if_pos (by rw [bool_eq_false_of_not hq]; decide)]
      rw [hskip]
      have ih2 := ih acc hbl
      cases hfind2 : firstPathUnder dirname qs with
      | none =>
        rw [hfind2] at ih2
        exact ih2
      | some p =>
        rw [hfind2] at ih2
        exact ih2

theorem scanId_eq (load : String → Option Entry) (dirname : String)
    (acc : StrListMap × AState) (e : String × List String) :
    scanId load dirname acc e =
      if acc.2.blacklistDesktopIds e.1 then acc
      else
        match firstPathUnder dirname e.2 with
        | none => acc
        | some p =>
          match load p with
          | none =>
            (acc.1, { acc.2 with
              blacklistDesktopIds := setTrue acc.2.blacklistDesktopIds e.1 })
          | some entry =>
            entry.MimeType.foldl (scanMime e.1)
              (acc.1, { acc.2 with
                blacklistDesktopIds := setTrue acc.2.blacklistDesktopIds e.1 }) := by
  unfold scanId
  by_cases hbl : acc.2.blacklistDesktopIds e.1
  · rw [if_pos hbl, if_pos hbl]
  · rw [if_neg hbl, if_neg hbl]
    exact scanPaths_eq load dirname e.1 e.2 acc (bool_eq_false_of_not hbl)

theorem firstLoadable_skip (load : String → Option Entry) :
    ∀ (pre : List String), (∀ q ∈ pre, load q = none) →
    ∀ rest, firstLoadable load (pre ++ rest) = firstLoadable load rest := by
  intro pre
  induction pre with
  | nil =>
    intro _ rest
    rfl
  | cons q qs ih =>
    intro h rest
    rw [List.cons_append]
    show (match load q with
      | some e => some (e, q)
      | none => firstLoadable load (qs ++ rest)) = _
    rw [h q (List.mem_cons_self _ _)]
    exact ih (fun q2 hq2 => h q2 (List.mem_cons_of_mem _ hq2)) rest

/-- C9 is false for the colocated scan: `a.desktop` has two paths under the
location's directory, the first fails to load and the second is loadable,
yet the output holds no entry for the declared type — the id is dropped at
the first applicable path instead of using the later one. -/
theorem C9_counterexample :
    exLoad9 "/data/bad/a.desktop" = none ∧
    exLoad9 "/data/good/a.desktop" = some ⟨["text/x"]⟩ ∧
    isSubPathAbs "/data/bad/a.desktop" (filepathDir exLocS.Path) = true ∧
    isSubPathAbs "/data/good/a.desktop" (filepathDir exLocS.Path) = true ∧
    GetAssociations [exLocS] exIdm9 (fun _ => ParseOutcome.missing) exLoad9
      "text/x" = none := by
  refine ⟨by decide, by decide, by decide, by decide, by decide⟩

/-- C9 amended: first-loadable-wins holds for `LoadById`, which Default
resolution uses — failures among earlier listed paths are skipped and the
first loadable path's content is returned.  In the colocated scan, by
contrast, only the first path under the location's directory is attempted:
when it fails to load, the id is exhausted with nothing queued. -/
theorem C9_first_loadable (load : String → Option Entry) (idPathsMap : StrListMap)
    (desktopId : String) (paths pre post : List String) (p : String) (e : Entry)
    (hm : alookup desktopId idPathsMap = some paths)
    (hsplit : paths = pre ++ p :: post)
    (hpre : ∀ q ∈ pre, load q = none)
    (hp : load p = some e) :
    loadById load idPathsMap desktopId = some (e, p) ∧
    (∀ (dirname : String) (acc : StrListMap × AState) (e2 : String × List String)
      (pb : String),
      acc.2.blacklistDesktopIds e2.1 = false →
      firstPathUnder dirname e2.2 = some pb → load pb = none →
      scanId load dirname acc e2 =
        (acc.1, { acc.2 with
          blacklistDesktopIds := setTrue acc.2.blacklistDesktopIds e2.1 })) := by
  constructor
  · unfold loadById
    rw [hm, hsplit]
    show firstLoadable load (pre ++ p :: post) = some (e, p)
    rw [firstLoadable_skip load pre hpre (p :: post)]
    show (match load p with
      | some e2 => some (e2, p)
      | none => firstLoadable load post) = _
    rw [hp]
  · intro dirname acc e2 pb h1 h2 h3
    rw [scanId_eq, if_neg (by rw [h1]; decide), h2]
    show (match load pb with
      | none =>
        (acc.1, { acc.2 with
          blacklistDesktopIds := setTrue acc.2.blacklistDesktopIds e2.1 })
      | some entry =>
        List.foldl (scanMime e2.1)
          (acc.1, { acc.2 with
            blacklistDesktopIds := setTrue acc.2.blacklistDesktopIds e2.1 })
          entry.MimeType) = _
    rw [h3]

/-- Witness for C9 amended: `LoadById` returns the second path's content
after the first fails, and the scan exhausts the id with nothing queued when
its first applicable path fails. -/
theorem C9_first_loadable_witness :
    loadById exLoad9 exIdm9 "a.desktop" =
        some (⟨["text/x"]⟩, "/data/good/a.desktop") ∧
      scanId exLoad9 (filepathDir exLocS.Path) ([], initialAState)
          ("a.desktop", ["/data/bad/a.desktop", "/data/good/a.desktop"]) =
        ([], { initialAState with
          blacklistDesktopIds := setTrue initialAState.blacklistDesktopIds "a.desktop" }) :=
  ⟨(C9_first_loadable exLoad9 exIdm9 "a.desktop"
      ["/data/bad/a.desktop", "/data/good/a.desktop"] ["/data/bad/a.desktop"] []
      "/data/good/a.desktop" ⟨["text/x"]⟩ (by decide) rfl
      (by intro q hq; rw [List.mem_singleton] at hq; rw [hq]; decide) (by decide)).1,
   (C9_first_loadable exLoad9 exIdm9 "a.desktop"
      ["/data/bad/a.desktop", "/data/good/a.desktop"] ["/data/bad/a.desktop"] []
      "/data/good/a.desktop" ⟨["text/x"]⟩ (by decide) rfl
      (by intro q hq; rw [List.mem_singleton] at hq; rw [hq]; decide) (by decide)).2
     (filepathDir exLocS.Path) ([], initialAState)
     ("a.desktop", ["/data/bad/a.desktop", "/data/good/a.desktop"])
     "/data/bad/a.desktop" rfl (by decide) (by decide)⟩

/-! ### Claim C3: the validity law -/

theorem lowestPrecedenceLoop_nil : ∀ (acc : Int) (i : Nat) (locs : List ListLocation),
    lowestPrecedenceLoop [] acc i locs = acc := by
  intro acc i locs
  induction locs generalizing acc i with
  | nil => rfl
  | cons loc rest ih => exact ih acc (i + 1)

theorem dLI_of_noPath (locations : List ListLocation) {idPathsMap : StrListMap}
    {appId : String} (h : ∀ e ∈ idPathsMap, e.1 = appId → e.2 = []) :
    desktopIdLowestIndex locations idPathsMap appId = none ∨
      desktopIdLowestIndex locations idPathsMap appId = some (-1) := by
  unfold desktopIdLowestIndex
  cases halook : alookup appId idPathsMap with
  | none => exact Or.inl rfl
  | some v =>
    have hv : v = [] := h (appId, v) (mem_of_alookup_eq_some halook) rfl
    right
    show some (lowestPrecedenceLoop v (-1) 0 locations) = some (-1)
    rw [hv, lowestPrecedenceLoop_nil]

theorem neg_one_lt_natCast (i : Nat) : (-1 : Int) < (i : Int) :=
  lt_of_lt_of_le (by decide) (Int.natCast_nonneg i)

theorem processAddedId_skip_invalid {dLI : String → Option Int} {i : Nat} {mime : String}
    {s : AState} {desktopId : String}
    (h : dLI desktopId = none ∨ dLI desktopId = some (-1)) :
    processAddedId dLI i mime s desktopId = s := by
  rcases processAddedId_cases dLI i mime s desktopId with he | ⟨_, _, ⟨depth, hdep, hlt⟩, _⟩
  · exact he
  · exfalso
    rcases h with h | h
    · rw [h] at hdep
      cases hdep
    · rw [h] at hdep
      injection hdep with hd
      rw [← hd] at hlt
      exact hlt (neg_one_lt_natCast i)

theorem processRemovedId_skip_invalid {dLI : String → Option Int} {i : Nat} {mime : String}
    {s : AState} {desktopId : String}
    (h : dLI desktopId = none ∨ dLI desktopId = some (-1)) :
    processRemovedId dLI i mime s desktopId = s := by
  rcases processRemovedId_cases dLI i mime s desktopId with he | ⟨_, ⟨depth, hdep, hlt⟩, _⟩
  · exact he
  · exfalso
    rcases h with h | h
    · rw [h] at hdep
      cases hdep
    · rw [h] at hdep
      injection hdep with hd
      rw [← hd] at hlt
      exact hlt (neg_one_lt_natCast i)

theorem processAddedId_notin {dLI : String → Option Int} {i : Nat} {mime : String}
    {s : AState} {desktopId appId : String}
    (hd : dLI appId = none ∨ dLI appId = some (-1))
    (h : ∀ t, appId ∉ resGet s t) :
    ∀ t, appId ∉ resGet (processAddedId dLI i mime s desktopId) t := by
  by_cases hid : desktopId = appId
  · subst hid
    rw [processAddedId_skip_invalid hd]
    exact h
  · rcases processAddedId_cases dLI i mime s desktopId with he | ⟨_, _, _, he⟩
    · rw [he]
      exact h
    · rw [he]
      intro t hc
      replace hc : appId ∈ (pushResult s.result mime desktopId t).getD [] := hc
      rw [resGet_after_push] at hc
      by_cases ht : t = mime
      · rw [if_pos ht] at hc
        rcases List.mem_append.mp hc with hc | hc
        · exact h mime hc
        · rw [List.mem_singleton] at hc
          exact hid hc.symm
      · rw [if_neg ht] at hc
        exact h t hc

theorem processRemovedId_result (dLI : String → Option Int) (i : Nat) (mime : String)
    (s : AState) (desktopId : String) :
    (processRemovedId dLI i mime s desktopId).result = s.result := by
  rcases processRemovedId_cases dLI i mime s desktopId with he | ⟨_, _, he⟩ <;> rw [he]

theorem aget_entry_cases (t : StrListMap) (k : String) :
    aget t k = [] ∨ (k, aget t k) ∈ t := by
  cases halook : alookup k t with
  | none =>
    left
    unfold aget
    rw [halook]
    rfl
  | some v =>
    right
    have hv : aget t k = v := by
      unfold aget
      rw [halook]
      rfl
    rw [hv]
    exact mem_of_alookup_eq_some halook

theorem scanMime_notin {appId desktopId : String} (hid : ¬ desktopId = appId)
    {acc : StrListMap × AState}
    (hq : (∀ t2, appId ∉ resGet acc.2 t2) ∧ ∀ e2 ∈ acc.1, appId ∉ e2.2)
    (mime : String) :
    (∀ t2, appId ∉ resGet (scanMime desktopId acc mime).2 t2) ∧
      ∀ e2 ∈ (scanMime desktopId acc mime).1, appId ∉ e2.2 := by
  rcases scanMime_cases desktopId acc mime with he | ⟨_, he⟩
  · rw [he]
    exact hq
  · rw [he]
    refine ⟨hq.1, ?_⟩
    intro e2 he2
    rcases mem_updateAList he2 with he2 | he2
    · exact hq.2 e2 he2
    · rw [he2]
      intro hc
      rcases List.mem_append.mp hc with hc | hc
      · rcases aget_entry_cases acc.1 mime with hag | hag
        · rw [hag] at hc
          exact List.not_mem_nil appId hc
        · exact hq.2 _ hag hc
      · rw [List.mem_singleton] at hc
        exact hid hc.symm

theorem scanPath_notin (load : String → Option Entry) (dirname : String)
    {appId desktopId : String} (hid : ¬ desktopId = appId)
    {acc : StrListMap × AState}
    (hq : (∀ t2, appId ∉ resGet acc.2 t2) ∧ ∀ e2 ∈ acc.1, appId ∉ e2.2)
    (path : String) :
    (∀ t2, appId ∉ resGet (scanPath load dirname desktopId acc path).2 t2) ∧
      ∀ e2 ∈ (scanPath load dirname desktopId acc path).1, appId ∉ e2.2 := by
  unfold scanPath
  split
  · exact hq
  · split
    · exact hq
    · have hmid : (∀ t2, appId ∉ resGet (acc.1,
          { acc.2 with
            blacklistDesktopIds := setTrue acc.2.blacklistDesktopIds desktopId }).2 t2) ∧
          ∀ e2 ∈ acc.1, appId ∉ e2.2 := ⟨hq.1, hq.2⟩
      split
      · exact hmid
      · refine foldl_preserves
          (P := fun (acc2 : StrListMap × AState) =>
            (∀ t2, appId ∉ resGet acc2.2 t2) ∧ ∀ e2 ∈ acc2.1, appId ∉ e2.2)
          _ _ _ hmid ?_
        intro c m _ hc
        exact scanMime_notin hid hc m

theorem scanId_notin (load : String → Option Entry) (dirname : String) {appId : String}
    {acc : StrListMap × AState} {e : String × List String}
    (hide : e.1 = appId → e.2 = [])
    (hq : (∀ t2, appId ∉ resGet acc.2 t2) ∧ ∀ e2 ∈ acc.1, appId ∉ e2.2) :
    (∀ t2, appId ∉ resGet (scanId load dirname acc e).2 t2) ∧
      ∀ e2 ∈ (scanId load dirname acc e).1, appId ∉ e2.2 := by
  by_cases he1 : e.1 = appId
  · have he2 : e.2 = [] := hide he1
    unfold scanId
    split
    · exact hq
    · rw [he2]
      exact hq
  · unfold scanId
    split
    · exact hq
    · refine foldl_preserves
        (P := fun (acc2 : StrListMap × AState) =>
          (∀ t2, appId ∉ resGet acc2.2 t2) ∧ ∀ e2 ∈ acc2.1, appId ∉ e2.2)
        _ _ _ hq ?_
      intro c q _ hc
      exact scanPath_notin load dirname he1 hc q

theorem flushToAdd_notin {appId : String} {acc : StrListMap × AState}
    (hq : (∀ t2, appId ∉ resGet acc.2 t2) ∧ ∀ e2 ∈ acc.1, appId ∉ e2.2) :
    ∀ t2, appId ∉ resGet (flushToAdd acc) t2 := by
  unfold flushToAdd
  have hmain : (∀ t2, appId ∉ resGet (acc.1.foldl flushEntry acc.2) t2) := by
    refine foldl_preserves (P := fun s2 => ∀ t2, appId ∉ resGet s2 t2) _ _ _ hq.1 ?_
    intro c e he hc t2
    rw [resGet_flushEntry]
    by_cases ht : t2 = e.1
    · rw [if_pos ht]
      intro hmem
      rcases List.mem_append.mp hmem with hmem | hmem
      · exact hc e.1 hmem
      · rw [mem_sortStrings] at hmem
        exact hq.2 e he hmem
    · rw [if_neg ht]
      exact hc t2
  exact hmain

theorem processLocation_notin (load : String → Option Entry) (parse : String → ParseOutcome)
    {locations : List ListLocation} {idPathsMap : StrListMap} {appId : String}
    (hNoPath : ∀ e ∈ idPathsMap, e.1 = appId → e.2 = [])
    (hd : desktopIdLowestIndex locations idPathsMap appId = none ∨
      desktopIdLowestIndex locations idPathsMap appId = some (-1))
    (i : Nat) {s : AState} (location : ListLocation)
    (h : ∀ t, appId ∉ resGet s t) :
    ∀ t, appId ∉
      resGet (processLocation load parse (desktopIdLowestIndex locations idPathsMap)
        idPathsMap i s location) t := by
  unfold processLocation
  split
  · exact h
  · have h1 : ∀ t, appId ∉ resGet (processAdded (desktopIdLowestIndex locations idPathsMap)
        i s ((parse location.Path).toMimeApps).Added) t := by
      unfold processAdded
      refine foldl_preserves (P := fun s2 => ∀ t, appId ∉ resGet s2 t) _ _ _ h ?_
      intro c e _ hc
      refine foldl_preserves (P := fun s2 => ∀ t, appId ∉ resGet s2 t) _ _ _ hc ?_
      intro c2 x _ hc2
      exact processAddedId_notin hd hc2
    have h2 : ∀ t, appId ∉ resGet (processRemoved (desktopIdLowestIndex locations idPathsMap)
        i (processAdded (desktopIdLowestIndex locations idPathsMap) i s
          ((parse location.Path).toMimeApps).Added)
        ((parse location.Path).toMimeApps).Removed) t := by
      unfold processRemoved
      refine foldl_preserves (P := fun s2 => ∀ t, appId ∉ resGet s2 t) _ _ _ h1 ?_
      intro c e _ hc
      refine foldl_preserves (P := fun s2 => ∀ t, appId ∉ resGet s2 t) _ _ _ hc ?_
      intro c2 x _ hc2
      intro t
      unfold resGet
      rw [processRemovedId_result]
      exact hc2 t
    split
    · exact h2
    · refine flushToAdd_notin ?_
      refine foldl_preserves
        (P := fun (acc2 : StrListMap × AState) =>
          (∀ t2, appId ∉ resGet acc2.2 t2) ∧ ∀ e2 ∈ acc2.1, appId ∉ e2.2)
        _ _ _ ⟨h2, fun e2 he2 => absurd he2 (List.not_mem_nil e2)⟩ ?_
      intro c e he hc
      exact scanId_notin load _ (hNoPath e he) hc

/-- C3: an ApplicationId with no manifest path in the manifest index never
occurs in any value sequence of `GetAssociations`, nor of `GetDefaults`
called with that same (non-nil) index; and in general a directive at
location `i` referencing an id takes effect only when
`deepestValidIndex(id) ≥ i` — otherwise its processing step leaves the
state unchanged. -/
theorem C3_validity (locations : List ListLocation) (idPathsMap : StrListMap)
    (parse : String → ParseOutcome) (load : String → Option Entry) (appId : String)
    (hNoPath : ∀ e ∈ idPathsMap, e.1 = appId → e.2 = []) :
    (∀ t, appId ∉ (GetAssociations locations idPathsMap parse load t).getD []) ∧
    (∀ (associations : String → Option (List String)) t,
      appId ∉ aget (GetDefaults locations associations idPathsMap parse load) t) ∧
    (∀ (i : Nat) (mime : String) (s : AState) (appId2 : String),
      (¬ ∃ depth, desktopIdLowestIndex locations idPathsMap appId2 = some depth ∧
        (i : Int) ≤ depth) →
      processAddedId (desktopIdLowestIndex locations idPathsMap) i mime s appId2 = s ∧
      processRemovedId (desktopIdLowestIndex locations idPathsMap) i mime s appId2 = s) := by
  have hd := dLI_of_noPath locations hNoPath
  refine ⟨?_, ?_, ?_⟩
  · intro t
    have hloop : ∀ (locs : List ListLocation) (i : Nat) (s : AState),
        (∀ t2, appId ∉ resGet s t2) →
        ∀ t2, appId ∉ resGet (assocLoop load parse
          (desktopIdLowestIndex locations idPathsMap) idPathsMap i s locs) t2 := by
      intro locs
      induction locs with
      | nil =>
        intro i s h
        exact h
      | cons loc rest ih =>
        intro i s h
        exact ih (i + 1) _ (processLocation_notin load parse hNoPath hd i loc h)
    have hfin := hloop locations 0 initialAState
      (fun t2 => List.not_mem_nil appId) t
    exact hfin
  · intro associations t
    have hinv : ∀ e ∈ GetDefaults locations associations idPathsMap parse load,
        appId ∉ e.2 := by
      unfold GetDefaults
      refine foldl_preserves (P := fun (r : StrListMap) => ∀ e ∈ r, appId ∉ e.2)
        _ locations [] (fun e he => absurd he (List.not_mem_nil e)) ?_
      intro c loc _ hc
      split
      · unfold processDefaults
        refine foldl_preserves (P := fun (r : StrListMap) => ∀ e ∈ r, appId ∉ e.2)
          _ _ c hc ?_
        intro c2 e _ hc2
        refine foldl_preserves (P := fun (r : StrListMap) => ∀ e ∈ r, appId ∉ e.2)
          _ e.2 c2 hc2 ?_
        intro c3 x _ hc3
        by_cases hid : x = appId
        · subst hid
          have hl : loadById load idPathsMap x = none := by
            unfold loadById
            cases halook : alookup x idPathsMap with
            | none => rfl
            | some v =>
              have hv : v = [] := hNoPath (x, v) (mem_of_alookup_eq_some halook) rfl
              show firstLoadable load v = none
              rw [hv]
              rfl
          unfold defaultId
          rw [hl]
          exact hc3
        · unfold defaultId
          split
          · exact hc3
          · split
            · intro e2 he2
              rcases mem_updateAList he2 with he2 | he2
              · exact hc3 e2 he2
              · rw [he2]
                intro hcc
                rcases List.mem_append.mp hcc with hcc | hcc
                · rcases aget_entry_cases c3 e.1 with hag | hag
                  · rw [hag] at hcc
                    exact List.not_mem_nil appId hcc
                  · exact hc3 _ hag hcc
                · rw [List.mem_singleton] at hcc
                  exact hid hcc.symm
            · exact hc3
      · exact hc
      · exact hc
    intro hmem
    unfold aget at hmem
    cases halook : alookup t (GetDefaults locations associations idPathsMap parse load) with
    | none =>
      rw [halook] at hmem
      exact List.not_mem_nil appId hmem
    | some v =>
      rw [halook] at hmem
      exact hinv (t, v) (mem_of_alookup_eq_some halook) hmem
  · intro i mime s appId2 hval
    constructor
    · rcases processAddedId_cases (desktopIdLowestIndex locations idPathsMap) i mime s appId2
        with he | ⟨_, _, ⟨depth, hdep, hlt⟩, _⟩
      · exact he
      · exact absurd ⟨depth, hdep, Int.not_lt.mp hlt⟩ hval
    · rcases processRemovedId_cases (desktopIdLowestIndex locations idPathsMap) i mime s appId2
        with he | ⟨_, ⟨depth, hdep, hlt⟩, _⟩
      · exact he
      · exact absurd ⟨depth, hdep, Int.not_lt.mp hlt⟩ hval

/-- Witness for C3: `ghost.desktop` has no manifest path and stays out of
the outputs even though a directive mentions it. -/
theorem C3_validity_witness :
    (∀ e ∈ exIdm, e.1 = "ghost.desktop" → e.2 = []) ∧
    "ghost.desktop" ∉
      (GetAssociations [exLoc] exIdm exParse exLoad "text/plain").getD [] ∧
    "ghost.desktop" ∉ aget (GetDefaults [exLoc] exAssoc exIdm exParse exLoad) "text/plain" :=
  ⟨by decide,
   (C3_validity [exLoc] exIdm exParse exLoad "ghost.desktop" (by decide)).1 "text/plain",
   (C3_validity [exLoc] exIdm exParse exLoad "ghost.desktop" (by decide)).2.1 exAssoc
     "text/plain"⟩

/-! ### Claim C2: first decision wins -/

theorem alookup_split {t : StrListMap} {k : String} {v : List String}
    (h : alookup k t = some v) :
    ∃ l1 l2, t = l1 ++ (k, v) :: l2 ∧ ∀ e ∈ l1, e.1 ≠ k := by
  induction t with
  | nil => exact absurd h (by simp [alookup])
  | cons e es ih =>
    rw [alookup_cons] at h
    by_cases hek : e.1 = k
    · rw [if_pos hek] at h
      injection h with h2
      refine ⟨[], es, ?_, ?_⟩
      · rw [List.nil_append]
        cases e
        cases hek
        cases h2
        rfl
      · intro e2 he2
        exact absurd he2 (List.not_mem_nil e2)
    · rw [if_neg hek] at h
      obtain ⟨l1, l2, hsp, hne⟩ := ih h
      refine ⟨e :: l1, l2, ?_, ?_⟩
      · rw [List.cons_append, hsp]
      · intro e2 he2
        rcases List.mem_cons.mp he2 with he2 | he2
        · rw [he2]
          exact hek
        · exact hne e2 he2

theorem mem_split_first {x : String} : ∀ {l : List String}, x ∈ l →
    ∃ l1 l2, l = l1 ++ x :: l2 ∧ x ∉ l1 := by
  intro l
  induction l with
  | nil =>
    intro h
    exact absurd h (List.not_mem_nil x)
  | cons y ys ih =>
    intro h
    by_cases hxy : x = y
    · subst hxy
      exact ⟨[], ys, rfl, List.not_mem_nil x⟩
    · rcases List.mem_cons.mp h with hc | hc
      · exact absurd hc hxy
      · obtain ⟨l1, l2, hsp, hni⟩ := ih hc
        refine ⟨y :: l1, l2, ?_, ?_⟩
        · rw [List.cons_append, hsp]
        · intro hcc
          rcases List.mem_cons.mp hcc with hcc | hcc
          · exact hxy hcc
          · exact hni hcc

theorem processAddedId_blIds (dLI : String → Option Int) (i : Nat) (mime : String)
    (s : AState) (desktopId : String) :
    (processAddedId dLI i mime s desktopId).blacklistDesktopIds =
      s.blacklistDesktopIds := by
  rcases processAddedId_cases dLI i mime s desktopId with he | ⟨_, _, _, he⟩ <;> rw [he]

theorem processAddedId_blMD_other {m d : String} (dLI : String → Option Int) (i : Nat)
    (mime : String) (s : AState) (desktopId : String)
    (h : ¬ (m = mime ∧ d = desktopId)) :
    (processAddedId dLI i mime s desktopId).blacklistMimeDesktop m d =
      s.blacklistMimeDesktop m d := by
  rcases processAddedId_cases dLI i mime s desktopId with he | ⟨_, _, _, he⟩
  · rw [he]
  · rw [he]
    exact setBlacklistMD_ne _ h

theorem processAddedId_honored {dLI : String → Option Int} {i : Nat} {mime : String}
    {s : AState} {desktopId : String} {depth : Int}
    (h1 : s.blacklistDesktopIds desktopId = false)
    (h2 : dLI desktopId = some depth) (h3 : ¬ depth < (i : Int))
    (h4 : s.blacklistMimeDesktop mime desktopId = false) :
    processAddedId dLI i mime s desktopId =
      { s with
        blacklistMimeDesktop := setBlacklistMD s.blacklistMimeDesktop mime desktopId,
        result := pushResult s.result mime desktopId } := by
  unfold processAddedId
  rw [if_neg (by rw [h1]; decide), h2]
  show (if depth < (i : Int) then s
    else if s.blacklistMimeDesktop mime desktopId then s
    else { s with
      blacklistMimeDesktop := setBlacklistMD s.blacklistMimeDesktop mime desktopId,
      result := pushResult s.result mime desktopId }) = _
  rw [if_neg h3, if_neg (by rw [h4]; decide)]

theorem addedIdsFold_blIds (dLI : String → Option Int) (i : Nat) (mime : String) :
    ∀ (ids : List String) (s : AState),
    (ids.foldl (processAddedId dLI i mime) s).blacklistDesktopIds =
      s.blacklistDesktopIds := by
  intro ids
  induction ids with
  | nil =>
    intro s
    rfl
  | cons d ds ih =>
    intro s
    rw [List.foldl_cons, ih, processAddedId_blIds]

theorem addedFold_blIds (dLI : String → Option Int) (i : Nat) :
    ∀ (m : StrListMap) (s : AState),
    (m.foldl (fun s2 e => e.2.foldl (processAddedId dLI i e.1) s2) s).blacklistDesktopIds =
      s.blacklistDesktopIds := by
  intro m
  induction m with
  | nil =>
    intro s
    rfl
  | cons e es ih =>
    intro s
    rw [List.foldl_cons, ih, addedIdsFold_blIds]

theorem addedIdsFold_blMD_other (dLI : String → Option Int) (i : Nat) (mime : String)
    {m d : String} :
    ∀ (ids : List String) (s : AState), (∀ x ∈ ids, ¬ (m = mime ∧ d = x)) →
    (ids.foldl (processAddedId dLI i mime) s).blacklistMimeDesktop m d =
      s.blacklistMimeDesktop m d := by
  intro ids
  induction ids with
  | nil =>
    intro s _
    rfl
  | cons x xs ih =>
    intro s h
    rw [List.foldl_cons, ih _ (fun y hy => h y (List.mem_cons_of_mem x hy)),
      processAddedId_blMD_other _ _ _ _ _ (h x (List.mem_cons_self x xs))]

theorem addedFold_blMD_other (dLI : String → Option Int) (i : Nat) {m d : String} :
    ∀ (added : StrListMap) (s : AState), (∀ e ∈ added, e.1 ≠ m) →
    (added.foldl (fun s2 e => e.2.foldl (processAddedId dLI i e.1) s2) s).blacklistMimeDesktop
        m d = s.blacklistMimeDesktop m d := by
  intro added
  induction added with
  | nil =>
    intro s _
    rfl
  | cons e es ih =>
    intro s h
    rw [List.foldl_cons, ih _ (fun e2 he2 => h e2 (List.mem_cons_of_mem e he2)),
      addedIdsFold_blMD_other dLI i e.1 (m := m) (d := d) e.2 s
        (fun x _ hc => h e (List.mem_cons_self e es) hc.1.symm)]

theorem addedIdsFold_extends (dLI : String → Option Int) (i : Nat) (mime : String)
    (ids : List String) (s : AState) :
    Extends s (ids.foldl (processAddedId dLI i mime) s) := by
  refine foldl_preserves (P := fun s2 => Extends s s2) _ _ _ (extendsRefl s) ?_
  intro c x _ hc
  exact extendsTrans hc (processAddedId_extends dLI i mime c x)

theorem addedEntriesFold_extends (dLI : String → Option Int) (i : Nat)
    (m : StrListMap) (s : AState) :
    Extends s (m.foldl (fun s2 e => e.2.foldl (processAddedId dLI i e.1) s2) s) := by
  refine foldl_preserves (P := fun s2 => Extends s s2) _ _ _ (extendsRefl s) ?_
  intro c e _ hc
  exact extendsTrans hc (addedIdsFold_extends dLI i e.1 e.2 c)

theorem assocLoop_append (load : String → Option Entry) (parse : String → ParseOutcome)
    (dLI : String → Option Int) (idPathsMap : StrListMap) :
    ∀ (l1 l2 : List ListLocation) (i : Nat) (s : AState),
    assocLoop load parse dLI idPathsMap i s (l1 ++ l2) =
      assocLoop load parse dLI idPathsMap (i + l1.length)
        (assocLoop load parse dLI idPathsMap i s l1) l2 := by
  intro l1
  induction l1 with
  | nil =>
    intro l2 i s
    rfl
  | cons loc rest ih =>
    intro l2 i s
    rw [List.cons_append]
    show assocLoop load parse dLI idPathsMap (i + 1)
      (processLocation load parse dLI idPathsMap i s loc) (rest ++ l2) = _
    rw [ih l2 (i + 1) _]
    have hidx : i + 1 + rest.length = i + (loc :: rest).length := by
      rw [List.length_cons]
      omega
    rw [hidx]
    rfl

theorem processLocation_extends_mid (load : String → Option Entry)
    (parse : String → ParseOutcome) (dLI : String → Option Int) (idPathsMap : StrListMap)
    (i : Nat) (s : AState) (location : ListLocation)
    (hplain : filepathBase location.Path = "mimeapps.list") :
    Extends
      (processRemoved dLI i
        (processAdded dLI i s ((parse location.Path).toMimeApps).Added)
        ((parse location.Path).toMimeApps).Removed)
      (processLocation load parse dLI idPathsMap i s location) := by
  unfold processLocation
  rw [if_neg (fun hc => hc hplain)]
  by_cases hdf : location.HasDesktopFiles
  · simp only [hdf, Bool.not_true, Bool.false_eq_true, if_false]
    exact extendsTrans
      (scanFold_extends load (filepathDir location.Path) idPathsMap
        ([], processRemoved dLI i
          (processAdded dLI i s ((parse location.Path).toMimeApps).Added)
          ((parse location.Path).toMimeApps).Removed))
      (flushToAdd_extends _)
  · simp only [bool_eq_false_of_not hdf, Bool.not_false, if_true]
    exact extendsRefl _

/-- C2: if `(type, appId)` is Added at location `i` and Removed at a later
location `j > i`, and the Added directive at `i` is honored — location `i`'s
file is the plain name, `appId` is not exhausted and the pair is undecided
when location `i` is reached, and `deepestValidIndex(appId) ≥ i` — then
`appId` is in `GetAssociations`'s output for `type`: the later Removed never
retracts it. -/
theorem C2_added_wins (locations : List ListLocation) (idPathsMap : StrListMap)
    (parse : String → ParseOutcome) (load : String → Option Entry)
    (pre post : List ListLocation) (loci locj : ListLocation) (ty appId : String)
    (ids : List String) (depth : Int)
    (hsplit : locations = pre ++ loci :: post)
    (hplain : filepathBase loci.Path = "mimeapps.list")
    (hadded : alookup ty ((parse loci.Path).toMimeApps).Added = some ids)
    (hmem : appId ∈ ids)
    (hj : locj ∈ post)
    (hremoved : appId ∈ aget ((parse locj.Path).toMimeApps).Removed ty)
    (hnotex : (assocLoop load parse (desktopIdLowestIndex locations idPathsMap) idPathsMap
      0 initialAState pre).blacklistDesktopIds appId = false)
    (hnotdec : (assocLoop load parse (desktopIdLowestIndex locations idPathsMap) idPathsMap
      0 initialAState pre).blacklistMimeDesktop ty appId = false)
    (hdep : desktopIdLowestIndex locations idPathsMap appId = some depth)
    (hvalid : ¬ depth < (pre.length : Int)) :
    appId ∈ (GetAssociations locations idPathsMap parse load ty).getD [] := by
  set dLI := desktopIdLowestIndex locations idPathsMap with hdli
  set s_i := assocLoop load parse dLI idPathsMap 0 initialAState pre with hsi
  -- decompose the Added map of location i at its (ty, ids) entry
  obtain ⟨apre, apost, haddsp, hapre⟩ := alookup_split hadded
  obtain ⟨ipre, ipost, hidssp, hipre⟩ := mem_split_first hmem
  -- the state just before appId's directive is processed
  set s_a := apre.foldl (fun s2 e => e.2.foldl (processAddedId dLI pre.length e.1) s2) s_i
    with hsa
  set s_b := ipre.foldl (processAddedId dLI pre.length ty) s_a with hsb
  have hbIds : s_b.blacklistDesktopIds appId = false := by
    rw [hsb, addedIdsFold_blIds, hsa, addedFold_blIds]
    exact hnotex
  have hbMD : s_b.blacklistMimeDesktop ty appId = false := by
    rw [hsb, addedIdsFold_blMD_other dLI pre.length ty (m := ty) (d := appId) ipre s_a
      (fun x hx hc => hipre (hc.2.symm ▸ hx)),
      hsa, addedFold_blMD_other dLI pre.length apre s_i hapre]
    exact hnotdec
  -- processing appId's occurrence commits the pair
  have hstep := processAddedId_honored hbIds hdep hvalid hbMD
  have hmem2 : appId ∈ resGet (processAddedId dLI pre.length ty s_b appId) ty := by
    rw [hstep]
    show appId ∈ (pushResult s_b.result ty appId ty).getD []
    rw [pushResult_self]
    exact List.mem_append_right _ (List.mem_singleton.mpr rfl)
  -- the committed entry survives to the end of the Added fold of location i
  have hmem3 : appId ∈ resGet (processAdded dLI pre.length s_i
      ((parse loci.Path).toMimeApps).Added) ty := by
    unfold processAdded
    rw [haddsp, List.foldl_append, List.foldl_cons]
    have h1 : appId ∈ resGet (ids.foldl (processAddedId dLI pre.length ty) s_a) ty := by
      rw [hidssp, List.foldl_append, List.foldl_cons]
      exact (addedIdsFold_extends dLI pre.length ty ipost _).1 ty appId hmem2
    exact (addedEntriesFold_extends dLI pre.length apost _).1 ty appId h1
  -- through the Removed loop, the scan, and the remaining locations
  have hmem4 : appId ∈ resGet (processLocation load parse dLI idPathsMap pre.length s_i
      loci) ty := by
    refine (processLocation_extends_mid load parse dLI idPathsMap pre.length s_i loci
      hplain).1 ty appId ?_
    exact (processRemoved_extends dLI pre.length _ _).1 ty appId hmem3
  have hfinal : appId ∈ resGet (assocLoop load parse dLI idPathsMap 0 initialAState
      locations) ty := by
    rw [hsplit, assocLoop_append]
    rw [← hsi]
    show appId ∈ resGet (assocLoop load parse dLI idPathsMap ((0 + pre.length) + 1)
      (processLocation load parse dLI idPathsMap (0 + pre.length) s_i loci) post) ty
    have hz : 0 + pre.length = pre.length := Nat.zero_add _
    rw [hz]
    exact (assocLoop_extends load parse dLI idPathsMap (pre.length + 1) _ post).1 ty appId
      hmem4
  exact hfinal

/-- Witness for C2: Added at location 0, Removed at location 1, manifest at
location 0's directory: the pair is present in the output. -/
theorem C2_added_wins_witness :
    "foo.desktop" ∈
      (GetAssociations [exLoc0, exLoc1] exIdm2 exParse2 exLoad "text/plain").getD [] :=
  C2_added_wins [exLoc0, exLoc1] exIdm2 exParse2 exLoad [] [exLoc1] exLoc0 exLoc1
    "text/plain" "foo.desktop" ["foo.desktop"] 0 rfl (by decide) (by decide)
    (by decide) (by decide) (by decide) (by decide) (by decide) (by decide) (by decide)

/-- Witness for C5 amended at concrete tables. -/
theorem C5_merge_law_witness :
    mergePreferred exAssoc [("text/plain", ["bar.desktop"])] "text/plain" =
        some (removeDuplicates (["bar.desktop"] ++ ["foo.desktop"])) ∧
      removeDuplicates (["bar.desktop"] ++ ["foo.desktop"]) =
        removeDuplicates ["bar.desktop"] ++
          (removeDuplicates ["foo.desktop"]).filter
            (fun x => !((["bar.desktop"] : List String).contains x)) ∧
      (removeDuplicates (["bar.desktop"] ++ ["foo.desktop"])).Nodup ∧
      ((["bar.desktop"] : List String).Nodup →
        removeDuplicates ["bar.desktop"] = ["bar.desktop"]) :=
  C5_merge_law exAssoc [("text/plain", ["bar.desktop"])] (by decide) "text/plain"
    ["bar.desktop"] ["foo.desktop"] (by decide) (by decide)

/-! ### Determinism of the sort (claim C7, stage 1) -/

theorem lexLe_nil (b : List Char) : lexLe [] b = true := rfl

theorem lexLe_cons_nil (x : Char) (xs : List Char) : lexLe (x :: xs) [] = false := rfl

theorem lexLe_cons_cons (x y : Char) (xs ys : List Char) :
    lexLe (x :: xs) (y :: ys) =
      if x.toNat < y.toNat then true
      else if y.toNat < x.toNat then false
      else lexLe xs ys := rfl

theorem lexLe_total : ∀ (a b : List Char), lexLe a b = true ∨ lexLe b a = true := by
  intro a
  induction a with
  | nil =>
    intro b
    left
    rfl
  | cons x xs ih =>
    intro b
    cases b with
    | nil =>
      right
      rfl
    | cons y ys =>
      by_cases hxy : x.toNat < y.toNat
      · left
        rw [lexLe_cons_cons, if_pos hxy]
      · by_cases hyx : y.toNat < x.toNat
        · right
          rw [lexLe_cons_cons, if_pos hyx]
        · rcases ih ys with h | h
          · left
            rw [lexLe_cons_cons, if_neg hxy, if_neg hyx]
            exact h
          · right
            rw [lexLe_cons_cons, if_neg hyx, if_neg hxy]
            exact h

theorem lexLe_antisymm : ∀ {a b : List Char}, lexLe a b = true → lexLe b a = true →
    a = b := by
  intro a
  induction a with
  | nil =>
    intro b h1 h2
    cases b with
    | nil => rfl
    | cons y ys =>
      exact absurd h2 (by rw [lexLe_cons_nil]; decide)
  | cons x xs ih =>
    intro b h1 h2
    cases b with
    | nil => exact absurd h1 (by rw [lexLe_cons_nil]; decide)
    | cons y ys =>
      by_cases hxy : x.toNat < y.toNat
      · exfalso
        rw [lexLe_cons_cons, if_neg (Nat.lt_asymm hxy), if_pos hxy] at h2
        cases h2
      · by_cases hyx : y.toNat < x.toNat
        · exfalso
          rw [lexLe_cons_cons, if_neg hxy, if_pos hyx] at h1
          cases h1
        · rw [lexLe_cons_cons, if_neg hxy, if_neg hyx] at h1
          rw [lexLe_cons_cons, if_neg hyx, if_neg hxy] at h2
          have hxyeq : x = y := by
            have hn : x.toNat = y.toNat := Nat.le_antisymm
              (Nat.le_of_not_lt hyx) (Nat.le_of_not_lt hxy)
            exact Char.ext (UInt32.ext hn)
          rw [hxyeq, ih h1 h2]

theorem lexLe_trans : ∀ {a b c : List Char}, lexLe a b = true → lexLe b c = true →
    lexLe a c = true := by
  intro a
  induction a with
  | nil =>
    intro b c _ _
    rfl
  | cons x xs ih =>
    intro b c h1 h2
    cases b with
    | nil => exact absurd h1 (by rw [lexLe_cons_nil]; decide)
    | cons y ys =>
      cases c with
      | nil => exact absurd h2 (by rw [lexLe_cons_nil]; decide)
      | cons z zs =>
        rw [lexLe_cons_cons] at h1 h2 ⊢
        by_cases hxy : x.toNat < y.toNat
        · by_cases hyz : y.toNat < z.toNat
          · rw [if_pos (Nat.lt_trans hxy hyz)]
          · by_cases hzy : z.toNat < y.toNat
            · rw [if_neg hyz, if_pos hzy] at h2
              cases h2
            · have hyzeq : y.toNat = z.toNat := Nat.le_antisymm
                (Nat.le_of_not_lt hzy) (Nat.le_of_not_lt hyz)
              rw [if_pos (hyzeq ▸ hxy)]
        · by_cases hyx : y.toNat < x.toNat
          · rw [if_neg hxy, if_pos hyx] at h1
            cases h1
          · have hxyeq : x.toNat = y.toNat := Nat.le_antisymm
              (Nat.le_of_not_lt hyx) (Nat.le_of_not_lt hxy)
            by_cases hyz : y.toNat < z.toNat
            · rw [if_pos (hxyeq ▸ hyz)]
            · by_cases hzy : z.toNat < y.toNat
              · rw [if_neg hyz, if_pos hzy] at h2
                cases h2
              · rw [if_neg hxy, if_neg hyx] at h1
                rw [if_neg hyz, if_neg hzy] at h2
                rw [if_neg (hxyeq ▸ hyz), if_neg (hxyeq ▸ hzy)]
                exact ih h1 h2

theorem strLe_total (a b : String) : strLe a b = true ∨ strLe b a = true :=
  lexLe_total a.data b.data

theorem strLe_antisymm {a b : String} (h1 : strLe a b = true) (h2 : strLe b a = true) :
    a = b :=
  String.ext (lexLe_antisymm h1 h2)

theorem strLe_trans {a b c : String} (h1 : strLe a b = true) (h2 : strLe b c = true) :
    strLe a c = true :=
  lexLe_trans h1 h2

theorem mem_insertStr {z x : String} {l : List String} :
    z ∈ insertStr x l ↔ z = x ∨ z ∈ l := by
  rw [(insertStr_perm x l).mem_iff]
  exact List.mem_cons

theorem sorted_insertStr {x : String} : ∀ {l : List String},
    List.Pairwise (fun a b => strLe a b = true) l →
    List.Pairwise (fun a b => strLe a b = true) (insertStr x l) := by
  intro l
  induction l with
  | nil =>
    intro _
    exact List.pairwise_cons.mpr ⟨fun a ha => absurd ha (List.not_mem_nil a),
      List.Pairwise.nil⟩
  | cons y ys ih =>
    intro h
    obtain ⟨hy, hys⟩ := List.pairwise_cons.mp h
    unfold insertStr
    by_cases hxy : strLe x y
    · rw [if_pos hxy]
      refine List.pairwise_cons.mpr ⟨?_, h⟩
      intro a ha
      rcases List.mem_cons.mp ha with ha | ha
      · rw [ha]
        exact hxy
      · exact strLe_trans hxy (hy a ha)
    · rw [if_neg hxy]
      have hyx : strLe y x = true := by
        rcases strLe_total x y with hc | hc
        · exact absurd hc hxy
        · exact hc
      refine List.pairwise_cons.mpr ⟨?_, ih hys⟩
      intro a ha
      rcases mem_insertStr.mp ha with ha | ha
      · rw [ha]
        exact hyx
      · exact hy a ha

theorem sorted_sortStrings : ∀ (l : List String),
    List.Pairwise (fun a b => strLe a b = true) (sortStrings l) := by
  intro l
  induction l with
  | nil => exact List.Pairwise.nil
  | cons x xs ih =>
    unfold sortStrings
    exact sorted_insertStr ih

theorem sortStrings_eq_of_perm {l1 l2 : List String} (h : l1.Perm l2) :
    sortStrings l1 = sortStrings l2 := by
  haveI : IsAntisymm String (fun a b => strLe a b = true) :=
    ⟨fun a b h1 h2 => strLe_antisymm h1 h2⟩
  refine List.eq_of_perm_of_sorted ?_ (sorted_sortStrings l1) (sorted_sortStrings l2)
  exact (sortStrings_perm l1).trans (h.trans (sortStrings_perm l2).symm)

/-! ### Lookup is iteration-order independent (claim C7, stage 2) -/

theorem alookup_eq_some_of_mem : ∀ {t : StrListMap} {k : String} {v : List String},
    NodupKeys t → (k, v) ∈ t → alookup k t = some v := by
  intro t
  induction t with
  | nil =>
    intro k v _ hm
    exact absurd hm (List.not_mem_nil _)
  | cons e es ih =>
    intro k v hkeys hm
    obtain ⟨hdist, hkeys2⟩ := nodupKeys_cons_ne hkeys
    rcases List.mem_cons.mp hm with hm | hm
    · rw [alookup_cons, if_pos (by rw [← hm])]
      rw [← hm]
    · have hek : ¬ e.1 = k := by
        intro hc
        exact hdist (k, v) hm (by rw [hc])
      rw [alookup_cons, if_neg hek]
      exact ih hkeys2 hm

theorem nodupKeys_perm {m1 m2 : StrListMap} (h : m1.Perm m2) (hk : NodupKeys m1) :
    NodupKeys m2 :=
  (h.map Prod.fst).nodup hk

theorem alookup_perm {m1 m2 : StrListMap} (hperm : m1.Perm m2) (hkeys : NodupKeys m1)
    (k : String) : alookup k m1 = alookup k m2 := by
  cases h1 : alookup k m1 with
  | some v =>
    exact (alookup_eq_some_of_mem (nodupKeys_perm hperm hkeys)
      (hperm.mem_iff.mp (mem_of_alookup_eq_some h1))).symm
  | none =>
    have hni : k ∉ m1.map Prod.fst := alookup_none_iff.mp h1
    have hni2 : k ∉ m2.map Prod.fst := fun hc => hni ((hperm.map Prod.fst).mem_iff.mpr hc)
    exact (alookup_none_iff.mpr hni2).symm

/-! ### Folding a permuted list (claim C7, stage 3) -/

theorem foldl_rel_congr {β γ : Type _} (R : β → β → Prop) (f : β → γ → β)
    (hcong : ∀ p q e, R p q → R (f p e) (f q e)) :
    ∀ (l : List γ) {a b : β}, R a b → R (l.foldl f a) (l.foldl f b) := by
  intro l
  induction l with
  | nil =>
    intro a b h
    exact h
  | cons x xs ih =>
    intro a b h
    exact ih (hcong a b x h)

theorem foldl_perm_rel {β γ : Type _} (R : β → β → Prop) (key : γ → String) (f : β → γ → β)
    (hrefl : ∀ b, R b b) (htrans : ∀ {a b c : β}, R a b → R b c → R a c)
    (hcong : ∀ p q e, R p q → R (f p e) (f q e))
    (hswap : ∀ p e1 e2, key e1 ≠ key e2 → R (f (f p e1) e2) (f (f p e2) e1)) :
    ∀ {l1 l2 : List γ}, l1.Perm l2 → (l1.map key).Nodup →
    ∀ p q, R p q → R (l1.foldl f p) (l2.foldl f q) := by
  intro l1 l2 hperm
  induction hperm with
  | nil =>
    intro _ p q h
    exact h
  | cons x hp ih =>
    intro hkeys p q h
    rw [List.foldl_cons, List.foldl_cons]
    rw [List.map_cons, List.nodup_cons] at hkeys
    exact ih hkeys.2 (f p x) (f q x) (hcong p q x h)
  | swap x y l =>
    intro hkeys p q h
    rw [List.foldl_cons, List.foldl_cons, List.foldl_cons, List.foldl_cons]
    have hne : key y ≠ key x := by
      rw [List.map_cons, List.nodup_cons] at hkeys
      intro hc
      exact hkeys.1 (hc ▸ List.mem_map_of_mem key (List.mem_cons_self x l))
    refine htrans (foldl_rel_congr R f hcong l (hswap p y x hne)) ?_
    refine foldl_rel_congr R f hcong l ?_
    exact hcong _ _ y (hcong p q x h)
  | trans hp12 hp23 ih1 ih2 =>
    intro hkeys p q h
    refine htrans (ih1 hkeys p p (hrefl p)) ?_
    exact ih2 ((hp12.map key).nodup hkeys) p q h

/-! ### The Added and Removed loops are iteration-order independent
(claim C7, stage 4) -/

theorem processAddedId_of_blIds {dLI : String → Option Int} {i : Nat} {mime : String}
    {s : AState} {d : String} (h : s.blacklistDesktopIds d = true) :
    processAddedId dLI i mime s d = s := by
  unfold processAddedId
  rw [if_pos h]

theorem processAddedId_of_none {dLI : String → Option Int} {i : Nat} {mime : String}
    {s : AState} {d : String} (hb : s.blacklistDesktopIds d = false)
    (h : dLI d = none) : processAddedId dLI i mime s d = s := by
  unfold processAddedId
  rw [if_neg (by rw [hb]; decide), h]

theorem processAddedId_of_lt {dLI : String → Option Int} {i : Nat} {mime : String}
    {s : AState} {d : String} {depth : Int} (hb : s.blacklistDesktopIds d = false)
    (h : dLI d = some depth) (hlt : depth < (i : Int)) :
    processAddedId dLI i mime s d = s := by
  unfold processAddedId
  rw [if_neg (by rw [hb]; decide), h]
  show (if depth < (i : Int) then s
    else if s.blacklistMimeDesktop mime d then s
    else { s with
      blacklistMimeDesktop := setBlacklistMD s.blacklistMimeDesktop mime d,
      result := pushResult s.result mime d }) = s
  rw [if_pos hlt]

theorem processAddedId_of_decided {dLI : String → Option Int} {i : Nat} {mime : String}
    {s : AState} {d : String} {depth : Int} (hb : s.blacklistDesktopIds d = false)
    (h : dLI d = some depth) (hlt : ¬ depth < (i : Int))
    (hmd : s.blacklistMimeDesktop mime d = true) :
    processAddedId dLI i mime s d = s := by
  unfold processAddedId
  rw [if_neg (by rw [hb]; decide), h]
  show (if depth < (i : Int) then s
    else if s.blacklistMimeDesktop mime d then s
    else { s with
      blacklistMimeDesktop := setBlacklistMD s.blacklistMimeDesktop mime d,
      result := pushResult s.result mime d }) = s
  rw [if_neg hlt, if_pos hmd]

theorem processAddedId_agree {dLI : String → Option Int} {i : Nat} {mime : String}
    {s s2 : AState} {d : String} (h : Agree mime s s2) :
    Agree mime (processAddedId dLI i mime s d) (processAddedId dLI i mime s2 d) := by
  obtain ⟨h1, h2, h3⟩ := h
  by_cases hb : s.blacklistDesktopIds d
  · rw [processAddedId_of_blIds hb, processAddedId_of_blIds (by rw [← h3]; exact hb)]
    exact ⟨h1, h2, h3⟩
  · have hb1 : s.blacklistDesktopIds d = false := bool_eq_false_of_not hb
    have hb2 : s2.blacklistDesktopIds d = false := by rw [← h3]; exact hb1
    cases hdl : dLI d with
    | none =>
      rw [processAddedId_of_none hb1 hdl, processAddedId_of_none hb2 hdl]
      exact ⟨h1, h2, h3⟩
    | some depth =>
      by_cases hlt : depth < (i : Int)
      · rw [processAddedId_of_lt hb1 hdl hlt, processAddedId_of_lt hb2 hdl hlt]
        exact ⟨h1, h2, h3⟩
      · by_cases hmd : s.blacklistMimeDesktop mime d
        · rw [processAddedId_of_decided hb1 hdl hlt hmd,
            processAddedId_of_decided hb2 hdl hlt (by rw [← h2 d]; exact hmd)]
          exact ⟨h1, h2, h3⟩
        · have hmd1 : s.blacklistMimeDesktop mime d = false := bool_eq_false_of_not hmd
          have hmd2 : s2.blacklistMimeDesktop mime d = false := by
            rw [← h2 d]
            exact hmd1
          rw [processAddedId_honored hb1 hdl hlt hmd1,
            processAddedId_honored hb2 hdl hlt hmd2]
          refine ⟨?_, ?_, h3⟩
          · show pushResult s.result mime d mime = pushResult s2.result mime d mime
            rw [pushResult_self, pushResult_self, h1]
          · intro d2
            show setBlacklistMD s.blacklistMimeDesktop mime d mime d2 =
              setBlacklistMD s2.blacklistMimeDesktop mime d mime d2
            unfold setBlacklistMD
            by_cases hc : mime = mime ∧ d2 = d
            · rw [if_pos hc, if_pos hc]
            · rw [if_neg hc, if_neg hc]
              exact h2 d2

theorem addedIdsFold_agree (dLI : String → Option Int) (i : Nat) {mime : String} :
    ∀ (ids : List String) {s s2 : AState}, Agree mime s s2 →
    Agree mime (ids.foldl (processAddedId dLI i mime) s)
      (ids.foldl (processAddedId dLI i mime) s2) := by
  intro ids
  induction ids with
  | nil =>
    intro s s2 h
    exact h
  | cons d ds ih =>
    intro s s2 h
    rw [List.foldl_cons, List.foldl_cons]
    exact ih (processAddedId_agree h)

theorem processAddedId_result_other (dLI : String → Option Int) (i : Nat)
    (mime : String) {m : String} (hm : ¬ m = mime) (s : AState) (d : String) :
    (processAddedId dLI i mime s d).result m = s.result m := by
  rcases processAddedId_cases dLI i mime s d with he | ⟨_, _, _, he⟩
  · rw [he]
  · rw [he]
    exact pushResult_ne _ _ hm

theorem addedIdsFold_result_other (dLI : String → Option Int) (i : Nat) (mime : String)
    {m : String} (hm : ¬ m = mime) : ∀ (ids : List String) (s : AState),
    (ids.foldl (processAddedId dLI i mime) s).result m = s.result m := by
  intro ids
  induction ids with
  | nil =>
    intro s
    rfl
  | cons d ds ih =>
    intro s
    rw [List.foldl_cons, ih, processAddedId_result_other dLI i mime hm]

theorem addedEntry_comm (dLI : String → Option Int) (i : Nat)
    (e1 e2 : String × List String) (hne : e1.1 ≠ e2.1) (s : AState) :
    e2.2.foldl (processAddedId dLI i e2.1) (e1.2.foldl (processAddedId dLI i e1.1) s) =
      e1.2.foldl (processAddedId dLI i e1.1)
        (e2.2.foldl (processAddedId dLI i e2.1) s) := by
  have hagree1 : Agree e1.1 s (e2.2.foldl (processAddedId dLI i e2.1) s) :=
    ⟨(addedIdsFold_result_other dLI i e2.1 hne e2.2 s).symm,
     fun d => (addedIdsFold_blMD_other dLI i e2.1 (m := e1.1) (d := d) e2.2 s
       (fun x _ hc => hne hc.1)).symm,
     (addedIdsFold_blIds dLI i e2.1 e2.2 s).symm⟩
  have hagree2 : Agree e2.1 s (e1.2.foldl (processAddedId dLI i e1.1) s) :=
    ⟨(addedIdsFold_result_other dLI i e1.1 (fun hc => hne hc.symm) e1.2 s).symm,
     fun d => (addedIdsFold_blMD_other dLI i e1.1 (m := e2.1) (d := d) e1.2 s
       (fun x _ hc => hne hc.1.symm)).symm,
     (addedIdsFold_blIds dLI i e1.1 e1.2 s).symm⟩
  have hA1 := addedIdsFold_agree dLI i e1.2 hagree1
  have hA2 := addedIdsFold_agree dLI i e2.2 hagree2
  refine AState.ext ?_ ?_ ?_
  · funext m
    by_cases h1 : m = e1.1
    · subst h1
      rw [addedIdsFold_result_other dLI i e2.1 hne e2.2
        (e1.2.foldl (processAddedId dLI i e1.1) s)]
      exact hA1.1
    · by_cases h2 : m = e2.1
      · subst h2
        rw [addedIdsFold_result_other dLI i e1.1 (fun hc => hne hc.symm) e1.2
          (e2.2.foldl (processAddedId dLI i e2.1) s)]
        exact hA2.1.symm
      · rw [addedIdsFold_result_other dLI i e2.1 h2 e2.2
            (e1.2.foldl (processAddedId dLI i e1.1) s),
          addedIdsFold_result_other dLI i e1.1 h1 e1.2
            (e2.2.foldl (processAddedId dLI i e2.1) s),
          addedIdsFold_result_other dLI i e1.1 h1 e1.2 s,
          addedIdsFold_result_other dLI i e2.1 h2 e2.2 s]
  · funext m d
    by_cases h1 : m = e1.1
    · subst h1
      rw [addedIdsFold_blMD_other dLI i e2.1 (m := e1.1) (d := d) e2.2
        (e1.2.foldl (processAddedId dLI i e1.1) s) (fun x _ hc => hne hc.1)]
      exact hA1.2.1 d
    · by_cases h2 : m = e2.1
      · subst h2
        rw [addedIdsFold_blMD_other dLI i e1.1 (m := e2.1) (d := d) e1.2
          (e2.2.foldl (processAddedId dLI i e2.1) s) (fun x _ hc => hne hc.1.symm)]
        exact (hA2.2.1 d).symm
      · rw [addedIdsFold_blMD_other dLI i e2.1 (m := m) (d := d) e2.2
            (e1.2.foldl (processAddedId dLI i e1.1) s) (fun x _ hc => h2 hc.1),
          addedIdsFold_blMD_other dLI i e1.1 (m := m) (d := d) e1.2
            (e2.2.foldl (processAddedId dLI i e2.1) s) (fun x _ hc => h1 hc.1),
          addedIdsFold_blMD_other dLI i e1.1 (m := m) (d := d) e1.2 s
            (fun x _ hc => h1 hc.1),
          addedIdsFold_blMD_other dLI i e2.1 (m := m) (d := d) e2.2 s
            (fun x _ hc => h2 hc.1)]
  · rw [addedIdsFold_blIds dLI i e2.1 e2.2
        (e1.2.foldl (processAddedId dLI i e1.1) s),
      addedIdsFold_blIds dLI i e1.1 e1.2 s,
      addedIdsFold_blIds dLI i e1.1 e1.2
        (e2.2.foldl (processAddedId dLI i e2.1) s),
      addedIdsFold_blIds dLI i e2.1 e2.2 s]

theorem processAdded_perm (dLI : String → Option Int) (i : Nat) {m1 m2 : StrListMap}
    (hperm : m1.Perm m2) (hkeys : NodupKeys m1) (s : AState) :
    processAdded dLI i s m1 = processAdded dLI i s m2 := by
  unfold processAdded
  exact foldl_perm_rel (fun a b => a = b) Prod.fst
    (fun s2 e => e.2.foldl (processAddedId dLI i e.1) s2)
    (fun b => rfl) (fun h1 h2 => h1.trans h2)
    (fun p q e h => by rw [h])
    (fun p e1 e2 hne2 => addedEntry_comm dLI i e1 e2 hne2 p)
    hperm hkeys s s rfl

theorem processRemovedId_of_blIds {dLI : String → Option Int} {i : Nat} {mime : String}
    {s : AState} {d : String} (h : s.blacklistDesktopIds d = true) :
    processRemovedId dLI i mime s d = s := by
  unfold processRemovedId
  rw [if_pos h]

theorem processRemovedId_of_none {dLI : String → Option Int} {i : Nat} {mime : String}
    {s : AState} {d : String} (hb : s.blacklistDesktopIds d = false)
    (h : dLI d = none) : processRemovedId dLI i mime s d = s := by
  unfold processRemovedId
  rw [if_neg (by rw [hb]; decide), h]

theorem processRemovedId_of_lt {dLI : String → Option Int} {i : Nat} {mime : String}
    {s : AState} {d : String} {depth : Int} (hb : s.blacklistDesktopIds d = false)
    (h : dLI d = some depth) (hlt : depth < (i : Int)) :
    processRemovedId dLI i mime s d = s := by
  unfold processRemovedId
  rw [if_neg (by rw [hb]; decide), h]
  show (if depth < (i : Int) then s
    else { s with
      blacklistMimeDesktop := setBlacklistMD s.blacklistMimeDesktop mime d }) = s
  rw [if_pos hlt]

theorem processRemovedId_set {dLI : String → Option Int} {i : Nat} {mime : String}
    {s : AState} {d : String} {depth : Int} (hb : s.blacklistDesktopIds d = false)
    (h : dLI d = some depth) (hlt : ¬ depth < (i : Int)) :
    processRemovedId dLI i mime s d =
      { s with blacklistMimeDesktop := setBlacklistMD s.blacklistMimeDesktop mime d } := by
  unfold processRemovedId
  rw [if_neg (by rw [hb]; decide), h]
  show (if depth < (i : Int) then s
    else { s with
      blacklistMimeDesktop := setBlacklistMD s.blacklistMimeDesktop mime d }) = _
  rw [if_neg hlt]

theorem processRemovedId_agree {dLI : String → Option Int} {i : Nat} {mime : String}
    {s s2 : AState} {d : String} (h : Agree mime s s2) :
    Agree mime (processRemovedId dLI i mime s d) (processRemovedId dLI i mime s2 d) := by
  obtain ⟨h1, h2, h3⟩ := h
  by_cases hb : s.blacklistDesktopIds d
  · rw [processRemovedId_of_blIds hb, processRemovedId_of_blIds (by rw [← h3]; exact hb)]
    exact ⟨h1, h2, h3⟩
  · have hb1 : s.blacklistDesktopIds d = false := bool_eq_false_of_not hb
    have hb2 : s2.blacklistDesktopIds d = false := by rw [← h3]; exact hb1
    cases hdl : dLI d with
    | none =>
      rw [processRemovedId_of_none hb1 hdl, processRemovedId_of_none hb2 hdl]
      exact ⟨h1, h2, h3⟩
    | some depth =>
      by_cases hlt : depth < (i : Int)
      · rw [processRemovedId_of_lt hb1 hdl hlt, processRemovedId_of_lt hb2 hdl hlt]
        exact ⟨h1, h2, h3⟩
      · rw [processRemovedId_set hb1 hdl hlt, processRemovedId_set hb2 hdl hlt]
        refine ⟨h1, ?_, h3⟩
        intro d2
        show setBlacklistMD s.blacklistMimeDesktop mime d mime d2 =
          setBlacklistMD s2.blacklistMimeDesktop mime d mime d2
        unfold setBlacklistMD
        by_cases hc : mime = mime ∧ d2 = d
        · rw [if_pos hc, if_pos hc]
        · rw [if_neg hc, if_neg hc]
          exact h2 d2

theorem removedIdsFold_agree (dLI : String → Option Int) (i : Nat) {mime : String} :
    ∀ (ids : List String) {s s2 : AState}, Agree mime s s2 →
    Agree mime (ids.foldl (processRemovedId dLI i mime) s)
      (ids.foldl (processRemovedId dLI i mime) s2) := by
  intro ids
  induction ids with
  | nil =>
    intro s s2 h
    exact h
  | cons d ds ih =>
    intro s s2 h
    rw [List.foldl_cons, List.foldl_cons]
    exact ih (processRemovedId_agree h)

theorem processRemovedId_blIds (dLI : String → Option Int) (i : Nat) (mime : String)
    (s : AState) (d : String) :
    (processRemovedId dLI i mime s d).blacklistDesktopIds = s.blacklistDesktopIds := by
  rcases processRemovedId_cases dLI i mime s d with he | ⟨_, _, he⟩ <;> rw [he]

theorem removedIdsFold_blIds (dLI : String → Option Int) (i : Nat) (mime : String) :
    ∀ (ids : List String) (s : AState),
    (ids.foldl (processRemovedId dLI i mime) s).blacklistDesktopIds =
      s.blacklistDesktopIds := by
  intro ids
  induction ids with
  | nil =>
    intro s
    rfl
  | cons d ds ih =>
    intro s
    rw [List.foldl_cons, ih, processRemovedId_blIds]

theorem removedIdsFold_result (dLI : String → Option Int) (i : Nat) (mime : String) :
    ∀ (ids : List String) (s : AState),
    (ids.foldl (processRemovedId dLI i mime) s).result = s.result := by
  intro ids
  induction ids with
  | nil =>
    intro s
    rfl
  | cons d ds ih =>
    intro s
    rw [List.foldl_cons, ih, processRemovedId_result]

theorem processRemovedId_blMD_other {m d : String} (dLI : String → Option Int) (i : Nat)
    (mime : String) (s : AState) (desktopId : String)
    (h : ¬ (m = mime ∧ d = desktopId)) :
    (processRemovedId dLI i mime s desktopId).blacklistMimeDesktop m d =
      s.blacklistMimeDesktop m d := by
  rcases processRemovedId_cases dLI i mime s desktopId with he | ⟨_, _, he⟩
  · rw [he]
  · rw [he]
    exact setBlacklistMD_ne _ h

theorem removedIdsFold_blMD_other (dLI : String → Option Int) (i : Nat) (mime : String)
    {m d : String} :
    ∀ (ids : List String) (s : AState), (∀ x ∈ ids, ¬ (m = mime ∧ d = x)) →
    (ids.foldl (processRemovedId dLI i mime) s).blacklistMimeDesktop m d =
      s.blacklistMimeDesktop m d := by
  intro ids
  induction ids with
  | nil =>
    intro s _
    rfl
  | cons x xs ih =>
    intro s h
    rw [List.foldl_cons, ih _ (fun y hy => h y (List.mem_cons_of_mem x hy)),
      processRemovedId_blMD_other _ _ _ _ _ (h x (List.mem_cons_self x xs))]

theorem removedEntry_comm (dLI : String → Option Int) (i : Nat)
    (e1 e2 : String × List String) (hne : e1.1 ≠ e2.1) (s : AState) :
    e2.2.foldl (processRemovedId dLI i e2.1) (e1.2.foldl (processRemovedId dLI i e1.1) s) =
      e1.2.foldl (processRemovedId dLI i e1.1)
        (e2.2.foldl (processRemovedId dLI i e2.1) s) := by
  have hagree1 : Agree e1.1 s (e2.2.foldl (processRemovedId dLI i e2.1) s) :=
    ⟨(removedIdsFold_result dLI i e2.1 e2.2 s).symm ▸ rfl,
     fun d => (removedIdsFold_blMD_other dLI i e2.1 (m := e1.1) (d := d) e2.2 s
       (fun x _ hc => hne hc.1)).symm,
     (removedIdsFold_blIds dLI i e2.1 e2.2 s).symm⟩
  have hagree2 : Agree e2.1 s (e1.2.foldl (processRemovedId dLI i e1.1) s) :=
    ⟨(removedIdsFold_result dLI i e1.1 e1.2 s).symm ▸ rfl,
     fun d => (removedIdsFold_blMD_other dLI i e1.1 (m := e2.1) (d := d) e1.2 s
       (fun x _ hc => hne hc.1.symm)).symm,
     (removedIdsFold_blIds dLI i e1.1 e1.2 s).symm⟩
  have hA1 := removedIdsFold_agree dLI i e1.2 hagree1
  have hA2 := removedIdsFold_agree dLI i e2.2 hagree2
  refine AState.ext ?_ ?_ ?_
  · rw [removedIdsFold_result dLI i e2.1 e2.2
        (e1.2.foldl (processRemovedId dLI i e1.1) s),
      removedIdsFold_result dLI i e1.1 e1.2 s,
      removedIdsFold_result dLI i e1.1 e1.2
        (e2.2.foldl (processRemovedId dLI i e2.1) s),
      removedIdsFold_result dLI i e2.1 e2.2 s]
  · funext m d
    by_cases h1 : m = e1.1
    · subst h1
      rw [removedIdsFold_blMD_other dLI i e2.1 (m := e1.1) (d := d) e2.2
        (e1.2.foldl (processRemovedId dLI i e1.1) s) (fun x _ hc => hne hc.1)]
      exact hA1.2.1 d
    · by_cases h2 : m = e2.1
      · subst h2
        rw [removedIdsFold_blMD_other dLI i e1.1 (m := e2.1) (d := d) e1.2
          (e2.2.foldl (processRemovedId dLI i e2.1) s) (fun x _ hc => hne hc.1.symm)]
        exact (hA2.2.1 d).symm
      · rw [removedIdsFold_blMD_other dLI i e2.1 (m := m) (d := d) e2.2
            (e1.2.foldl (processRemovedId dLI i e1.1) s) (fun x _ hc => h2 hc.1),
          removedIdsFold_blMD_other dLI i e1.1 (m := m) (d := d) e1.2
            (e2.2.foldl (processRemovedId dLI i e2.1) s) (fun x _ hc => h1 hc.1),
          removedIdsFold_blMD_other dLI i e1.1 (m := m) (d := d) e1.2 s
            (fun x _ hc => h1 hc.1),
          removedIdsFold_blMD_other dLI i e2.1 (m := m) (d := d) e2.2 s
            (fun x _ hc => h2 hc.1)]
  · rw [removedIdsFold_blIds dLI i e2.1 e2.2
        (e1.2.foldl (processRemovedId dLI i e1.1) s),
      removedIdsFold_blIds dLI i e1.1 e1.2 s,
      removedIdsFold_blIds dLI i e1.1 e1.2
        (e2.2.foldl (processRemovedId dLI i e2.1) s),
      removedIdsFold_blIds dLI i e2.1 e2.2 s]

theorem processRemoved_perm (dLI : String → Option Int) (i : Nat) {m1 m2 : StrListMap}
    (hperm : m1.Perm m2) (hkeys : NodupKeys m1) (s : AState) :
    processRemoved dLI i s m1 = processRemoved dLI i s m2 := by
  unfold processRemoved
  exact foldl_perm_rel (fun a b => a = b) Prod.fst
    (fun s2 e => e.2.foldl (processRemovedId dLI i e.1) s2)
    (fun b => rfl) (fun h1 h2 => h1.trans h2)
    (fun p q e h => by rw [h])
    (fun p e1 e2 hne2 => removedEntry_comm dLI i e1 e2 hne2 p)
    hperm hkeys s s rfl

/-! ### The colocated scan is iteration-order independent (claim C7, stage 5) -/

theorem valEquiv_refl : ∀ (x : Option (List String)), ValEquiv x x
  | none => trivial
  | some v => List.Perm.refl v

theorem valEquiv_trans : ∀ {x y z : Option (List String)},
    ValEquiv x y → ValEquiv y z → ValEquiv x z := by
  intro x y z h1 h2
  cases x with
  | none =>
    cases y with
    | none => exact h2
    | some v => exact absurd h1 (by intro hc; exact hc)
  | some v =>
    cases y with
    | none => exact absurd h1 (by intro hc; exact hc)
    | some w =>
      cases z with
      | none => exact absurd h2 (by intro hc; exact hc)
      | some u => exact List.Perm.trans h1 h2

theorem scanEquiv_refl (p : StrListMap × AState) : ScanEquiv p p :=
  ⟨rfl, fun k => valEquiv_refl _⟩

theorem scanEquiv_trans {p q r : StrListMap × AState} (h1 : ScanEquiv p q)
    (h2 : ScanEquiv q r) : ScanEquiv p r :=
  ⟨h1.1.trans h2.1, fun k => valEquiv_trans (h1.2 k) (h2.2 k)⟩

theorem setBlacklistMD_column (f : String → String → Bool) (m0 id : String) :
    (fun m2 => setBlacklistMD f m0 id m2 id) = setTrue (fun m2 => f m2 id) m0 := by
  funext m2
  unfold setBlacklistMD setTrue
  by_cases h : m2 = m0
  · rw [if_pos ⟨h, rfl⟩, if_pos h]
  · rw [if_neg (fun hc => h hc.1), if_neg h]

theorem contribMimes_cons_true (bm : String → Bool) (m : String) (ms : List String)
    (h : bm m = true) : contribMimes bm (m :: ms) = contribMimes bm ms := by
  show (if bm m then contribMimes bm ms else m :: contribMimes (setTrue bm m) ms) = _
  rw [if_pos h]

theorem contribMimes_cons_false (bm : String → Bool) (m : String) (ms : List String)
    (h : bm m = false) :
    contribMimes bm (m :: ms) = m :: contribMimes (setTrue bm m) ms := by
  show (if bm m then contribMimes bm ms else m :: contribMimes (setTrue bm m) ms) = _
  rw [if_neg (by rw [h]; decide)]

theorem contribMimes_not_mem {m : String} : ∀ (ms : List String) (bm : String → Bool),
    bm m = true → m ∉ contribMimes bm ms := by
  intro ms
  induction ms with
  | nil =>
    intro bm _ hc
    exact List.not_mem_nil m hc
  | cons m0 ms ih =>
    intro bm h
    by_cases hb : bm m0
    · rw [contribMimes_cons_true bm m0 ms hb]
      exact ih bm h
    · rw [contribMimes_cons_false bm m0 ms (bool_eq_false_of_not hb)]
      intro hc
      rcases List.mem_cons.mp hc with hc | hc
      · exact hb (hc ▸ h)
      · refine ih (setTrue bm m0) ?_ hc
        by_cases hm : m = m0
        · exact absurd (hm ▸ h) hb
        · rw [setTrue_ne bm hm]
          exact h

theorem scanMime_pair_true (id : String) (t : StrListMap) (s : AState) (m : String)
    (h : s.blacklistMimeDesktop m id = true) : scanMime id (t, s) m = (t, s) := by
  show (if s.blacklistMimeDesktop m id then (t, s)
    else (updateAList t m id,
      { s with blacklistMimeDesktop := setBlacklistMD s.blacklistMimeDesktop m id })) = _
  rw [if_pos h]

theorem scanMime_pair_false (id : String) (t : StrListMap) (s : AState) (m : String)
    (h : s.blacklistMimeDesktop m id = false) :
    scanMime id (t, s) m =
      (updateAList t m id,
       { s with blacklistMimeDesktop := setBlacklistMD s.blacklistMimeDesktop m id }) := by
  show (if s.blacklistMimeDesktop m id then (t, s)
    else (updateAList t m id,
      { s with blacklistMimeDesktop := setBlacklistMD s.blacklistMimeDesktop m id })) = _
  rw [if_neg (by rw [h]; decide)]

theorem scanMimes_result (id : String) : ∀ (ms : List String) (acc : StrListMap × AState),
    (ms.foldl (scanMime id) acc).2.result = acc.2.result := by
  intro ms
  induction ms with
  | nil =>
    intro acc
    rfl
  | cons m0 ms ih =>
    intro acc
    rw [List.foldl_cons, ih]
    rcases scanMime_cases id acc m0 with he | ⟨_, he⟩ <;> rw [he]

theorem scanMimes_blMD (id : String) : ∀ (ms : List String) (t : StrListMap) (s : AState)
    (m d : String),
    (ms.foldl (scanMime id) (t, s)).2.blacklistMimeDesktop m d =
      if d = id ∧ m ∈ contribMimes (fun m2 => s.blacklistMimeDesktop m2 id) ms then true
      else s.blacklistMimeDesktop m d := by
  intro ms
  induction ms with
  | nil =>
    intro t s m d
    rw [if_neg (fun hc => List.not_mem_nil m hc.2)]
    rfl
  | cons m0 ms ih =>
    intro t s m d
    by_cases hb : s.blacklistMimeDesktop m0 id
    · rw [List.foldl_cons, scanMime_pair_true id t s m0 hb, ih t s m d,
        contribMimes_cons_true (fun m2 => s.blacklistMimeDesktop m2 id) m0 ms hb]
    · have hb0 : s.blacklistMimeDesktop m0 id = false := bool_eq_false_of_not hb
      rw [List.foldl_cons, scanMime_pair_false id t s m0 hb0, ih _ _ m d]
      show (if d = id ∧ m ∈ contribMimes
            (fun m2 => setBlacklistMD s.blacklistMimeDesktop m0 id m2 id) ms then true
          else setBlacklistMD s.blacklistMimeDesktop m0 id m d) =
        (if d = id ∧ m ∈ contribMimes (fun m2 => s.blacklistMimeDesktop m2 id) (m0 :: ms)
          then true else s.blacklistMimeDesktop m d)
      rw [setBlacklistMD_column,
        contribMimes_cons_false (fun m2 => s.blacklistMimeDesktop m2 id) m0 ms hb0]
      by_cases hd : d = id
      · rw [hd]
        by_cases hm : m ∈ contribMimes
            (setTrue (fun m2 => s.blacklistMimeDesktop m2 id) m0) ms
        · rw [if_pos ⟨rfl, hm⟩, if_pos ⟨rfl, List.mem_cons_of_mem m0 hm⟩]
        · rw [if_neg (fun hc => hm hc.2)]
          by_cases hm0 : m = m0
          · rw [if_pos ⟨rfl, by rw [hm0]; exact List.mem_cons_self m0 _⟩, hm0]
            unfold setBlacklistMD
            rw [if_pos ⟨rfl, rfl⟩]
          · rw [if_neg (fun hc => (List.mem_cons.mp hc.2).elim hm0 hm)]
            unfold setBlacklistMD
            rw [if_neg (fun hc => hm0 hc.1)]
      · rw [if_neg (fun hc => hd hc.1), if_neg (fun hc => hd hc.1)]
        unfold setBlacklistMD
        rw [if_neg (fun hc => hd hc.2)]

theorem scanMimes_alookup (id : String) : ∀ (ms : List String) (t : StrListMap)
    (s : AState) (k : String),
    alookup k (ms.foldl (scanMime id) (t, s)).1 =
      if k ∈ contribMimes (fun m2 => s.blacklistMimeDesktop m2 id) ms then
        some (aget t k ++ [id])
      else alookup k t := by
  intro ms
  induction ms with
  | nil =>
    intro t s k
    rw [if_neg (fun hc : k ∈ contribMimes
        (fun m2 => s.blacklistMimeDesktop m2 id) [] => List.not_mem_nil k hc)]
    rfl
  | cons m0 ms ih =>
    intro t s k
    by_cases hb : s.blacklistMimeDesktop m0 id
    · rw [List.foldl_cons, scanMime_pair_true id t s m0 hb, ih,
        contribMimes_cons_true (fun m2 => s.blacklistMimeDesktop m2 id) m0 ms hb]
    · have hb0 : s.blacklistMimeDesktop m0 id = false := bool_eq_false_of_not hb
      rw [List.foldl_cons, scanMime_pair_false id t s m0 hb0, ih]
      show (if k ∈ contribMimes
            (fun m2 => setBlacklistMD s.blacklistMimeDesktop m0 id m2 id) ms then
          some (aget (updateAList t m0 id) k ++ [id])
        else alookup k (updateAList t m0 id)) =
        (if k ∈ contribMimes (fun m2 => s.blacklistMimeDesktop m2 id) (m0 :: ms) then
          some (aget t k ++ [id])
        else alookup k t)
      rw [setBlacklistMD_column,
        contribMimes_cons_false (fun m2 => s.blacklistMimeDesktop m2 id) m0 ms hb0]
      by_cases hk0 : k = m0
      · subst hk0
        rw [if_neg (contribMimes_not_mem ms _ (setTrue_self _ _)),
          if_pos (List.mem_cons_self _ _), alookup_updateAList, if_pos rfl]
      · by_cases hk : k ∈ contribMimes
            (setTrue (fun m2 => s.blacklistMimeDesktop m2 id) m0) ms
        · rw [if_pos hk, if_pos (List.mem_cons_of_mem m0 hk), aget_updateAList,
            if_neg hk0]
        · rw [if_neg hk, if_neg (fun hc => (List.mem_cons.mp hc).elim hk0 hk),
            alookup_updateAList, if_neg hk0]

theorem scanContrib_blIds (load : String → Option Entry) (dirname : String)
    {s : AState} {e : String × List String} (h : s.blacklistDesktopIds e.1 = true) :
    scanContrib load dirname s e = [] := by
  unfold scanContrib
  rw [if_pos h]

theorem scanContrib_not (load : String → Option Entry) (dirname : String)
    {s : AState} {e : String × List String} (h : s.blacklistDesktopIds e.1 = false) :
    scanContrib load dirname s e =
      (match firstPathUnder dirname e.2 with
       | none => []
       | some p =>
         match load p with
         | none => []
         | some entry =>
           contribMimes (fun m => s.blacklistMimeDesktop m e.1) entry.MimeType) := by
  unfold scanContrib
  rw [if_neg (by rw [h]; decide)]

theorem scanHits_congr (dirname : String) {s s2 : AState} (e : String × List String)
    (h : s.blacklistDesktopIds e.1 = s2.blacklistDesktopIds e.1) :
    scanHits dirname s e = scanHits dirname s2 e := by
  unfold scanHits
  rw [h]

theorem scanContrib_congr (load : String → Option Entry) (dirname : String)
    {s s2 : AState} (e : String × List String)
    (h1 : s.blacklistDesktopIds e.1 = s2.blacklistDesktopIds e.1)
    (h2 : ∀ m, s.blacklistMimeDesktop m e.1 = s2.blacklistMimeDesktop m e.1) :
    scanContrib load dirname s e = scanContrib load dirname s2 e := by
  unfold scanContrib
  rw [h1, funext h2]

theorem scanId_blIds_other (load : String → Option Entry) (dirname : String)
    (acc : StrListMap × AState) (e : String × List String) {d : String} (hd : ¬ d = e.1) :
    (scanId load dirname acc e).2.blacklistDesktopIds d =
      acc.2.blacklistDesktopIds d := by
  rw [scanId_eq]
  by_cases hbl : acc.2.blacklistDesktopIds e.1
  · rw [if_pos hbl]
  · rw [if_neg hbl]
    cases hfp : firstPathUnder dirname e.2 with
    | none => rfl
    | some p =>
      show (match load p with
        | none =>
          ((acc.1, { acc.2 with
            blacklistDesktopIds := setTrue acc.2.blacklistDesktopIds e.1 }) :
              StrListMap × AState)
        | some entry =>
          entry.MimeType.foldl (scanMime e.1)
            (acc.1, { acc.2 with
              blacklistDesktopIds := setTrue acc.2.blacklistDesktopIds e.1 })).2.blacklistDesktopIds
          d = acc.2.blacklistDesktopIds d
      cases hld : load p with
      | none => exact setTrue_ne _ hd
      | some entry =>
        show ((entry.MimeType.foldl (scanMime e.1)
          (acc.1, { acc.2 with
            blacklistDesktopIds :=
              setTrue acc.2.blacklistDesktopIds e.1 })).2.blacklistDesktopIds) d =
          acc.2.blacklistDesktopIds d
        rw [scanMimes_blIds]
        exact setTrue_ne _ hd

theorem scanId_blIds_self (load : String → Option Entry) (dirname : String)
    (acc : StrListMap × AState) (e : String × List String) :
    (scanId load dirname acc e).2.blacklistDesktopIds e.1 =
      (acc.2.blacklistDesktopIds e.1 || scanHits dirname acc.2 e) := by
  unfold scanHits
  rw [scanId_eq]
  by_cases hbl : acc.2.blacklistDesktopIds e.1
  · rw [if_pos hbl, hbl, Bool.true_or]
  · have hb0 : acc.2.blacklistDesktopIds e.1 = false := bool_eq_false_of_not hbl
    rw [if_neg hbl, hb0, Bool.false_or, Bool.not_false, Bool.true_and]
    cases hfp : firstPathUnder dirname e.2 with
    | none => exact hb0
    | some p =>
      show (match load p with
        | none =>
          ((acc.1, { acc.2 with
            blacklistDesktopIds := setTrue acc.2.blacklistDesktopIds e.1 }) :
              StrListMap × AState)
        | some entry =>
          entry.MimeType.foldl (scanMime e.1)
            (acc.1, { acc.2 with
              blacklistDesktopIds := setTrue acc.2.blacklistDesktopIds e.1 })).2.blacklistDesktopIds
          e.1 = true
      cases hld : load p with
      | none => exact setTrue_self _ _
      | some entry =>
        show ((entry.MimeType.foldl (scanMime e.1)
          (acc.1, { acc.2 with
            blacklistDesktopIds :=
              setTrue acc.2.blacklistDesktopIds e.1 })).2.blacklistDesktopIds) e.1 = true
        rw [scanMimes_blIds]
        exact setTrue_self _ _

theorem scanId_blMD (load : String → Option Entry) (dirname : String)
    (acc : StrListMap × AState) (e : String × List String) (m d : String) :
    (scanId load dirname acc e).2.blacklistMimeDesktop m d =
      if d = e.1 ∧ m ∈ scanContrib load dirname acc.2 e then true
      else acc.2.blacklistMimeDesktop m d := by
  rw [scanId_eq]
  by_cases hbl : acc.2.blacklistDesktopIds e.1
  · rw [if_pos hbl, scanContrib_blIds load dirname hbl,
      if_neg (fun hc : d = e.1 ∧ m ∈ ([] : List String) => List.not_mem_nil m hc.2)]
  · rw [if_neg hbl, scanContrib_not load dirname (bool_eq_false_of_not hbl)]
    cases hfp : firstPathUnder dirname e.2 with
    | none =>
      show acc.2.blacklistMimeDesktop m d =
        if d = e.1 ∧ m ∈ ([] : List String) then true else acc.2.blacklistMimeDesktop m d
      rw [if_neg (fun hc : d = e.1 ∧ m ∈ ([] : List String) => List.not_mem_nil m hc.2)]
    | some p =>
      show (match load p with
        | none =>
          ((acc.1, { acc.2 with
            blacklistDesktopIds := setTrue acc.2.blacklistDesktopIds e.1 }) :
              StrListMap × AState)
        | some entry =>
          entry.MimeType.foldl (scanMime e.1)
            (acc.1, { acc.2 with
              blacklistDesktopIds := setTrue acc.2.blacklistDesktopIds e.1 })).2.blacklistMimeDesktop
          m d =
        if d = e.1 ∧ m ∈ (match load p with
          | none => ([] : List String)
          | some entry =>
            contribMimes (fun m2 => acc.2.blacklistMimeDesktop m2 e.1) entry.MimeType) then
          true
        else acc.2.blacklistMimeDesktop m d
      cases hld : load p with
      | none =>
        show acc.2.blacklistMimeDesktop m d =
          if d = e.1 ∧ m ∈ ([] : List String) then true else acc.2.blacklistMimeDesktop m d
        rw [if_neg (fun hc : d = e.1 ∧ m ∈ ([] : List String) => List.not_mem_nil m hc.2)]
      | some entry =>
        show ((entry.MimeType.foldl (scanMime e.1)
          (acc.1, { acc.2 with
            blacklistDesktopIds :=
              setTrue acc.2.blacklistDesktopIds e.1 })).2.blacklistMimeDesktop) m d = _
        rw [scanMimes_blMD]

theorem scanId_alookup (load : String → Option Entry) (dirname : String)
    (acc : StrListMap × AState) (e : String × List String) (k : String) :
    alookup k (scanId load dirname acc e).1 =
      if k ∈ scanContrib load dirname acc.2 e then some (aget acc.1 k ++ [e.1])
      else alookup k acc.1 := by
  rw [scanId_eq]
  by_cases hbl : acc.2.blacklistDesktopIds e.1
  · rw [if_pos hbl, scanContrib_blIds load dirname hbl,
      if_neg (fun hc : k ∈ ([] : List String) => List.not_mem_nil k hc)]
  · rw [if_neg hbl, scanContrib_not load dirname (bool_eq_false_of_not hbl)]
    cases hfp : firstPathUnder dirname e.2 with
    | none =>
      show alookup k acc.1 =
        if k ∈ ([] : List String) then some (aget acc.1 k ++ [e.1]) else alookup k acc.1
      rw [if_neg (fun hc : k ∈ ([] : List String) => List.not_mem_nil k hc)]
    | some p =>
      show alookup k (match load p with
        | none =>
          ((acc.1, { acc.2 with
            blacklistDesktopIds := setTrue acc.2.blacklistDesktopIds e.1 }) :
              StrListMap × AState)
        | some entry =>
          entry.MimeType.foldl (scanMime e.1)
            (acc.1, { acc.2 with
              blacklistDesktopIds := setTrue acc.2.blacklistDesktopIds e.1 })).1 =
        if k ∈ (match load p with
          | none => ([] : List String)
          | some entry =>
            contribMimes (fun m2 => acc.2.blacklistMimeDesktop m2 e.1) entry.MimeType) then
          some (aget acc.1 k ++ [e.1])
        else alookup k acc.1
      cases hld : load p with
      | none =>
        show alookup k acc.1 =
          if k ∈ ([] : List String) then some (aget acc.1 k ++ [e.1]) else alookup k acc.1
        rw [if_neg (fun hc : k ∈ ([] : List String) => List.not_mem_nil k hc)]
      | some entry =>
        show alookup k (entry.MimeType.foldl (scanMime e.1)
          (acc.1, { acc.2 with
            blacklistDesktopIds := setTrue acc.2.blacklistDesktopIds e.1 })).1 = _
        rw [scanMimes_alookup]

theorem scanId_snd_congr (load : String → Option Entry) (dirname : String)
    {p q : StrListMap × AState} (h : p.2 = q.2) (e : String × List String) :
    (scanId load dirname p e).2 = (scanId load dirname q e).2 := by
  refine AState.ext ?_ ?_ ?_
  · rw [scanId_result, scanId_result, h]
  · funext m d
    rw [scanId_blMD, scanId_blMD, h]
  · funext d
    by_cases hd : d = e.1
    · rw [hd, scanId_blIds_self, scanId_blIds_self, h]
    · rw [scanId_blIds_other load dirname p e hd,
        scanId_blIds_other load dirname q e hd, h]

theorem scanId_scanEquiv (load : String → Option Entry) (dirname : String)
    (p q : StrListMap × AState) (e : String × List String) (h : ScanEquiv p q) :
    ScanEquiv (scanId load dirname p e) (scanId load dirname q e) := by
  obtain ⟨hs, hv⟩ := h
  refine ⟨scanId_snd_congr load dirname hs e, ?_⟩
  intro k
  rw [scanId_alookup, scanId_alookup, hs]
  by_cases hk : k ∈ scanContrib load dirname q.2 e
  · rw [if_pos hk, if_pos hk]
    have hvk := hv k
    unfold aget
    cases hp : alookup k p.1 with
    | none =>
      cases hq : alookup k q.1 with
      | none =>
        exact List.Perm.refl _
      | some w =>
        rw [hp, hq] at hvk
        exact absurd hvk (fun hc => hc)
    | some v =>
      cases hq : alookup k q.1 with
      | none =>
        rw [hp, hq] at hvk
        exact absurd hvk (fun hc => hc)
      | some w =>
        rw [hp, hq] at hvk
        exact List.Perm.append hvk (List.Perm.refl [e.1])
  · rw [if_neg hk, if_neg hk]
    exact hv k

theorem scanId_swap (load : String → Option Entry) (dirname : String)
    (p : StrListMap × AState) (e1 e2 : String × List String) (hne : e1.1 ≠ e2.1) :
    ScanEquiv (scanId load dirname (scanId load dirname p e1) e2)
      (scanId load dirname (scanId load dirname p e2) e1) := by
  have hC2 : scanContrib load dirname (scanId load dirname p e1).2 e2 =
      scanContrib load dirname p.2 e2 :=
    scanContrib_congr load dirname e2
      (scanId_blIds_other load dirname p e1 (fun hc => hne hc.symm))
      (fun m => by
        rw [scanId_blMD, if_neg (fun hc => hne hc.1.symm)])
  have hC1 : scanContrib load dirname (scanId load dirname p e2).2 e1 =
      scanContrib load dirname p.2 e1 :=
    scanContrib_congr load dirname e1
      (scanId_blIds_other load dirname p e2 hne)
      (fun m => by
        rw [scanId_blMD, if_neg (fun hc => hne hc.1)])
  have hH1 : scanHits dirname (scanId load dirname p e2).2 e1 = scanHits dirname p.2 e1 :=
    scanHits_congr dirname e1 (scanId_blIds_other load dirname p e2 hne)
  have hH2 : scanHits dirname (scanId load dirname p e1).2 e2 = scanHits dirname p.2 e2 :=
    scanHits_congr dirname e2 (scanId_blIds_other load dirname p e1 (fun hc => hne hc.symm))
  refine ⟨AState.ext ?_ ?_ ?_, ?_⟩
  · rw [scanId_result, scanId_result, scanId_result, scanId_result]
  · funext m d
    rw [scanId_blMD, scanId_blMD, scanId_blMD, scanId_blMD, hC1, hC2]
    by_cases h2 : d = e2.1 ∧ m ∈ scanContrib load dirname p.2 e2
    · rw [if_pos h2]
      by_cases h1 : d = e1.1 ∧ m ∈ scanContrib load dirname p.2 e1
      · exact absurd (h1.1.symm.trans h2.1) hne
      · rw [if_neg h1, if_pos h2]
    · rw [if_neg h2]
      by_cases h1 : d = e1.1 ∧ m ∈ scanContrib load dirname p.2 e1
      · rw [if_pos h1, if_pos h1]
      · rw [if_neg h1, if_neg h1, if_neg h2]
  · funext d
    by_cases hd1 : d = e1.1
    · rw [hd1,
        scanId_blIds_other load dirname (scanId load dirname p e1) e2 hne,
        scanId_blIds_self load dirname p e1,
        scanId_blIds_self load dirname (scanId load dirname p e2) e1,
        scanId_blIds_other load dirname p e2 hne, hH1]
    · by_cases hd2 : d = e2.1
      · rw [hd2,
          scanId_blIds_self load dirname (scanId load dirname p e1) e2,
          scanId_blIds_other load dirname p e1 (fun hc => hne hc.symm), hH2,
          scanId_blIds_other load dirname (scanId load dirname p e2) e1
            (fun hc => hne hc.symm),
          scanId_blIds_self load dirname p e2]
      · rw [scanId_blIds_other load dirname (scanId load dirname p e1) e2 hd2,
          scanId_blIds_other load dirname p e1 hd1,
          scanId_blIds_other load dirname (scanId load dirname p e2) e1 hd1,
          scanId_blIds_other load dirname p e2 hd2]
  · intro k
    rw [scanId_alookup load dirname (scanId load dirname p e1) e2 k, hC2,
      scanId_alookup load dirname (scanId load dirname p e2) e1 k, hC1]
    unfold aget
    rw [scanId_alookup load dirname p e1 k, scanId_alookup load dirname p e2 k]
    unfold aget
    by_cases hk1 : k ∈ scanContrib load dirname p.2 e1
    · by_cases hk2 : k ∈ scanContrib load dirname p.2 e2
      · simp only [if_pos hk1, if_pos hk2]
        show ((alookup k p.1).getD [] ++ [e1.1] ++ [e2.1]).Perm
          ((alookup k p.1).getD [] ++ [e2.1] ++ [e1.1])
        rw [List.append_assoc, List.append_assoc]
        exact List.Perm.append_left _ (List.Perm.swap e2.1 e1.1 [])
      · simp only [if_pos hk1, if_neg hk2]
        exact valEquiv_refl _
    · by_cases hk2 : k ∈ scanContrib load dirname p.2 e2
      · simp only [if_neg hk1, if_pos hk2]
        exact valEquiv_refl _
      · simp only [if_neg hk1, if_neg hk2]
        exact valEquiv_refl _

theorem scanFold_perm (load : String → Option Entry) (dirname : String)
    {m1 m2 : StrListMap} (hperm : m1.Perm m2) (hkeys : NodupKeys m1)
    (acc : StrListMap × AState) :
    ScanEquiv (m1.foldl (scanId load dirname) acc) (m2.foldl (scanId load dirname) acc) :=
  foldl_perm_rel ScanEquiv Prod.fst (scanId load dirname) scanEquiv_refl
    (fun h1 h2 => scanEquiv_trans h1 h2)
    (fun p q e h => scanId_scanEquiv load dirname p q e h)
    (fun p e1 e2 hne => scanId_swap load dirname p e1 e2 hne)
    hperm hkeys acc acc (scanEquiv_refl acc)

theorem nodupKeys_scanMime (id : String) (acc : StrListMap × AState) (m : String)
    (h : NodupKeys acc.1) : NodupKeys (scanMime id acc m).1 := by
  rcases scanMime_cases id acc m with he | ⟨_, he⟩
  · rw [he]
    exact h
  · rw [he]
    exact nodupKeys_updateAList h m id

theorem nodupKeys_scanMimes (id : String) : ∀ (ms : List String)
    (acc : StrListMap × AState), NodupKeys acc.1 →
    NodupKeys (ms.foldl (scanMime id) acc).1 := by
  intro ms
  induction ms with
  | nil =>
    intro acc h
    exact h
  | cons m0 ms ih =>
    intro acc h
    rw [List.foldl_cons]
    exact ih _ (nodupKeys_scanMime id acc m0 h)

theorem nodupKeys_scanId (load : String → Option Entry) (dirname : String)
    (acc : StrListMap × AState) (e : String × List String) (h : NodupKeys acc.1) :
    NodupKeys (scanId load dirname acc e).1 := by
  rw [scanId_eq]
  by_cases hbl : acc.2.blacklistDesktopIds e.1
  · rw [if_pos hbl]
    exact h
  · rw [if_neg hbl]
    cases hfp : firstPathUnder dirname e.2 with
    | none => exact h
    | some p =>
      show NodupKeys (match load p with
        | none =>
          ((acc.1, { acc.2 with
            blacklistDesktopIds := setTrue acc.2.blacklistDesktopIds e.1 }) :
              StrListMap × AState)
        | some entry =>
          entry.MimeType.foldl (scanMime e.1)
            (acc.1, { acc.2 with
              blacklistDesktopIds := setTrue acc.2.blacklistDesktopIds e.1 })).1
      cases hld : load p with
      | none => exact h
      | some entry => exact nodupKeys_scanMimes e.1 entry.MimeType _ h

theorem nodupKeys_scanFold (load : String → Option Entry) (dirname : String) :
    ∀ (idm : StrListMap) (acc : StrListMap × AState), NodupKeys acc.1 →
    NodupKeys (idm.foldl (scanId load dirname) acc).1 := by
  intro idm
  induction idm with
  | nil =>
    intro acc h
    exact h
  | cons e es ih =>
    intro acc h
    rw [List.foldl_cons]
    exact ih _ (nodupKeys_scanId load dirname acc e h)

theorem flushFold_result (t : StrListMap) : ∀ (s : AState) (m : String), NodupKeys t →
    (t.foldl flushEntry s).result m =
      (match alookup m t with
       | none => s.result m
       | some ids => some (resGet s m ++ sortStrings ids)) := by
  induction t with
  | nil =>
    intro s m _
    rfl
  | cons e es ih =>
    intro s m hkeys
    obtain ⟨hdist, hkeys2⟩ := nodupKeys_cons_ne hkeys
    rw [List.foldl_cons, ih _ m hkeys2]
    by_cases hm : e.1 = m
    · have hnone : alookup m es = none := by
        rw [alookup_none_iff]
        intro hc
        rcases List.mem_map.mp hc with ⟨e2, he2, he2k⟩
        exact hdist e2 he2 (he2k.trans hm.symm)
      rw [hnone, alookup_cons, if_pos hm]
      show (flushEntry s e).result m = some (resGet s m ++ sortStrings e.2)
      rw [flushEntry_result, if_pos hm.symm, hm]
    · rw [alookup_cons, if_neg hm]
      have hfr : (flushEntry s e).result m = s.result m := by
        rw [flushEntry_result, if_neg (fun hc => hm hc.symm)]
      cases hes : alookup m es with
      | none =>
        show (flushEntry s e).result m = s.result m
        exact hfr
      | some ids =>
        show some (resGet (flushEntry s e) m ++ sortStrings ids) =
          some (resGet s m ++ sortStrings ids)
        unfold resGet
        rw [hfr]

theorem flushFold_blMD : ∀ (t : StrListMap) (s : AState),
    (t.foldl flushEntry s).blacklistMimeDesktop = s.blacklistMimeDesktop := by
  intro t
  induction t with
  | nil =>
    intro s
    rfl
  | cons e es ih =>
    intro s
    rw [List.foldl_cons, ih]
    rfl

theorem flushFold_blIds : ∀ (t : StrListMap) (s : AState),
    (t.foldl flushEntry s).blacklistDesktopIds = s.blacklistDesktopIds := by
  intro t
  induction t with
  | nil =>
    intro s
    rfl
  | cons e es ih =>
    intro s
    rw [List.foldl_cons, ih]
    rfl

theorem flushToAdd_scanEquiv {p q : StrListMap × AState} (h : ScanEquiv p q)
    (hk1 : NodupKeys p.1) (hk2 : NodupKeys q.1) : flushToAdd p = flushToAdd q := by
  obtain ⟨hs, hv⟩ := h
  unfold flushToAdd
  refine AState.ext ?_ ?_ ?_
  · funext m
    rw [flushFold_result p.1 p.2 m hk1, flushFold_result q.1 q.2 m hk2, hs]
    have hvm := hv m
    cases hp : alookup m p.1 with
    | none =>
      cases hq : alookup m q.1 with
      | none => rfl
      | some w =>
        rw [hp, hq] at hvm
        exact absurd hvm (fun hc => hc)
    | some v =>
      cases hq : alookup m q.1 with
      | none =>
        rw [hp, hq] at hvm
        exact absurd hvm (fun hc => hc)
      | some w =>
        rw [hp, hq] at hvm
        show some (resGet q.2 m ++ sortStrings v) = some (resGet q.2 m ++ sortStrings w)
        rw [sortStrings_eq_of_perm hvm]
  · rw [flushFold_blMD, flushFold_blMD, hs]
  · rw [flushFold_blIds, flushFold_blIds, hs]

/-! ### Determinism of `GetAssociations` (claim C7, stage 6) -/

theorem outcomeEquiv_toMimeApps {o1 o2 : ParseOutcome} (h : OutcomeEquiv o1 o2) :
    MapEquiv o1.toMimeApps.Default o2.toMimeApps.Default ∧
    MapEquiv o1.toMimeApps.Added o2.toMimeApps.Added ∧
    MapEquiv o1.toMimeApps.Removed o2.toMimeApps.Removed := by
  cases o1 with
  | ok m1 =>
    cases o2 with
    | ok m2 => exact ⟨h.1, h.2.1, h.2.2⟩
    | missing => exact absurd h (fun hc => hc)
    | failed => exact absurd h (fun hc => hc)
  | missing =>
    cases o2 with
    | ok m2 => exact absurd h (fun hc => hc)
    | missing =>
      exact ⟨⟨List.Perm.nil, List.nodup_nil⟩, ⟨List.Perm.nil, List.nodup_nil⟩,
        ⟨List.Perm.nil, List.nodup_nil⟩⟩
    | failed => exact absurd h (fun hc => hc)
  | failed =>
    cases o2 with
    | ok m2 => exact absurd h (fun hc => hc)
    | missing => exact absurd h (fun hc => hc)
    | failed =>
      exact ⟨⟨List.Perm.nil, List.nodup_nil⟩, ⟨List.Perm.nil, List.nodup_nil⟩,
        ⟨List.Perm.nil, List.nodup_nil⟩⟩

theorem processLocation_congr (load : String → Option Entry)
    {parse1 parse2 : String → ParseOutcome} (dLI : String → Option Int)
    {idm1 idm2 : StrListMap} (hperm : idm1.Perm idm2) (hkeys : NodupKeys idm1)
    (i : Nat) (s : AState) (loc : ListLocation)
    (hpar : OutcomeEquiv (parse1 loc.Path) (parse2 loc.Path)) :
    processLocation load parse1 dLI idm1 i s loc =
      processLocation load parse2 dLI idm2 i s loc := by
  obtain ⟨hD, hA, hR⟩ := outcomeEquiv_toMimeApps hpar
  unfold processLocation
  by_cases hbase : filepathBase loc.Path ≠ "mimeapps.list"
  · rw [if_pos hbase, if_pos hbase]
  · rw [if_neg hbase, if_neg hbase]
    show (if !loc.HasDesktopFiles then
        processRemoved dLI i (processAdded dLI i s (parse1 loc.Path).toMimeApps.Added)
          (parse1 loc.Path).toMimeApps.Removed
      else flushToAdd (idm1.foldl (scanId load (filepathDir loc.Path))
        ([], processRemoved dLI i
          (processAdded dLI i s (parse1 loc.Path).toMimeApps.Added)
          (parse1 loc.Path).toMimeApps.Removed))) =
      (if !loc.HasDesktopFiles then
        processRemoved dLI i (processAdded dLI i s (parse2 loc.Path).toMimeApps.Added)
          (parse2 loc.Path).toMimeApps.Removed
      else flushToAdd (idm2.foldl (scanId load (filepathDir loc.Path))
        ([], processRemoved dLI i
          (processAdded dLI i s (parse2 loc.Path).toMimeApps.Added)
          (parse2 loc.Path).toMimeApps.Removed)))
    rw [processAdded_perm dLI i hA.1 hA.2 s,
      processRemoved_perm dLI i hR.1 hR.2
        (processAdded dLI i s (parse2 loc.Path).toMimeApps.Added)]
    by_cases hdf : (!loc.HasDesktopFiles) = true
    · rw [if_pos hdf, if_pos hdf]
    · rw [if_neg hdf, if_neg hdf]
      exact flushToAdd_scanEquiv
        (scanFold_perm load (filepathDir loc.Path) hperm hkeys _)
        (nodupKeys_scanFold load (filepathDir loc.Path) idm1 _ List.nodup_nil)
        (nodupKeys_scanFold load (filepathDir loc.Path) idm2 _ List.nodup_nil)

theorem assocLoop_congr (load : String → Option Entry)
    {parse1 parse2 : String → ParseOutcome} (dLI : String → Option Int)
    {idm1 idm2 : StrListMap} (hperm : idm1.Perm idm2) (hkeys : NodupKeys idm1)
    (hpar : ∀ p, OutcomeEquiv (parse1 p) (parse2 p)) :
    ∀ (locs : List ListLocation) (i : Nat) (s : AState),
    assocLoop load parse1 dLI idm1 i s locs = assocLoop load parse2 dLI idm2 i s locs := by
  intro locs
  induction locs with
  | nil =>
    intro i s
    rfl
  | cons loc rest ih =>
    intro i s
    show assocLoop load parse1 dLI idm1 (i + 1)
        (processLocation load parse1 dLI idm1 i s loc) rest = _
    rw [processLocation_congr load dLI hperm hkeys i s loc (hpar loc.Path)]
    exact ih (i + 1) _

theorem GetAssociations_perm (locations : List ListLocation) {idm1 idm2 : StrListMap}
    {parse1 parse2 : String → ParseOutcome} (load : String → Option Entry)
    (hperm : idm1.Perm idm2) (hkeys : NodupKeys idm1)
    (hpar : ∀ p, OutcomeEquiv (parse1 p) (parse2 p)) :
    GetAssociations locations idm1 parse1 load =
      GetAssociations locations idm2 parse2 load := by
  have hdli : desktopIdLowestIndex locations idm1 = desktopIdLowestIndex locations idm2 := by
    funext d
    unfold desktopIdLowestIndex
    rw [alookup_perm hperm hkeys d]
  unfold GetAssociations
  rw [← hdli, assocLoop_congr load (desktopIdLowestIndex locations idm1) hperm hkeys hpar
    locations 0 initialAState]

/-! ### Determinism of `GetDefaults` (claim C7, stage 7) -/

theorem loadById_perm (load : String → Option Entry) {idm1 idm2 : StrListMap}
    (hperm : idm1.Perm idm2) (hkeys : NodupKeys idm1) :
    loadById load idm1 = loadById load idm2 := by
  funext d
  unfold loadById
  rw [alookup_perm hperm hkeys d]

theorem defaultId_idm (load : String → Option Entry) {idm1 idm2 : StrListMap}
    (h : loadById load idm1 = loadById load idm2) :
    defaultId load idm1 = defaultId load idm2 := by
  funext assoc mime r d
  unfold defaultId
  rw [h]

theorem defaultId_none {load : String → Option Entry} {idm : StrListMap}
    {assoc : String → Option (List String)} {mime : String} {r : StrListMap} {d : String}
    (h : loadById load idm d = none) : defaultId load idm assoc mime r d = r := by
  unfold defaultId
  rw [h]

theorem defaultId_some_mem {load : String → Option Entry} {idm : StrListMap}
    {assoc : String → Option (List String)} {mime : String} {r : StrListMap} {d : String}
    {x : Entry × String} (hl : loadById load idm d = some x)
    (hm : d ∈ (assoc mime).getD []) :
    defaultId load idm assoc mime r d = updateAList r mime d := by
  unfold defaultId
  rw [hl]
  show (if d ∈ (assoc mime).getD [] then updateAList r mime d else r) = _
  rw [if_pos hm]

theorem defaultId_some_notmem {load : String → Option Entry} {idm : StrListMap}
    {assoc : String → Option (List String)} {mime : String} {r : StrListMap} {d : String}
    {x : Entry × String} (hl : loadById load idm d = some x)
    (hm : d ∉ (assoc mime).getD []) :
    defaultId load idm assoc mime r d = r := by
  unfold defaultId
  rw [hl]
  show (if d ∈ (assoc mime).getD [] then updateAList r mime d else r) = _
  rw [if_neg hm]

theorem defaultId_alookup_other {k mime : String} (hk : ¬ k = mime)
    (load : String → Option Entry) (idm : StrListMap)
    (assoc : String → Option (List String)) (r : StrListMap) (d : String) :
    alookup k (defaultId load idm assoc mime r d) = alookup k r := by
  cases hl : loadById load idm d with
  | none => rw [defaultId_none hl]
  | some x =>
    by_cases hm : d ∈ (assoc mime).getD []
    · rw [defaultId_some_mem hl hm, alookup_updateAList, if_neg hk]
    · rw [defaultId_some_notmem hl hm]

theorem defaultId_alookup_self {mime : String} {r1 r2 : StrListMap}
    (h : alookup mime r1 = alookup mime r2) (load : String → Option Entry)
    (idm : StrListMap) (assoc : String → Option (List String)) (d : String) :
    alookup mime (defaultId load idm assoc mime r1 d) =
      alookup mime (defaultId load idm assoc mime r2 d) := by
  cases hl : loadById load idm d with
  | none =>
    rw [defaultId_none hl, defaultId_none hl]
    exact h
  | some x =>
    by_cases hm : d ∈ (assoc mime).getD []
    · rw [defaultId_some_mem hl hm, defaultId_some_mem hl hm,
        alookup_updateAList, alookup_updateAList, if_pos rfl, if_pos rfl]
      unfold aget
      rw [h]
    · rw [defaultId_some_notmem hl hm, defaultId_some_notmem hl hm]
      exact h

theorem defaultIdsFold_alookup_other {k mime : String} (hk : ¬ k = mime)
    (load : String → Option Entry) (idm : StrListMap)
    (assoc : String → Option (List String)) :
    ∀ (ids : List String) (r : StrListMap),
    alookup k (ids.foldl (defaultId load idm assoc mime) r) = alookup k r := by
  intro ids
  induction ids with
  | nil =>
    intro r
    rfl
  | cons d ds ih =>
    intro r
    rw [List.foldl_cons, ih, defaultId_alookup_other hk]

theorem defaultIdsFold_alookup_self {mime : String} (load : String → Option Entry)
    (idm : StrListMap) (assoc : String → Option (List String)) :
    ∀ (ids : List String) {r1 r2 : StrListMap},
    alookup mime r1 = alookup mime r2 →
    alookup mime (ids.foldl (defaultId load idm assoc mime) r1) =
      alookup mime (ids.foldl (defaultId load idm assoc mime) r2) := by
  intro ids
  induction ids with
  | nil =>
    intro r1 r2 h
    exact h
  | cons d ds ih =>
    intro r1 r2 h
    rw [List.foldl_cons, List.foldl_cons]
    exact ih (defaultId_alookup_self h load idm assoc d)

theorem defaultIdsFold_lookupEq (load : String → Option Entry) (idm : StrListMap)
    (assoc : String → Option (List String)) (mime : String) (ids : List String)
    {r1 r2 : StrListMap} (h : LookupEq r1 r2) :
    LookupEq (ids.foldl (defaultId load idm assoc mime) r1)
      (ids.foldl (defaultId load idm assoc mime) r2) := by
  intro k
  by_cases hk : k = mime
  · rw [hk]
    exact defaultIdsFold_alookup_self load idm assoc ids (h mime)
  · rw [defaultIdsFold_alookup_other hk load idm assoc ids r1,
      defaultIdsFold_alookup_other hk load idm assoc ids r2]
    exact h k

theorem defaultEntry_comm (load : String → Option Entry) (idm : StrListMap)
    (assoc : String → Option (List String)) (e1 e2 : String × List String)
    (hne : e1.1 ≠ e2.1) (r : StrListMap) :
    LookupEq (e2.2.foldl (defaultId load idm assoc e2.1)
        (e1.2.foldl (defaultId load idm assoc e1.1) r))
      (e1.2.foldl (defaultId load idm assoc e1.1)
        (e2.2.foldl (defaultId load idm assoc e2.1) r)) := by
  intro k
  by_cases h1 : k = e1.1
  · rw [h1, defaultIdsFold_alookup_other hne load idm assoc e2.2
      (e1.2.foldl (defaultId load idm assoc e1.1) r)]
    exact defaultIdsFold_alookup_self load idm assoc e1.2
      (defaultIdsFold_alookup_other hne load idm assoc e2.2 r).symm
  · by_cases h2 : k = e2.1
    · rw [h2, defaultIdsFold_alookup_other (fun hc => hne hc.symm) load idm assoc e1.2
        (e2.2.foldl (defaultId load idm assoc e2.1) r)]
      exact defaultIdsFold_alookup_self load idm assoc e2.2
        (defaultIdsFold_alookup_other (fun hc => hne hc.symm) load idm assoc e1.2 r)
    · rw [defaultIdsFold_alookup_other h2 load idm assoc e2.2
          (e1.2.foldl (defaultId load idm assoc e1.1) r),
        defaultIdsFold_alookup_other h1 load idm assoc e1.2
          (e2.2.foldl (defaultId load idm assoc e2.1) r),
        defaultIdsFold_alookup_other h1 load idm assoc e1.2 r,
        defaultIdsFold_alookup_other h2 load idm assoc e2.2 r]

theorem processDefaults_lookupEq (load : String → Option Entry) (idm : StrListMap)
    (assoc : String → Option (List String)) {r1 r2 : StrListMap} (h : LookupEq r1 r2)
    (m : StrListMap) :
    LookupEq (processDefaults load idm assoc r1 m) (processDefaults load idm assoc r2 m) := by
  unfold processDefaults
  exact foldl_rel_congr LookupEq _
    (fun p q e hpq => defaultIdsFold_lookupEq load idm assoc e.1 e.2 hpq) m h

theorem processDefaults_perm (load : String → Option Entry) (idm : StrListMap)
    (assoc : String → Option (List String)) {m1 m2 : StrListMap}
    (hperm : m1.Perm m2) (hkeys : NodupKeys m1) (r : StrListMap) :
    LookupEq (processDefaults load idm assoc r m1) (processDefaults load idm assoc r m2) := by
  unfold processDefaults
  exact foldl_perm_rel LookupEq Prod.fst _
    (fun b k => rfl) (fun h1 h2 k => (h1 k).trans (h2 k))
    (fun p q e hpq => defaultIdsFold_lookupEq load idm assoc e.1 e.2 hpq)
    (fun p e1 e2 hne => defaultEntry_comm load idm assoc e1 e2 hne p)
    hperm hkeys r r (fun k => rfl)

theorem GetDefaults_congr (locations : List ListLocation)
    (assoc : String → Option (List String)) {idm1 idm2 : StrListMap}
    {parse1 parse2 : String → ParseOutcome} (load : String → Option Entry)
    (hperm : idm1.Perm idm2) (hkeys : NodupKeys idm1)
    (hpar : ∀ p, OutcomeEquiv (parse1 p) (parse2 p)) :
    LookupEq (GetDefaults locations assoc idm1 parse1 load)
      (GetDefaults locations assoc idm2 parse2 load) := by
  have hdi : defaultId load idm2 = defaultId load idm1 :=
    (defaultId_idm load (loadById_perm load hperm hkeys)).symm
  have hpd : processDefaults load idm2 = processDefaults load idm1 := by
    funext a r m
    unfold processDefaults
    rw [hdi]
  unfold GetDefaults
  rw [hpd]
  suffices h : ∀ (locs : List ListLocation) (r1 r2 : StrListMap), LookupEq r1 r2 →
      LookupEq (locs.foldl (fun r loc =>
          match parse1 loc.Path with
          | .ok parsed => processDefaults load idm1 assoc r parsed.Default
          | .missing => r
          | .failed => r) r1)
        (locs.foldl (fun r loc =>
          match parse2 loc.Path with
          | .ok parsed => processDefaults load idm1 assoc r parsed.Default
          | .missing => r
          | .failed => r) r2) by
    exact h locations [] [] (fun k => rfl)
  intro locs
  induction locs with
  | nil =>
    intro r1 r2 h
    exact h
  | cons loc rest ih =>
    intro r1 r2 h
    rw [List.foldl_cons, List.foldl_cons]
    refine ih _ _ ?_
    have hpl := hpar loc.Path
    cases hp1 : parse1 loc.Path with
    | ok m1 =>
      cases hp2 : parse2 loc.Path with
      | ok m2 =>
        rw [hp1, hp2] at hpl
        have hDm : MapEquiv m1.Default m2.Default := hpl.1
        intro k
        exact ((processDefaults_lookupEq load idm1 assoc h m1.Default) k).trans
          ((processDefaults_perm load idm1 assoc hDm.1 hDm.2 r2) k)
      | missing =>
        rw [hp1, hp2] at hpl
        exact absurd hpl (fun hc => hc)
      | failed =>
        rw [hp1, hp2] at hpl
        exact absurd hpl (fun hc => hc)
    | missing =>
      cases hp2 : parse2 loc.Path with
      | ok m2 =>
        rw [hp1, hp2] at hpl
        exact absurd hpl (fun hc => hc)
      | missing => exact h
      | failed =>
        rw [hp1, hp2] at hpl
        exact absurd hpl (fun hc => hc)
    | failed =>
      cases hp2 : parse2 loc.Path with
      | ok m2 =>
        rw [hp1, hp2] at hpl
        exact absurd hpl (fun hc => hc)
      | missing =>
        rw [hp1, hp2] at hpl
        exact absurd hpl (fun hc => hc)
      | failed => exact h

theorem nodupKeys_defaultId (load : String → Option Entry) (idm : StrListMap)
    (assoc : String → Option (List String)) (mime : String) {r : StrListMap}
    (h : NodupKeys r) (d : String) : NodupKeys (defaultId load idm assoc mime r d) := by
  cases hl : loadById load idm d with
  | none =>
    rw [defaultId_none hl]
    exact h
  | some x =>
    by_cases hm : d ∈ (assoc mime).getD []
    · rw [defaultId_some_mem hl hm]
      exact nodupKeys_updateAList h mime d
    · rw [defaultId_some_notmem hl hm]
      exact h

theorem nodupKeys_processDefaults (load : String → Option Entry) (idm : StrListMap)
    (assoc : String → Option (List String)) {r : StrListMap} (h : NodupKeys r)
    (m : StrListMap) : NodupKeys (processDefaults load idm assoc r m) := by
  unfold processDefaults
  refine foldl_preserves (P := fun (r2 : StrListMap) => NodupKeys r2) _ _ _ h ?_
  intro c e _ hc
  refine foldl_preserves (P := fun (r2 : StrListMap) => NodupKeys r2) _ _ _ hc ?_
  intro c2 d _ hc2
  exact nodupKeys_defaultId load idm assoc e.1 hc2 d

theorem nodupKeys_GetDefaults (locations : List ListLocation)
    (assoc : String → Option (List String)) (idm : StrListMap)
    (parse : String → ParseOutcome) (load : String → Option Entry) :
    NodupKeys (GetDefaults locations assoc idm parse load) := by
  unfold GetDefaults
  refine foldl_preserves (P := fun (r2 : StrListMap) => NodupKeys r2) _ _ _
    List.nodup_nil ?_
  intro c loc _ hc
  cases parse loc.Path with
  | ok parsed => exact nodupKeys_processDefaults load idm assoc hc parsed.Default
  | missing => exact hc
  | failed => exact hc

/-! ### Determinism of the merge and the determinism claim (C7, stage 8) -/

theorem mergePreferred_congrD (assoc : String → Option (List String))
    {d1 d2 : StrListMap} (h : LookupEq d1 d2) (hk1 : NodupKeys d1)
    (hk2 : NodupKeys d2) : mergePreferred assoc d1 = mergePreferred assoc d2 := by
  funext m
  cases hm : alookup m d1 with
  | none =>
    rw [mergePreferred_notin assoc d1 m hm,
      mergePreferred_notin assoc d2 m (by rw [← h m]; exact hm)]
  | some v =>
    rw [mergePreferred_in assoc d1 m v hk1 hm,
      mergePreferred_in assoc d2 m v hk2 (by rw [← h m]; exact hm)]

/-- C7: determinism of the resolvers with respect to the iteration order of
the unordered Go maps.  With the manifest index given in two iteration
orders (a permutation, unique keys) and every path's parse outcome agreeing
as a map (same outcome kind; each section equal up to permutation, unique
keys), `GetAssociations` returns the same function, `GetDefaults` returns
the same map (equal lookups at every key), and `GetPreferredApplications`
returns the same function — the ids found by the colocated scan are sorted
before being appended, which this equality depends on. -/
theorem C7_determinism (locations : List ListLocation) (idm1 idm2 : StrListMap)
    (parse1 parse2 : String → ParseOutcome) (load : String → Option Entry)
    (assoc : String → Option (List String))
    (hperm : idm1.Perm idm2) (hkeys : NodupKeys idm1)
    (hpar : ∀ p, OutcomeEquiv (parse1 p) (parse2 p)) :
    GetAssociations locations idm1 parse1 load =
        GetAssociations locations idm2 parse2 load ∧
      (∀ k, alookup k (GetDefaults locations assoc idm1 parse1 load) =
        alookup k (GetDefaults locations assoc idm2 parse2 load)) ∧
      GetPreferredApplications locations idm1 parse1 load =
        GetPreferredApplications locations idm2 parse2 load := by
  have hga := GetAssociations_perm locations load hperm hkeys hpar
  refine ⟨hga, GetDefaults_congr locations assoc load hperm hkeys hpar, ?_⟩
  unfold GetPreferredApplications
  show mergePreferred (GetAssociations locations idm1 parse1 load)
      (GetDefaults locations (GetAssociations locations idm1 parse1 load) idm1 parse1 load) =
    mergePreferred (GetAssociations locations idm2 parse2 load)
      (GetDefaults locations (GetAssociations locations idm2 parse2 load) idm2 parse2 load)
  rw [← hga]
  exact mergePreferred_congrD (GetAssociations locations idm1 parse1 load)
    (GetDefaults_congr locations (GetAssociations locations idm1 parse1 load) load
      hperm hkeys hpar)
    (nodupKeys_GetDefaults locations (GetAssociations locations idm1 parse1 load)
      idm1 parse1 load)
    (nodupKeys_GetDefaults locations (GetAssociations locations idm1 parse1 load)
      idm2 parse2 load)

theorem C7_determinism_witness :
    exIdmC7a.Perm exIdmC7b ∧ NodupKeys exIdmC7a ∧
    (∀ p, OutcomeEquiv (exParseC7a p) (exParseC7b p)) ∧
    (GetAssociations [exLocC7] exIdmC7a exParseC7a exLoadC7 =
        GetAssociations [exLocC7] exIdmC7b exParseC7b exLoadC7 ∧
      (∀ k, alookup k (GetDefaults [exLocC7] exAssocC7 exIdmC7a exParseC7a exLoadC7) =
        alookup k (GetDefaults [exLocC7] exAssocC7 exIdmC7b exParseC7b exLoadC7)) ∧
      GetPreferredApplications [exLocC7] exIdmC7a exParseC7a exLoadC7 =
        GetPreferredApplications [exLocC7] exIdmC7b exParseC7b exLoadC7) := by
  have hperm : exIdmC7a.Perm exIdmC7b := by
    unfold exIdmC7a exIdmC7b
    exact List.Perm.swap _ _ _
  have hpar : ∀ p, OutcomeEquiv (exParseC7a p) (exParseC7b p) := by
    intro p
    unfold exParseC7a exParseC7b
    by_cases hp : p = "/cfg/mimeapps.list"
    · rw [if_pos hp, if_pos hp]
      exact ⟨⟨List.Perm.refl _, by decide⟩,
        ⟨List.Perm.swap ("text/y", ["a.desktop"]) ("text/x", ["b.desktop"]) [], by decide⟩,
        ⟨List.Perm.nil, List.nodup_nil⟩⟩
    · rw [if_neg hp, if_neg hp]
      exact trivial
  exact ⟨hperm, by decide, hpar,
    C7_determinism [exLocC7] exIdmC7a exIdmC7b exParseC7a exParseC7b exLoadC7 exAssocC7
      hperm (by decide) hpar⟩

end XdgMime
